import Mathlib

/-!
Verification development for the ghdraught International Draughts engine.

The JavaScript sources are shallowly embedded as executable Lean
definitions:

* JS numbers are modelled as integers (`ℤ`/`ℕ`) where the source only
  performs integral arithmetic, and as exact rationals (`ℚ`) where the
  source multiplies by decimal literals (`1.5`, `1.2`, `0.8`, ...).  The
  engine's comparisons all happen at integer-scale margins, far above
  double-precision rounding noise, so exact rationals are a faithful
  model of the source's `number` arithmetic for every property proved
  here.
* JS `±Infinity` is modelled by the three-valued type `JNum`.
* Mutable arrays/maps are modelled by explicit state passing:
  association lists for `Map`s, `List (List ℕ)` for the 10×10 grid.
* Unbounded `while` loops and the recursion of `findCaptureSequences`
  (which the source cuts off via `recursionDepth > 20`) are modelled
  with an explicit fuel argument; the fuel is chosen so that it can
  never run out before the source's own termination condition fires
  (diagonal scans leave the 10×10 board within at most 12 steps, and
  `fuel = 21 - recursionDepth` makes the fuel-0 case coincide exactly
  with the source's `recursionDepth > 20` early return).
-/

/- Core marks the rational-arithmetic primitives `@[irreducible]`, which
blocks compile-time evaluation of the decidable comparisons used to check
concrete engine runs; re-marking them semireducible (their definitions are
ordinary computable functions) restores it. -/
attribute [local semireducible] Rat.add Rat.sub Rat.mul Rat.inv

namespace Draughts

/-- A board coordinate, `row`/`col` as in the source (JS numbers that may
temporarily go off-board during diagonal scans, hence `ℤ`). -/
structure Coord where
  row : ℤ
  col : ℤ
deriving DecidableEq, Repr

/-- A move value object: source square, destination square and the ordered
list of captured squares (`captures`), as in the source's move literals
`{ from, to, captures }`.  `from` is a reserved word in Lean, so the two
squares are named `fromSq`/`toSq`. -/
structure Move where
  fromSq : Coord
  toSq : Coord
  captures : List Coord
deriving DecidableEq, Repr

/-- The 10×10 grid of piece codes, row-major, as in the source's
`position.pieces`. -/
abbrev Board : Type := List (List ℕ)

/-- A position: grid, player to move, and the per-search list of previously
visited position keys (the source's `position.history`). -/
structure Position where
  pieces : Board
  currentPlayer : ℕ
  history : List String
deriving DecidableEq

/-- Modelled from the spec: `BOARD_SIZE` from the missing `constants.js`;
the data model fixes a 10×10 grid. -/
def BOARD_SIZE : ℕ := 10

namespace PIECE

/-- Modelled from the spec: the cell-content enum of the missing
`constants.js` (empty / white man / black man / white king / black king),
small distinct numeric codes as concatenated into position keys. -/
def NONE : ℕ := 0

/-- Modelled from the spec: white man code. -/
def WHITE : ℕ := 1

/-- Modelled from the spec: black man code. -/
def BLACK : ℕ := 2

/-- Modelled from the spec: white king code. -/
def WHITE_KING : ℕ := 3

/-- Modelled from the spec: black king code. -/
def BLACK_KING : ℕ := 4

end PIECE

namespace PLAYER

/-- Modelled from the spec: white player code; the source's null-move code
(`currentPlayer === 1 ? 2 : 1`) fixes the codes 1/2. -/
def WHITE : ℕ := 1

/-- Modelled from the spec: black player code. -/
def BLACK : ℕ := 2

end PLAYER

/-- A diagonal step, the source's `{ dy, dx }` direction records. -/
structure Dir where
  dy : ℤ
  dx : ℤ
deriving DecidableEq, Repr

namespace DIRECTIONS

/-- Modelled from the spec: the four diagonal directions used by kings and
by the capture search (the missing `constants.js`'s `KING_MOVES`). -/
def KING_MOVES : List Dir := [⟨-1, -1⟩, ⟨-1, 1⟩, ⟨1, -1⟩, ⟨1, 1⟩]

/-- Modelled from the spec: white men move toward row 0 (they promote
there), so the forward diagonals have `dy = -1`. -/
def WHITE_MOVES : List Dir := [⟨-1, -1⟩, ⟨-1, 1⟩]

/-- Modelled from the spec: black men move toward row 9. -/
def BLACK_MOVES : List Dir := [⟨1, -1⟩, ⟨1, 1⟩]

end DIRECTIONS

/-- Modelled from the spec: playable ("dark") squares; the piece-square
tables in `ai.evaluation.js` carry nonzero entries exactly on squares of
odd coordinate parity. -/
def isDarkSquare (row col : ℤ) : Bool :=
  (row + col) % 2 == 1

/-- JS `Math.abs` on integers (kernel-reducible, unlike the lattice
`abs`). -/
def jsAbsI (x : ℤ) : ℤ := if x < 0 then -x else x

/-- JS `Math.abs` on rationals. -/
def jsAbsQ (q : ℚ) : ℚ := if q < 0 then -q else q

/-- JS `Math.max` on integers. -/
def jsMaxI (a b : ℤ) : ℤ := if a < b then b else a

/-- One step of the stable sort below: insert `x` into the sorted list,
before the first element it may precede, hence after every earlier tie
(JS `Array.prototype.sort` is stable). -/
def stableInsert {α : Type} (le : α → α → Bool) (x : α) : List α → List α
  | [] => [x]
  | y :: ys => if le x y then x :: y :: ys else y :: stableInsert le x ys

/-- The JS stable comparator sort (`Array.prototype.sort`), modelled as a
structural stable insertion sort: for the total-preorder comparators the
source uses, stability and sortedness determine the result uniquely. -/
def stableSort {α : Type} (le : α → α → Bool) : List α → List α
  | [] => []
  | x :: xs => stableInsert le x (stableSort le xs)

/-- Source `ai.utils.js isValidSquare`. -/
def isValidSquare (row col : ℤ) : Bool :=
  0 ≤ row && row < 10 && 0 ≤ col && col < 10

/-- Reading `pieces[r][c]`; in the source every read is guarded by
`isValidSquare`, the out-of-range default `PIECE.NONE` is never relied
upon. -/
def getP (pieces : Board) (row col : ℤ) : ℕ :=
  if isValidSquare row col then
    (List.getD pieces row.toNat []).getD col.toNat PIECE.NONE
  else PIECE.NONE

/-- Writing `pieces[r][c] = v`; all writes in the source happen at valid
squares, the out-of-range no-op is never relied upon. -/
def setP (pieces : Board) (row col : ℤ) (v : ℕ) : Board :=
  if isValidSquare row col then
    pieces.set row.toNat ((List.getD pieces row.toNat []).set col.toNat v)
  else pieces

/-- Source `ai.utils.js isPieceOfCurrentPlayer`. -/
def isPieceOfCurrentPlayer (piece currentPlayer : ℕ) : Bool :=
  if currentPlayer == PLAYER.WHITE then
    piece == PIECE.WHITE || piece == PIECE.WHITE_KING
  else
    piece == PIECE.BLACK || piece == PIECE.BLACK_KING

/-- Source `ai.utils.js isOpponentPiece`. -/
def isOpponentPiece (piece currentPlayer : ℕ) : Bool :=
  if currentPlayer == PLAYER.WHITE then
    piece == PIECE.BLACK || piece == PIECE.BLACK_KING
  else
    piece == PIECE.WHITE || piece == PIECE.WHITE_KING

/-- Source `ai.utils.js isPlayerPiece`. -/
def isPlayerPiece (piece player : ℕ) : Bool :=
  if player == PLAYER.WHITE then
    piece == PIECE.WHITE || piece == PIECE.WHITE_KING
  else
    piece == PIECE.BLACK || piece == PIECE.BLACK_KING

/-- Source `ai.utils.js shouldPromote`. -/
def shouldPromote (piece : ℕ) (row : ℤ) : Bool :=
  (piece == PIECE.WHITE && row == 0) ||
  (piece == PIECE.BLACK && row == (BOARD_SIZE : ℤ) - 1)

/-- Source `ai.utils.js makeMove`: copy the grid, move the piece, empty the
captured squares, toggle the player, promote a man that landed on its
promotion row.  The grid copy (`map(row => [...row])`) makes the result
independent of the input, which the pure embedding renders by simply
building a new value. -/
def makeMove (position : Position) (move : Move) : Position :=
  let newPlayer :=
    if position.currentPlayer == PLAYER.WHITE then PLAYER.BLACK else PLAYER.WHITE
  let piece := getP position.pieces move.fromSq.row move.fromSq.col
  let pieces1 := setP position.pieces move.fromSq.row move.fromSq.col PIECE.NONE
  let pieces2 := setP pieces1 move.toSq.row move.toSq.col piece
  let pieces3 := move.captures.foldl
    (fun b cap => setP b cap.row cap.col PIECE.NONE) pieces2
  let pieces4 :=
    if shouldPromote piece move.toSq.row then
      setP pieces3 move.toSq.row move.toSq.col
        (if piece == PIECE.WHITE then PIECE.WHITE_KING else PIECE.BLACK_KING)
    else pieces3
  { pieces := pieces4, currentPlayer := newPlayer, history := position.history }

/-- The first inner `while` of the flying-king branch of
`findCaptureSequences`: scan along `dir` from `(row, col)` until the first
occupied square; answer it if it is an enemy piece, else nothing.  Fuel 16
can never run out: the scan starts at most one step outside the 10×10
board and leaves it after at most 12 steps. -/
def scanForEnemy (fuel : ℕ) (pieces : Board) (row col : ℤ) (dir : Dir)
    (currentPlayer : ℕ) : Option Coord :=
  match fuel with
  | 0 => none
  | fuel + 1 =>
    if isValidSquare row col then
      let checkPiece := getP pieces row col
      if checkPiece ≠ PIECE.NONE then
        if isOpponentPiece checkPiece currentPlayer then some ⟨row, col⟩ else none
      else
        scanForEnemy fuel pieces (row + dir.dy) (col + dir.dx) dir currentPlayer
    else none

/-- The second inner `while` of the flying-king branch: the consecutive
empty squares behind the jumped piece, in scan order.  Fuel as in
`scanForEnemy`. -/
def landingSquares (fuel : ℕ) (pieces : Board) (row col : ℤ) (dir : Dir) :
    List Coord :=
  match fuel with
  | 0 => []
  | fuel + 1 =>
    if isValidSquare row col && getP pieces row col == PIECE.NONE then
      ⟨row, col⟩ :: landingSquares fuel pieces (row + dir.dy) (col + dir.dx) dir
    else []

/-- Source `ai.utils.js findCaptureSequences`, with the mutable `sequences`
accumulator rendered as the returned list (in push order) and the
`visitedPositions` string set as a list of coordinates (`"r,c"` keys are
in bijection with coordinates).  `fuel = 21 - recursionDepth`, so `fuel =
0` is exactly the source's `recursionDepth > 20` early return; since each
recursive call receives a fresh copy of the visited set, the trailing
`visitedPositions.delete(posKey)` of the source has no observable effect
and has no counterpart here.  The result of the direction loop is the
pair (foundJump, recorded sequences). -/
def findCaptureSequences (fuel : ℕ) (pieces : Board) (currentPos : Coord)
    (path : List Coord) (capturedSoFar : List Coord)
    (visitedPositions : List Coord) (currentPlayer : ℕ) : List Move :=
  match fuel with
  | 0 => []
  | fuel + 1 =>
    if visitedPositions.contains currentPos then []
    else
      let visited' := currentPos :: visitedPositions
      let piece := getP pieces currentPos.row currentPos.col
      let isKing := piece == PIECE.WHITE_KING || piece == PIECE.BLACK_KING
      let step : Bool × List Move → Dir → Bool × List Move := fun acc dir =>
        if isKing then
          match scanForEnemy 16 pieces (currentPos.row + dir.dy)
              (currentPos.col + dir.dx) dir currentPlayer with
          | none => acc
          | some enemyPos =>
            if capturedSoFar.contains enemyPos then acc
            else
              let lands := landingSquares 16 pieces (enemyPos.row + dir.dy)
                (enemyPos.col + dir.dx) dir
              let outs := lands.foldl (fun outs land =>
                let newPieces :=
                  setP (setP (setP pieces currentPos.row currentPos.col PIECE.NONE)
                    enemyPos.row enemyPos.col PIECE.NONE) land.row land.col piece
                outs ++ findCaptureSequences fuel newPieces land
                  (path ++ [currentPos]) (capturedSoFar ++ [enemyPos])
                  visited' currentPlayer) acc.2
              (acc.1 || !lands.isEmpty, outs)
        else
          let jumpOverPos : Coord := ⟨currentPos.row + dir.dy, currentPos.col + dir.dx⟩
          let landPos : Coord := ⟨currentPos.row + 2 * dir.dy, currentPos.col + 2 * dir.dx⟩
          if isValidSquare landPos.row landPos.col &&
              getP pieces landPos.row landPos.col == PIECE.NONE &&
              isOpponentPiece (getP pieces jumpOverPos.row jumpOverPos.col)
                currentPlayer then
            if capturedSoFar.contains jumpOverPos then acc
            else
              let newPieces :=
                setP (setP (setP pieces currentPos.row currentPos.col PIECE.NONE)
                  jumpOverPos.row jumpOverPos.col PIECE.NONE) landPos.row landPos.col piece
              (true, acc.2 ++ findCaptureSequences fuel newPieces landPos
                (path ++ [currentPos]) (capturedSoFar ++ [jumpOverPos])
                visited' currentPlayer)
          else acc
      let res := DIRECTIONS.KING_MOVES.foldl step (false, [])
      res.2 ++
        (if !res.1 && !capturedSoFar.isEmpty then
          [{ fromSq := path.headD currentPos, toSq := currentPos,
             captures := capturedSoFar }]
        else [])

/-- A placeholder move value for the source's unguarded `sorted[0]`
accesses (which in the source only happen on nonempty arrays). -/
def dummyMove : Move := ⟨⟨0, 0⟩, ⟨0, 0⟩, []⟩

/-- The comparator of `getAvailableCaptures`'s
`sort((a, b) => b.captures.length - a.captures.length)`:
`a` may stay before `b` iff `b`'s chain is not longer. -/
def longerCaptures (a b : Move) : Bool :=
  b.captures.length ≤ a.captures.length

/-- The accumulation loop of `getAvailableCaptures`: all capture sequences
of the current player's pieces, in row-major piece order. -/
def allCaptures (position : Position) : List Move :=
  (List.range BOARD_SIZE).foldl (fun acc (r : ℕ) =>
    (List.range BOARD_SIZE).foldl (fun acc (c : ℕ) =>
      if isPieceOfCurrentPlayer (getP position.pieces (r : ℤ) (c : ℤ))
          position.currentPlayer then
        acc ++ findCaptureSequences 21 position.pieces ⟨(r : ℤ), (c : ℤ)⟩ [] [] []
          position.currentPlayer
      else acc) acc) []

/-- Source `ai.utils.js getAvailableCaptures`: collect every capture
sequence, then keep only those of maximal length (sort descending by
number of captures, read the maximum off the head, filter). -/
def getAvailableCaptures (position : Position) : List Move :=
  let all := allCaptures position
  if 0 < all.length then
    let sorted := stableSort longerCaptures all
    let maxLength := (sorted.headD dummyMove).captures.length
    sorted.filter (fun move => move.captures.length == maxLength)
  else []

/-- The king-slide loop of `addNormalMovesForPiece`: moves along `dir` onto
consecutive empty dark squares. -/
def kingSlideMoves (fuel : ℕ) (position : Position) (r c : ℤ) (nr nc : ℤ)
    (dir : Dir) : List Move :=
  match fuel with
  | 0 => []
  | fuel + 1 =>
    if isValidSquare nr nc && getP position.pieces nr nc == PIECE.NONE &&
        isDarkSquare nr nc then
      { fromSq := ⟨r, c⟩, toSq := ⟨nr, nc⟩, captures := [] } ::
        kingSlideMoves fuel position r c (nr + dir.dy) (nc + dir.dx) dir
    else []

/-- Source `ai.utils.js addNormalMovesForPiece`, with the accumulator array
rendered as the returned list. -/
def addNormalMovesForPiece (position : Position) (r c : ℤ) : List Move :=
  let piece := getP position.pieces r c
  let isKing := piece == PIECE.WHITE_KING || piece == PIECE.BLACK_KING
  if isKing then
    DIRECTIONS.KING_MOVES.foldl (fun acc d =>
      acc ++ kingSlideMoves 16 position r c (r + d.dy) (c + d.dx) d) []
  else
    let dirs := if position.currentPlayer == PLAYER.WHITE then
      DIRECTIONS.WHITE_MOVES else DIRECTIONS.BLACK_MOVES
    dirs.foldl (fun acc d =>
      let nr := r + d.dy
      let nc := c + d.dx
      if isValidSquare nr nc && getP position.pieces nr nc == PIECE.NONE &&
          isDarkSquare nr nc then
        acc ++ [{ fromSq := ⟨r, c⟩, toSq := ⟨nr, nc⟩, captures := [] }]
      else acc) []

/-- Source `ai.utils.js generateMoves`: mandatory captures, else the normal
moves of every piece of the side to move in row-major order. -/
def generateMoves (position : Position) : List Move :=
  let captures := getAvailableCaptures position
  if 0 < captures.length then captures
  else
    (List.range BOARD_SIZE).foldl (fun acc r =>
      (List.range BOARD_SIZE).foldl (fun acc c =>
        if isPieceOfCurrentPlayer (getP position.pieces r c) position.currentPlayer then
          acc ++ addNormalMovesForPiece position r c
        else acc) acc) []

/-- Source `ai.utils.js getPieceCapturesFrom`. -/
def getPieceCapturesFrom (position : Position) (piecePos : Coord) : List Move :=
  let player :=
    if getP position.pieces piecePos.row piecePos.col == PIECE.WHITE ||
        getP position.pieces piecePos.row piecePos.col == PIECE.WHITE_KING then
      PLAYER.WHITE
    else PLAYER.BLACK
  findCaptureSequences 21 position.pieces piecePos [] [] [] player

/-- Source `ai.utils.js countTotalPieces`. -/
def countTotalPieces (position : Position) : ℕ :=
  (List.range BOARD_SIZE).foldl (fun acc r =>
    (List.range BOARD_SIZE).foldl (fun acc c =>
      if getP position.pieces r c ≠ PIECE.NONE then acc + 1 else acc) acc) 0

/-- Source `ai.utils.js hasCaptures`. -/
def hasCaptures (position : Position) : Bool :=
  0 < (getAvailableCaptures position).length

/-- Source `ai.utils.js getGamePhase`; the string results are rendered as an
enum. -/
inductive GamePhase where
  | opening
  | middlegame
  | endgame
deriving DecidableEq, Repr

/-- Source `ai.utils.js getGamePhase`. -/
def getGamePhase (position : Position) : GamePhase :=
  let totalPieces := countTotalPieces position
  if 16 < totalPieces then .opening
  else if 10 < totalPieces then .middlegame
  else .endgame

end Draughts

namespace Draughts

/-- A JavaScript number that may be `±Infinity`: search scores and
alpha/beta bounds.  Finite values are exact rationals. -/
inductive JNum where
  | neg
  | fin (q : ℚ)
  | pos
deriving DecidableEq, Repr

namespace JNum

/-- JS `a <= b` on possibly-infinite numbers. -/
def jle : JNum → JNum → Bool
  | neg, _ => true
  | fin a, fin b => a ≤ b
  | fin _, pos => true
  | fin _, neg => false
  | pos, pos => true
  | pos, _ => false

/-- JS `a < b` on possibly-infinite numbers. -/
def jlt : JNum → JNum → Bool
  | neg, neg => false
  | neg, _ => true
  | fin a, fin b => a < b
  | fin _, pos => true
  | fin _, neg => false
  | pos, _ => false

/-- JS unary minus. -/
def jneg : JNum → JNum
  | neg => pos
  | fin q => fin (-q)
  | pos => neg

/-- JS `Math.max`. -/
def jmax (a b : JNum) : JNum := if jlt a b then b else a

/-- JS `Math.abs`. -/
def jabs : JNum → JNum
  | neg => pos
  | fin q => fin (if q < 0 then -q else q)
  | pos => pos

/-- Adding a finite number (`Infinity + c = Infinity`). -/
def jaddF : JNum → ℚ → JNum
  | neg, _ => neg
  | fin q, c => fin (q + c)
  | pos, _ => pos

/-- Subtracting a finite number. -/
def jsubF : JNum → ℚ → JNum
  | neg, _ => neg
  | fin q, c => fin (q - c)
  | pos, _ => pos

end JNum

namespace ENTRY_TYPES

/-- Source `ai.params.js CACHE.ENTRY_TYPES.EXACT`. -/
def EXACT : ℕ := 0

/-- Source `ai.params.js CACHE.ENTRY_TYPES.LOWER_BOUND`. -/
def LOWER_BOUND : ℕ := 1

/-- Source `ai.params.js CACHE.ENTRY_TYPES.UPPER_BOUND`. -/
def UPPER_BOUND : ℕ := 2

end ENTRY_TYPES

/-- Source `ai.params.js MAX_DEPTH`, with the caller's `|| 6` default. -/
def MAX_DEPTH (level : ℕ) : ℤ :=
  match level with
  | 1 => 4 | 2 => 6 | 3 => 8 | 4 => 10 | 5 => 12 | 6 => 14 | _ => 6

/-- Source `ai.params.js ITERATIVE_DEEPENING.TIME_ALLOCATION`, with the
caller's `|| 3000` default (milliseconds). -/
def TIME_ALLOCATION (level : ℕ) : ℚ :=
  match level with
  | 1 => 500 | 2 => 1000 | 3 => 2000 | 4 => 4000 | 5 => 8000 | 6 => 15000
  | _ => 3000

/-- Source `ai.params.js ITERATIVE_DEEPENING.COMPLEX_POSITION_MULTIPLIER`,
with the caller's `|| 1.0` default. -/
def COMPLEX_POSITION_MULTIPLIER (level : ℕ) : ℚ :=
  match level with
  | 1 => 1 | 2 => 11/10 | 3 => 6/5 | 4 => 13/10 | 5 => 3/2 | 6 => 9/5
  | _ => 1

/-- Source `ai.params.js ASPIRATION_WINDOW.INITIAL_DELTA`. -/
def INITIAL_DELTA : ℚ := 50

/-- A transposition-table entry as stored by `ai.tt.js store`. -/
structure TTEntry where
  depth : ℤ
  value : JNum
  type : ℕ
  bestMove : Option Move
  accessTime : ℕ
  age : ℕ
deriving DecidableEq, Repr

/-- The two shapes a successful `ai.tt.js lookup` can return: the entry
itself (usable for a cutoff; the source's `useful` field is then absent,
which callers treat as usable), or the `{...entry, useful: false}` clone
kept only for move ordering. -/
structure TTLookupResult where
  entry : TTEntry
  useful : Bool
deriving DecidableEq, Repr

/-- The closure state of `ai.tt.js createTranspositionTable`: the `Map` (an
association list in insertion order, keys unique), the `accessCount`
clock and the statistics counters. -/
structure TranspositionTable where
  table : List (String × TTEntry)
  accessCount : ℕ
  hits : ℕ
  stores : ℕ
  maxSize : ℕ

/-- JS `Map.get`. -/
def assocGet {α : Type} (l : List (String × α)) (key : String) : Option α :=
  (l.find? (fun p => p.1 == key)).map Prod.snd

/-- JS `Map.set`: update in place (keeping insertion order) or append. -/
def assocSet {α : Type} (l : List (String × α)) (key : String) (v : α) :
    List (String × α) :=
  if (l.find? (fun p => p.1 == key)).isSome then
    l.map (fun p => if p.1 == key then (key, v) else p)
  else l ++ [(key, v)]

/-- Source `ai.tt.js createTranspositionTable` with its default capacity. -/
def createTranspositionTable (maxSize : ℕ) : TranspositionTable :=
  { table := [], accessCount := 0, hits := 0, stores := 0, maxSize := maxSize }

/-- Source `ai.tt.js generateKey`: concatenate the piece codes of the dark
squares in row-major order, then the side to move. -/
def generateKey (position : Position) : String :=
  ((List.range BOARD_SIZE).foldl (fun key r =>
    (List.range BOARD_SIZE).foldl (fun key c =>
      if isDarkSquare r c then key ++ toString (getP position.pieces r c)
      else key) key) "") ++ toString position.currentPlayer

/-- The ranking used by `ai.tt.js cleanup`
(`accessTime / 1000 + depth * 10 - age * 5`, ascending = evicted first). -/
def cleanupScore (e : TTEntry) : ℚ :=
  (e.accessTime : ℚ) / 1000 + (e.depth : ℚ) * 10 - (e.age : ℚ) * 5

/-- Source `ai.tt.js cleanup`: age every entry, rank them, delete the
bottom 30%.  The `Map` iteration order is insertion order, and the JS
stable sort is modelled by `stableSort`. -/
def ttCleanup (tt : TranspositionTable) : TranspositionTable :=
  let aged := tt.table.map (fun p => (p.1, { p.2 with age := p.2.age + 1 }))
  let ranked := stableSort (fun a b => cleanupScore a.2 ≤ cleanupScore b.2) aged
  let toDelete := aged.length * 3 / 10
  let deleted := (ranked.take toDelete).map Prod.fst
  { tt with table := aged.filter (fun p => !(deleted.contains p.1)) }

/-- Source `ai.tt.js store`: clean up at capacity, then replace only if the
new entry is deeper, or equally deep and exact. -/
def ttStore (tt : TranspositionTable) (key : String) (depth : ℤ) (value : JNum)
    (type : ℕ) (bestMove : Option Move) : TranspositionTable :=
  let tt := if tt.maxSize ≤ tt.table.length then ttCleanup tt else tt
  match assocGet tt.table key with
  | some existingEntry =>
    if existingEntry.depth < depth ||
        (existingEntry.depth == depth && type == ENTRY_TYPES.EXACT) then
      { tt with
        table := assocSet tt.table key
          { depth := depth, value := value, type := type, bestMove := bestMove,
            accessTime := tt.accessCount, age := 0 }
        accessCount := tt.accessCount + 1
        stores := tt.stores + 1 }
    else tt
  | none =>
    { tt with
      table := assocSet tt.table key
        { depth := depth, value := value, type := type, bestMove := bestMove,
          accessTime := tt.accessCount, age := 0 },
      accessCount := tt.accessCount + 1, stores := tt.stores + 1 }

/-- Source `ai.tt.js lookup`: `null` when there is no entry or its depth is
below the requested minimum; otherwise refresh the entry's access data
and answer it — bare (usable) when its bound type together with the
window yields a cutoff, flagged `useful: false` otherwise. -/
def ttLookup (tt : TranspositionTable) (key : String) (depth : ℤ)
    (alpha beta : JNum) : Option TTLookupResult × TranspositionTable :=
  match assocGet tt.table key with
  | none => (none, tt)
  | some entry =>
    if entry.depth < depth then (none, tt)
    else
      let entry' := { entry with accessTime := tt.accessCount, age := 0 }
      let tt' := { tt with
        table := assocSet tt.table key entry'
        accessCount := tt.accessCount + 1
        hits := tt.hits + 1 }
      if entry'.type == ENTRY_TYPES.EXACT then
        (some ⟨entry', true⟩, tt')
      else if entry'.type == ENTRY_TYPES.LOWER_BOUND &&
          JNum.jle beta entry'.value then
        (some ⟨entry', true⟩, tt')
      else if entry'.type == ENTRY_TYPES.UPPER_BOUND &&
          JNum.jle entry'.value alpha then
        (some ⟨entry', true⟩, tt')
      else
        (some ⟨entry', false⟩, tt')

end Draughts

namespace Draughts

/-- The piece-value helper shared (with identical bodies) by
`ai.tactics.js`, `ai.safety.js` and `ai.move-ordering.js`: man 100,
king 450, empty 0. -/
def getPieceValue (piece : ℕ) : ℤ :=
  if piece == PIECE.WHITE || piece == PIECE.BLACK then 100
  else if piece == PIECE.WHITE_KING || piece == PIECE.BLACK_KING then 450
  else 0

/-- JS `Math.max(...list)`; every use in the source is on a nonempty list
(the `[]` case is never exercised). -/
def jsMaxList (l : List ℤ) : ℤ :=
  match l with
  | [] => 0
  | x :: xs => xs.foldl jsMaxI x

/-- Source `ai.tactics.js countCaptureValue`. -/
def countCaptureValue (position : Position) (move : Move) : ℤ :=
  if move.captures.isEmpty then 0
  else
    move.captures.foldl (fun total cap =>
      total + getPieceValue (getP position.pieces cap.row cap.col)) 0

/-- Source `ai.tactics.js hasAdjacentDefender`. -/
def hasAdjacentDefender (position : Position) (row col : ℤ) (player : ℕ) :
    Bool :=
  DIRECTIONS.KING_MOVES.any (fun dir =>
    let r := row + dir.dy
    let c := col + dir.dx
    isValidSquare r c && isPlayerPiece (getP position.pieces r c) player)

/-- Source `ai.tactics.js canPieceBeAttacked`. -/
def canPieceBeAttacked (position : Position) (row col : ℤ) (player : ℕ) :
    Bool :=
  let opponent := if player == PLAYER.WHITE then PLAYER.BLACK else PLAYER.WHITE
  let testPos := { position with currentPlayer := opponent }
  (getAvailableCaptures testPos).any (fun cap =>
    cap.captures.any (fun target => target.row == row && target.col == col))

/-- Source `ai.tactics.js countExposedPieces`. -/
def countExposedPieces (position : Position) (player : ℕ) : ℕ :=
  (List.range BOARD_SIZE).foldl (fun acc r =>
    (List.range BOARD_SIZE).foldl (fun acc c =>
      if isPlayerPiece (getP position.pieces r c) player then
        if !hasAdjacentDefender position r c player &&
            canPieceBeAttacked position r c player then acc + 1
        else acc
      else acc) acc) 0

/-- Source `ai.tactics.js evaluateCapturePositional`. -/
def evaluateCapturePositional (position : Position) (move : Move) : ℤ :=
  let afterMove := makeMove position move
  let mobility := (generateMoves afterMove).length
  let bonus : ℤ := mobility * 2
  let piece := getP position.pieces move.fromSq.row move.fromSq.col
  let isWhite := piece == PIECE.WHITE || piece == PIECE.WHITE_KING
  let promotionRow : ℤ := if isWhite then 0 else 9
  let distanceToPromotion := jsAbsI (move.toSq.row - promotionRow)
  let bonus := if distanceToPromotion ≤ 2 then
    bonus + (3 - distanceToPromotion) * 20 else bonus
  let ourExposedPieces := countExposedPieces afterMove position.currentPlayer
  bonus - ourExposedPieces * 15

/-- Source `ai.tactics.js evaluateCaptureSequence` (the `ai` parameter of
the source is never used in the body and is omitted). -/
def evaluateCaptureSequence (position : Position) (move : Move) : ℚ :=
  if move.captures.isEmpty then 0
  else
    let value : ℚ := countCaptureValue position move
    let value := value + move.captures.length * 20
    let movingPiece := getP position.pieces move.fromSq.row move.fromSq.col
    let value := if shouldPromote movingPiece move.toSq.row then value + 250
      else value
    let afterMove := makeMove position move
    let followUpCaptures := getAvailableCaptures afterMove
    let value := if !followUpCaptures.isEmpty then
      let bestFollowUp := jsMaxList (followUpCaptures.map (fun fc =>
        countCaptureValue afterMove fc))
      value + (bestFollowUp : ℚ) * (1/2)
    else value
    let afterMove := { afterMove with currentPlayer := position.currentPlayer }
    let counterCaptures := getAvailableCaptures afterMove
    let value := if !counterCaptures.isEmpty then
      let maxCounterDamage := counterCaptures.foldl (fun maxD counter =>
        let damage := countCaptureValue afterMove counter
        if counter.captures.any (fun cap =>
            cap.row == move.toSq.row && cap.col == move.toSq.col) then
          jsMaxI maxD (damage + getPieceValue movingPiece)
        else jsMaxI maxD damage) 0
      value - (maxCounterDamage : ℚ) * (4/5)
    else value
    value + evaluateCapturePositional position move

/-- Source `ai.tactics.js canCapture` (unused `ai` parameter omitted). -/
def canCapture (position : Position) : Bool :=
  0 < (getAvailableCaptures position).length

/-- The record pushed by `ai.tactics.js detectPinsAndSkewers`; the nested
`pinned: {row, col, value}` literal is flattened into the coordinate and
its value. -/
structure PinRecord where
  pinned : Coord
  pinnedValue : ℤ
  exposed : Coord
  exposedValue : ℤ
  pinner : Coord
deriving DecidableEq, Repr

/-- Source `ai.tactics.js detectPinsAndSkewers` (unused `ai` parameter
omitted).  The source's `const testPos = { ...position }` is a shallow
copy: `testPos.pieces` aliases `position.pieces`, so the subsequent
`testPos.pieces[r][c] = PIECE.NONE` writes through to the caller's grid
and is never undone.  The embedding makes that aliasing explicit by
threading a single grid through the scan and returning, next to the pin
records, the final state of the caller's `position.pieces`. -/
def detectPinsAndSkewers (position : Position) : List PinRecord × Board :=
  let player := position.currentPlayer
  let opponent := if player == PLAYER.WHITE then PLAYER.BLACK else PLAYER.WHITE
  (List.range BOARD_SIZE).foldl (fun acc r =>
    (List.range BOARD_SIZE).foldl (fun acc c =>
      let (pins, grid) := acc
      let piece := getP grid r c
      if !isPlayerPiece piece player then (pins, grid)
      else
        let grid' := setP grid r c PIECE.NONE
        let testPos : Position :=
          { pieces := grid', currentPlayer := opponent,
            history := position.history }
        let captures := getAvailableCaptures testPos
        let pins' := captures.foldl (fun pins cap =>
          let exposedPieces := cap.captures.filter (fun target =>
            !(target.row == (r : ℤ) && target.col == (c : ℤ)))
          if !exposedPieces.isEmpty then
            let pinnedValue := getPieceValue piece
            let exposedValue := jsMaxList (exposedPieces.map (fun ep =>
              getPieceValue (getP grid' ep.row ep.col)))
            if pinnedValue < exposedValue then
              pins ++ [{ pinned := ⟨r, c⟩, pinnedValue := pinnedValue,
                         exposed := exposedPieces.headD ⟨0, 0⟩,
                         exposedValue := exposedValue,
                         pinner := cap.fromSq }]
            else pins
          else pins) pins
        (pins', grid')) acc) ([], position.pieces)

/-- The recursion of `ai.safety.js staticExchangeEvaluation`; in the source
it terminates because every level's position has strictly fewer pieces,
so fuel 101 (more pieces than the grid can hold) can never run out. -/
def seeFuel (fuel : ℕ) (position : Position) (move : Move) : ℤ :=
  match fuel with
  | 0 => 0
  | fuel + 1 =>
    if move.captures.isEmpty then 0
    else
      let gain := move.captures.foldl (fun g cap =>
        g + getPieceValue (getP position.pieces cap.row cap.col)) 0
      let afterMove := makeMove position move
      let afterMove := { afterMove with currentPlayer := position.currentPlayer }
      let recaptures := (getAvailableCaptures afterMove).filter (fun recap =>
        recap.captures.any (fun cap =>
          cap.row == move.toSq.row && cap.col == move.toSq.col))
      if recaptures.isEmpty then gain
      else
        let best := recaptures.foldl
          (fun (acc : Option Move × Option ℤ) recap =>
            let attackerValue :=
              getPieceValue (getP afterMove.pieces recap.fromSq.row recap.fromSq.col)
            match acc.2 with
            | none => (some recap, some attackerValue)
            | some bv =>
              if attackerValue < bv then (some recap, some attackerValue) else acc)
          (none, none)
        match best.1 with
        | some bestRecapture =>
          let ourPieceValue :=
            getPieceValue (getP position.pieces move.fromSq.row move.fromSq.col)
          let gain := gain - ourPieceValue
          gain - seeFuel fuel afterMove bestRecapture
        | none => gain

/-- Source `ai.safety.js staticExchangeEvaluation` (unused `ai` parameter
omitted, recursion fuel fixed as described at `seeFuel`). -/
def staticExchangeEvaluation (position : Position) (move : Move) : ℤ :=
  seeFuel 101 position move

/-- The scan of one diagonal in `ai.safety.js countLongRangeAttackers`. -/
def lraScan (fuel : ℕ) (pieces : Board) (r c : ℤ) (dir : Dir) (distance : ℕ)
    (attackingPlayer : ℕ) (targetRow targetCol : ℤ) : ℕ :=
  match fuel with
  | 0 => 0
  | fuel + 1 =>
    if isValidSquare r c && distance ≤ 8 then
      let piece := getP pieces r c
      if piece ≠ PIECE.NONE then
        if (attackingPlayer == PLAYER.WHITE && piece == PIECE.WHITE_KING) ||
            (attackingPlayer == PLAYER.BLACK && piece == PIECE.BLACK_KING) then
          let landR := targetRow - dir.dy
          let landC := targetCol - dir.dx
          if isValidSquare landR landC && getP pieces landR landC == PIECE.NONE then
            1
          else 0
        else 0
      else lraScan fuel pieces (r + dir.dy) (c + dir.dx) dir (distance + 1)
        attackingPlayer targetRow targetCol
    else 0

/-- Source `ai.safety.js countLongRangeAttackers`. -/
def countLongRangeAttackers (position : Position) (row col : ℤ)
    (attackingPlayer : ℕ) : ℕ :=
  DIRECTIONS.KING_MOVES.foldl (fun count dir =>
    count + lraScan 16 position.pieces (row + dir.dy) (col + dir.dx) dir 1
      attackingPlayer row col) 0

/-- The scan of one diagonal in `ai.safety.js countLongRangeDefenders`. -/
def lrdScan (fuel : ℕ) (pieces : Board) (r c : ℤ) (dir : Dir) (player : ℕ) :
    ℕ :=
  match fuel with
  | 0 => 0
  | fuel + 1 =>
    if isValidSquare r c then
      let piece := getP pieces r c
      if piece ≠ PIECE.NONE then
        if (player == PLAYER.WHITE && piece == PIECE.WHITE_KING) ||
            (player == PLAYER.BLACK && piece == PIECE.BLACK_KING) then 1
        else 0
      else lrdScan fuel pieces (r + dir.dy) (c + dir.dx) dir player
    else 0

/-- Source `ai.safety.js countLongRangeDefenders`. -/
def countLongRangeDefenders (position : Position) (row col : ℤ) (player : ℕ) :
    ℕ :=
  DIRECTIONS.KING_MOVES.foldl (fun count dir =>
    count + lrdScan 16 position.pieces (row + dir.dy) (col + dir.dx) dir player) 0

/-- Source `ai.safety.js isProtected` (unused `ai` parameter omitted; the
source's defaulted `player` argument is passed explicitly by every
embedded caller). -/
def isProtected (position : Position) (row col : ℤ) (player : ℕ) : Bool :=
  let opponent := if player == PLAYER.WHITE then PLAYER.BLACK else PLAYER.WHITE
  let counts := DIRECTIONS.KING_MOVES.foldl (fun (counts : ℕ × ℕ) dir =>
    let r := row + dir.dy
    let c := col + dir.dx
    if !isValidSquare r c then counts
    else
      let neighbor := getP position.pieces r c
      if isPlayerPiece neighbor player then (counts.1 + 1, counts.2)
      else if isPlayerPiece neighbor opponent then
        let opponentCaptures := getPieceCapturesFrom
          { position with currentPlayer := opponent } ⟨r, c⟩
        if opponentCaptures.any (fun cap =>
            cap.captures.any (fun target =>
              target.row == row && target.col == col)) then
          (counts.1, counts.2 + 1)
        else counts
      else counts) (0, 0)
  let attackers := counts.2 + countLongRangeAttackers position row col opponent
  decide (attackers ≤ counts.1) && decide (0 < counts.1)

/-- Source `ai.safety.js canDefend` (the `position` argument is unused in
the body but kept for fidelity). -/
def canDefend (position : Position) (defender target : Coord) : Bool :=
  jsAbsI (defender.row - target.row) == 1 && jsAbsI (defender.col - target.col) == 1

/-- Source `ai.safety.js countDefenders` (unused `ai` parameter omitted). -/
def countDefenders (position : Position) (row col : ℤ) (player : ℕ) : ℕ :=
  let defenders := DIRECTIONS.KING_MOVES.foldl (fun defenders dir =>
    let r := row + dir.dy
    let c := col + dir.dx
    if !isValidSquare r c then defenders
    else
      let piece := getP position.pieces r c
      if isPlayerPiece piece player then
        if canDefend position ⟨r, c⟩ ⟨row, col⟩ then defenders + 1 else defenders
      else defenders) 0
  defenders + countLongRangeDefenders position row col player

/-- Source `ai.safety.js countAttackers` (unused `ai` parameter omitted):
the source temporarily writes a dummy enemy piece into the shared grid,
counts the capture sequences that take it, and restores the original
piece, so its net effect is pure and the embedding computes on a local
modified grid. -/
def countAttackers (position : Position) (row col : ℤ)
    (attackingPlayer : ℕ) : ℕ :=
  let dummyPiece := if attackingPlayer == PLAYER.WHITE then PIECE.BLACK
    else PIECE.WHITE
  let testPieces := setP position.pieces row col dummyPiece
  let captures := getAvailableCaptures
    { pieces := testPieces, currentPlayer := attackingPlayer,
      history := position.history }
  (captures.filter (fun move =>
    move.captures.any (fun cap => cap.row == row && cap.col == col))).length

/-- Source `ai.safety.js evaluateExchange` (unused `ai` parameter
omitted). -/
def evaluateExchange (position : Position) (row col : ℤ) : ℤ :=
  let piece := getP position.pieces row col
  if piece == PIECE.NONE then 0
  else
    let player := if piece == PIECE.WHITE || piece == PIECE.WHITE_KING then
      PLAYER.WHITE else PLAYER.BLACK
    let opponent := if player == PLAYER.WHITE then PLAYER.BLACK else PLAYER.WHITE
    let ourValue := getPieceValue piece
    let defenders := countDefenders position row col player
    let attackers := countAttackers position row col opponent
    if attackers == 0 then 0
    else if attackers ≤ defenders then 0
    else -ourValue

/-- Source `ai.safety.js evaluateBestRecapture` (unused `ai` parameter
omitted; the source's `row`/`col` parameters are also unused in its body
but kept for fidelity). -/
def evaluateBestRecapture (position : Position) (row col : ℤ) : ℤ :=
  let opponent := if position.currentPlayer == PLAYER.WHITE then PLAYER.BLACK
    else PLAYER.WHITE
  let recapturePos := { position with currentPlayer := opponent }
  let recaptures := getAvailableCaptures recapturePos
  recaptures.foldl (fun maxGain recap =>
    let gain := recap.captures.foldl (fun s cap =>
      s + getPieceValue (getP position.pieces cap.row cap.col)) 0
    jsMaxI maxGain gain) 0

/-- Source `ai.safety.js isMoveReallySafe` (unused `ai` parameter
omitted). -/
def isMoveReallySafe (position : Position) (move : Move) : Bool :=
  if !move.captures.isEmpty then
    0 ≤ staticExchangeEvaluation position move
  else
    let afterMove := makeMove position move
    let afterMove := { afterMove with currentPlayer := position.currentPlayer }
    let responses := getAvailableCaptures afterMove
    if responses.isEmpty then true
    else
      let movingPieceCanBeCaptured := responses.any (fun response =>
        response.captures.any (fun cap =>
          cap.row == move.toSq.row && cap.col == move.toSq.col))
      if !movingPieceCanBeCaptured then true
      else
        let ourPiece := getP position.pieces move.fromSq.row move.fromSq.col
        let pieceValue := getPieceValue ourPiece
        if isProtected afterMove move.toSq.row move.toSq.col
            position.currentPlayer then
          let exchangeValue := evaluateExchange afterMove move.toSq.row move.toSq.col
          decide (-(pieceValue : ℚ) / 2 ≤ (exchangeValue : ℚ))
        else
          let maxRecaptureGain :=
            evaluateBestRecapture afterMove move.toSq.row move.toSq.col
          decide ((pieceValue : ℚ) * (4/5) ≤ (maxRecaptureGain : ℚ))

end Draughts

namespace Draughts

namespace PIECE_VALUES

/-- Source `ai.evaluation.js PIECE_VALUES.MAN`. -/
def MAN : ℤ := 100

/-- Source `ai.evaluation.js PIECE_VALUES.KING`. -/
def KING : ℤ := 450

end PIECE_VALUES

/-- Source `ai.evaluation.js FLIP_COL`. -/
def FLIP_COL (col : ℤ) : ℤ := 9 - col

/-- Source `ai.evaluation.js MAN_PST`. -/
def MAN_PST : List (List ℤ) :=
  [[  0,  30,   0,  30,   0,  30,   0,  30,   0,  30],
   [ 25,   0,  28,   0,  28,   0,  28,   0,  28,   0],
   [  0,  22,   0,  25,   0,  25,   0,  25,   0,  22],
   [ 20,   0,  23,   0,  26,   0,  26,   0,  23,   0],
   [  0,  18,   0,  20,   0,  20,   0,  20,   0,  18],
   [ 15,   0,  17,   0,  17,   0,  17,   0,  17,   0],
   [  0,  10,   0,  12,   0,  12,   0,  12,   0,  10],
   [  5,   0,   8,   0,   8,   0,   8,   0,   8,   0],
   [  0,   0,   0,   5,   0,   5,   0,   5,   0,   0],
   [ -5,   0,  -5,   0,  -5,   0,  -5,   0,  -5,   0]]

/-- Source `ai.evaluation.js KING_PST`. -/
def KING_PST : List (List ℤ) :=
  [[ -5,   0,  -5,   0,  -5,   0,  -5,   0,  -5,   0],
   [  0,   5,   0,  10,   0,  10,   0,  10,   0,   5],
   [ -5,   0,  15,   0,  20,   0,  20,   0,  15,   0],
   [  0,  10,   0,  25,   0,  30,   0,  25,   0,  10],
   [ -5,   0,  20,   0,  35,   0,  35,   0,  20,   0],
   [  0,  10,   0,  25,   0,  30,   0,  25,   0,  10],
   [ -5,   0,  15,   0,  20,   0,  20,   0,  15,   0],
   [  0,   5,   0,  10,   0,  10,   0,  10,   0,   5],
   [ -5,   0,  -5,   0,  -5,   0,  -5,   0,  -5,   0],
   [-10,   0, -10,   0, -10,   0, -10,   0, -10,   0]]

/-- Reading a piece-square table at indices that the callers keep in
`[0, 9]`. -/
def pstGet (t : List (List ℤ)) (r c : ℤ) : ℤ :=
  (t.getD r.toNat []).getD c.toNat 0

/-- One collected piece of `evaluatePosition`'s scan
(`{ row, col, piece }`). -/
structure PieceInfo where
  row : ℤ
  col : ℤ
  piece : ℕ
deriving DecidableEq, Repr

/-- The `pieces` record accumulated at the top of `evaluatePosition`. -/
structure PiecesInfo where
  white : List PieceInfo
  black : List PieceInfo
  whiteKings : ℕ
  blackKings : ℕ
  whiteMen : ℕ
  blackMen : ℕ
deriving DecidableEq, Repr

/-- The piece-collection loop at the top of
`ai.evaluation.js evaluatePosition` (row-major scan). -/
def collectPieces (position : Position) : PiecesInfo :=
  (List.range BOARD_SIZE).foldl (fun acc r =>
    (List.range BOARD_SIZE).foldl (fun acc c =>
      let piece := getP position.pieces r c
      if piece == PIECE.NONE then acc
      else
        let info : PieceInfo := ⟨r, c, piece⟩
        let isWhite := piece == PIECE.WHITE || piece == PIECE.WHITE_KING
        let isKing := piece == PIECE.WHITE_KING || piece == PIECE.BLACK_KING
        if isWhite then
          { acc with white := acc.white ++ [info]
                     whiteKings := acc.whiteKings + (if isKing then 1 else 0)
                     whiteMen := acc.whiteMen + (if isKing then 0 else 1) }
        else
          { acc with black := acc.black ++ [info]
                     blackKings := acc.blackKings + (if isKing then 1 else 0)
                     blackMen := acc.blackMen + (if isKing then 0 else 1) }) acc)
    ⟨[], [], 0, 0, 0, 0⟩

/-- Source `ai.evaluation.js evaluatePiecePositionFlipped`. -/
def evaluatePiecePositionFlipped (pieceInfo : PieceInfo) (isWhite : Bool)
    (gamePhase : GamePhase) : ℚ :=
  let row := pieceInfo.row
  let col := pieceInfo.col
  let piece := pieceInfo.piece
  let isKing := piece == PIECE.WHITE_KING || piece == PIECE.BLACK_KING
  let mirroredCol := FLIP_COL col
  let score : ℚ :=
    if isKing then
      let base : ℚ := if isWhite then pstGet KING_PST row mirroredCol
        else pstGet KING_PST (9 - row) mirroredCol
      if gamePhase == GamePhase.endgame then
        let centerDist : ℚ := jsAbsQ ((row : ℚ) - 9/2) + jsAbsQ ((mirroredCol : ℚ) - 9/2)
        base + (15 - centerDist) * 2
      else base
    else
      let base : ℚ := if isWhite then pstGet MAN_PST row mirroredCol
        else pstGet MAN_PST (9 - row) mirroredCol
      if isWhite then
        base + (row : ℚ) * 3 + (if 7 ≤ row then 20 else 0) +
          (if row == 8 then 30 else 0)
      else
        base + ((9 : ℚ) - (row : ℚ)) * 3 + (if row ≤ 2 then 20 else 0) +
          (if row == 1 then 30 else 0)
  if !isKing && (row == 0 || row == 9 || col == 0 || col == 9) then score - 5
  else score

/-- Source `ai.evaluation.js evaluateMobilityDifferential` (the source's
`ai` parameter is only used to reach the pure `generateMoves`, so it is
omitted).  The source's `oppPosition` literal has no `history` property;
`generateMoves` never reads it, so it is modelled as the empty list. -/
def evaluateMobilityDifferential (position : Position) : ℤ :=
  let ourMoves := (generateMoves position).length
  let oppPosition : Position :=
    { pieces := position.pieces,
      currentPlayer :=
        if position.currentPlayer == PLAYER.WHITE then PLAYER.BLACK
        else PLAYER.WHITE,
      history := [] }
  let theirMoves := (generateMoves oppPosition).length
  let score : ℤ := ((ourMoves : ℤ) - (theirMoves : ℤ)) * 5
  let score := if theirMoves ≤ 3 then score + 30 else score
  let score := if theirMoves ≤ 1 then score + 70 else score
  let score := if theirMoves == 0 then score + 200 else score
  score

/-- Source `ai.evaluation.js countAttackersOn` (unused `ai` parameter
omitted; the `attackPos` literal has no `history` property, modelled as
the empty list). -/
def countAttackersOn (position : Position) (target : PieceInfo)
    (attackingPlayer : ℕ) : ℕ :=
  let attackPos : Position :=
    { pieces := position.pieces, currentPlayer := attackingPlayer,
      history := [] }
  let captures := getAvailableCaptures attackPos
  (captures.filter (fun move =>
    move.captures.any (fun cap =>
      cap.row == target.row && cap.col == target.col))).length

/-- Source `ai.evaluation.js countDefendersOf` (unused `ai` parameter
omitted). -/
def countDefendersOf (position : Position) (target : PieceInfo)
    (defendingPlayer : ℕ) : ℕ :=
  DIRECTIONS.KING_MOVES.foldl (fun defenders dir =>
    let r := target.row + dir.dy
    let c := target.col + dir.dx
    if isValidSquare r c &&
        isPlayerPiece (getP position.pieces r c) defendingPlayer then
      defenders + 1
    else defenders) 0

/-- Source `ai.evaluation.js detectForks` (unused `ai` parameter omitted;
the `pieces` parameter is unused in the source body but kept for
fidelity). -/
def detectForks (position : Position) (pieces : List PieceInfo) (player : ℕ) :
    ℕ :=
  let testPos : Position :=
    { pieces := position.pieces, currentPlayer := player, history := [] }
  let moves := generateMoves testPos
  (moves.filter (fun move => 2 ≤ move.captures.length)).length

/-- Source `ai.evaluation.js evaluateTacticalThreats` (unused `ai`
parameter omitted). -/
def evaluateTacticalThreats (position : Position) (pieces : PiecesInfo) : ℤ :=
  let score := pieces.black.foldl (fun score target =>
    let attackers := countAttackersOn position target PLAYER.WHITE
    let defenders := countDefendersOf position target PLAYER.BLACK
    if defenders < attackers then
      let pieceValue : ℤ := if target.piece == PIECE.BLACK_KING then 150 else 60
      score + pieceValue * ((attackers : ℤ) - (defenders : ℤ))
    else score) 0
  let score := pieces.white.foldl (fun score target =>
    let attackers := countAttackersOn position target PLAYER.BLACK
    let defenders := countDefendersOf position target PLAYER.WHITE
    if defenders < attackers then
      let pieceValue : ℤ := if target.piece == PIECE.WHITE_KING then 150 else 60
      score - pieceValue * ((attackers : ℤ) - (defenders : ℤ))
    else score) score
  score + (detectForks position pieces.white PLAYER.WHITE : ℤ) * 40 -
    (detectForks position pieces.black PLAYER.BLACK : ℤ) * 40

/-- Source `ai.evaluation.js evaluateStrategicControl` (the `pieces`
parameter is unused in the source body but kept for fidelity). -/
def evaluateStrategicControl (position : Position) (gamePhase : GamePhase)
    (pieces : PiecesInfo) : ℚ :=
  let keySquares : List (ℤ × ℤ × ℚ) :=
    [(4, 4, 10), (4, 5, 10), (5, 4, 10), (5, 5, 10),
     (3, 3, 7), (3, 6, 7), (6, 3, 7), (6, 6, 7)]
  let score := keySquares.foldl (fun score sq =>
    let piece := getP position.pieces sq.1 sq.2.1
    if piece ≠ PIECE.NONE then
      let isWhite := piece == PIECE.WHITE || piece == PIECE.WHITE_KING
      let controlValue := sq.2.2 *
        (if gamePhase == GamePhase.middlegame then 3/2 else 1)
      if isWhite then score + controlValue else score - controlValue
    else score) (0 : ℚ)
  (List.range BOARD_SIZE).foldl (fun score c =>
    let score := if getP position.pieces 0 c == PIECE.WHITE ||
        getP position.pieces 0 c == PIECE.WHITE_KING then score + 20 else score
    if getP position.pieces 9 c == PIECE.BLACK ||
        getP position.pieces 9 c == PIECE.BLACK_KING then score - 20
    else score) score

/-- The chain-counting `while` of `ai.evaluation.js getFormationScore`. -/
def chainWalk (fuel : ℕ) (positions : List Coord) (r c : ℤ) : ℕ :=
  match fuel with
  | 0 => 0
  | fuel + 1 =>
    if positions.contains ⟨r, c⟩ then
      1 + chainWalk fuel positions (r + 1) (c + 1)
    else 0

/-- Source `ai.evaluation.js countProtectors`. -/
def countProtectors (positions : List Coord) (row col : ℤ) : ℕ :=
  DIRECTIONS.KING_MOVES.foldl (fun count dir =>
    if positions.contains ⟨row + dir.dy, col + dir.dx⟩ then count + 1
    else count) 0

/-- Source `ai.evaluation.js getFormationScore`; the `Set` of `"r,c"` keys
is modelled as the list of coordinates. -/
def getFormationScore (pieces : List PieceInfo) : ℤ :=
  let positions : List Coord := pieces.map (fun p => ⟨p.row, p.col⟩)
  pieces.foldl (fun score piece =>
    let row := piece.row
    let col := piece.col
    let score := if positions.contains ⟨row + 1, col - 1⟩ &&
        positions.contains ⟨row + 1, col + 1⟩ then score + 15 else score
    let chainLength := 1 + chainWalk 16 positions (row + 1) (col + 1)
    let score := if 3 ≤ chainLength then score + (chainLength : ℤ) * 8 else score
    let score := if positions.contains ⟨row, col + 2⟩ ||
        positions.contains ⟨row, col - 2⟩ then score + 5 else score
    score + (countProtectors positions row col : ℤ) * 6) 0

/-- Source `ai.evaluation.js evaluateFormations`. -/
def evaluateFormations (position : Position) (pieces : PiecesInfo) : ℚ :=
  (getFormationScore pieces.white : ℚ) * (6/5) -
    (getFormationScore pieces.black : ℚ) * (6/5)

/-- The king-threat walk of `ai.evaluation.js getThreatenedSquares`: the
threat value is pushed first, then the walk stops at the first occupied
square. -/
def threatWalk (fuel : ℕ) (pieces : Board) (r c : ℤ) (dir : Dir)
    (distance : ℕ) : List (Coord × ℤ) :=
  match fuel with
  | 0 => []
  | fuel + 1 =>
    if isValidSquare r c && distance ≤ 7 then
      (⟨r, c⟩, jsMaxI (5 - (distance : ℤ)) 1) ::
        (if getP pieces r c ≠ PIECE.NONE then []
         else threatWalk fuel pieces (r + dir.dy) (c + dir.dx) dir (distance + 1))
    else []

/-- Source `ai.evaluation.js getThreatenedSquares`. -/
def getThreatenedSquares (position : Position) (piece : PieceInfo) :
    List (Coord × ℤ) :=
  let isKing := piece.piece == PIECE.WHITE_KING || piece.piece == PIECE.BLACK_KING
  DIRECTIONS.KING_MOVES.foldl (fun threats dir =>
    if isKing then
      threats ++ threatWalk 16 position.pieces (piece.row + dir.dy)
        (piece.col + dir.dx) dir 1
    else
      let r := piece.row + dir.dy
      let c := piece.col + dir.dx
      if isValidSquare r c then threats ++ [(⟨r, c⟩, 3)] else threats) []

/-- The 10×10 integer heat grid of the threat heatmaps. -/
abbrev Heat : Type := List (List ℤ)

/-- Reading a heat cell. -/
def hGet (heat : Heat) (row col : ℤ) : ℤ :=
  (List.getD heat row.toNat []).getD col.toNat 0

/-- `heat[r][c] += v`. -/
def hAdd (heat : Heat) (row col : ℤ) (v : ℤ) : Heat :=
  List.set heat row.toNat
    ((List.getD heat row.toNat []).set col.toNat (hGet heat row col + v))

/-- Source `ai.evaluation.js getThreatHeatmap` (the `cacheKey` parameter is
unused in the source body and omitted). -/
def getThreatHeatmap (position : Position) (enemyPieces : List PieceInfo) :
    Heat :=
  enemyPieces.foldl (fun heat enemy =>
    (getThreatenedSquares position enemy).foldl (fun heat threat =>
      if isValidSquare threat.1.row threat.1.col then
        hAdd heat threat.1.row threat.1.col threat.2
      else heat) heat)
    (List.replicate BOARD_SIZE (List.replicate BOARD_SIZE 0))

/-- Source `ai.evaluation.js generateThreatMaps` (unused `ai` parameter
omitted); answers `(whiteHeat, blackHeat)`. -/
def generateThreatMaps (position : Position) (pieces : PiecesInfo) :
    Heat × Heat :=
  (getThreatHeatmap position pieces.white, getThreatHeatmap position pieces.black)

/-- Source `ai.evaluation.js evaluateHeatmaps` (the `position` parameter is
unused in the source body but kept for fidelity). -/
def evaluateHeatmaps (position : Position) (pieces : PiecesInfo)
    (threatMaps : Heat × Heat) : ℤ :=
  let score := pieces.white.foldl (fun score p =>
    let threat := hGet threatMaps.2 p.row p.col
    if 0 < threat then score - threat * 3 else score) 0
  pieces.black.foldl (fun score p =>
    let threat := hGet threatMaps.1 p.row p.col
    if 0 < threat then score + threat * 3 else score) score

/-- Source `ai.evaluation.js evaluateOpposition`. -/
def evaluateOpposition (position : Position) (pieces : PiecesInfo) : ℤ :=
  if pieces.whiteKings == 1 && pieces.blackKings == 1 then
    match pieces.white.find? (fun p => p.piece == PIECE.WHITE_KING),
        pieces.black.find? (fun p => p.piece == PIECE.BLACK_KING) with
    | some whiteKing, some blackKing =>
      let rowDiff := jsAbsI (whiteKing.row - blackKing.row)
      let colDiff := jsAbsI (whiteKing.col - blackKing.col)
      if (rowDiff == 2 && colDiff == 0) || (rowDiff == 0 && colDiff == 2) then
        if position.currentPlayer == PLAYER.WHITE then 1 else -1
      else 0
    | _, _ => 0
  else 0

/-- Source `ai.evaluation.js evaluateEndgame`. -/
def evaluateEndgame (position : Position) (pieces : PiecesInfo) : ℚ :=
  let totalPieces := pieces.white.length + pieces.black.length
  let score : ℚ := 0
  let score :=
    if pieces.whiteMen == 0 && pieces.blackMen == 0 then
      let kingDiff : ℤ := (pieces.whiteKings : ℤ) - (pieces.blackKings : ℤ)
      let score := score + (kingDiff : ℚ) * 200
      if jsAbsI kingDiff ≤ 1 then
        let score := pieces.white.foldl (fun score p =>
          if p.piece == PIECE.WHITE_KING then
            let centerDist : ℚ := jsAbsQ ((p.row : ℚ) - 9/2) + jsAbsQ ((p.col : ℚ) - 9/2)
            score + (15 - centerDist)
          else score) score
        pieces.black.foldl (fun score p =>
          if p.piece == PIECE.BLACK_KING then
            let centerDist : ℚ := jsAbsQ ((p.row : ℚ) - 9/2) + jsAbsQ ((p.col : ℚ) - 9/2)
            score - (15 - centerDist)
          else score) score
      else score
    else score
  if totalPieces ≤ 6 then score + (evaluateOpposition position pieces : ℚ) * 50
  else score

/-- The phase-weight record of `ai.evaluation.js getPhaseWeights`. -/
structure PhaseWeights where
  mobility : ℚ
  tactics : ℚ
  control : ℚ
  formations : ℚ
  threats : ℚ
  endgame : ℚ
deriving DecidableEq, Repr

/-- Source `ai.evaluation.js getPhaseWeights`. -/
def getPhaseWeights (gamePhase : GamePhase) : PhaseWeights :=
  match gamePhase with
  | .opening => ⟨2, 1, 3/2, 6/5, 4/5, 0⟩
  | .middlegame => ⟨3/2, 3/2, 6/5, 1, 6/5, 0⟩
  | .endgame => ⟨4/5, 1, 4/5, 1/2, 3/5, 2⟩

/-- Source `ai.evaluation.js evaluateMaterial`. -/
def evaluateMaterial (position : Position) : ℤ :=
  (List.range BOARD_SIZE).foldl (fun score r =>
    (List.range BOARD_SIZE).foldl (fun score c =>
      let piece := getP position.pieces r c
      if piece == PIECE.WHITE then score + PIECE_VALUES.MAN
      else if piece == PIECE.WHITE_KING then score + PIECE_VALUES.KING
      else if piece == PIECE.BLACK then score - PIECE_VALUES.MAN
      else if piece == PIECE.BLACK_KING then score - PIECE_VALUES.KING
      else score) score) 0

/-- The opening-book collaborator (spec section 6): an external opaque
source of moves, modelled as a pair of functions. -/
structure Book where
  getMove : Position → List String → Option Move
  isBookMove : Position → Move → Bool

/-- The mutable state of a `GrandmasterAI` instance that the embedded
search reads or writes, plus deterministic oracles for the ambient
`Date.now()` clock (read at `clockIdx`, which advances on every call)
and `Math.random()` stream (likewise at `rngIdx`). -/
structure Ai where
  cache : TranspositionTable
  evalCache : List (String × ℚ)
  level : ℕ
  nodeCount : ℕ
  searchAborted : Bool
  maxRecursionDepth : ℕ
  positionHistory : List String
  killerMoves : List (Option Move × Option Move)
  historyTable : List (String × ℤ)
  quiescenceDepth : ℤ
  openingBook : Option Book
  clock : ℕ → ℤ
  clockIdx : ℕ
  rng : ℕ → ℚ
  rngIdx : ℕ

/-- A `Date.now()` call: read the clock oracle and advance it. -/
def dateNow (ai : Ai) : ℤ × Ai :=
  (ai.clock ai.clockIdx, { ai with clockIdx := ai.clockIdx + 1 })

/-- A `Math.random()` call: read the random oracle and advance it. -/
def mathRandom (ai : Ai) : ℚ × Ai :=
  (ai.rng ai.rngIdx, { ai with rngIdx := ai.rngIdx + 1 })

/-- Source `ai.evaluation.js evaluatePosition`: memoised by position key;
immediate win/loss scores when one side has no pieces (not cached, as in
the source); otherwise material, flipped piece-square tables, the
weighted sub-evaluations, a tempo term, and the final sign flip to the
side to move. -/
def evaluatePosition (ai : Ai) (position : Position) : ℚ × Ai :=
  let cacheKey := generateKey position
  match assocGet ai.evalCache cacheKey with
  | some v => (v, ai)
  | none =>
    let pieces := collectPieces position
    if pieces.white.length == 0 then
      ((if position.currentPlayer == PLAYER.BLACK then 10000 else -10000), ai)
    else if pieces.black.length == 0 then
      ((if position.currentPlayer == PLAYER.WHITE then 10000 else -10000), ai)
    else
      let gamePhase := getGamePhase position
      let whiteMaterial : ℤ := (pieces.whiteMen : ℤ) * PIECE_VALUES.MAN +
        (pieces.whiteKings : ℤ) * PIECE_VALUES.KING
      let blackMaterial : ℤ := (pieces.blackMen : ℤ) * PIECE_VALUES.MAN +
        (pieces.blackKings : ℤ) * PIECE_VALUES.KING
      let score : ℚ := ((whiteMaterial - blackMaterial : ℤ) : ℚ)
      let score := pieces.white.foldl (fun score p =>
        score + evaluatePiecePositionFlipped p true gamePhase) score
      let score := pieces.black.foldl (fun score p =>
        score - evaluatePiecePositionFlipped p false gamePhase) score
      let mobility := evaluateMobilityDifferential position
      let threats := evaluateTacticalThreats position pieces
      let control := evaluateStrategicControl position gamePhase pieces
      let formations := evaluateFormations position pieces
      let threatMaps := generateThreatMaps position pieces
      let heatmapScore := evaluateHeatmaps position pieces threatMaps
      let endgameScore : ℚ :=
        if gamePhase == GamePhase.endgame then evaluateEndgame position pieces
        else 0
      let weights := getPhaseWeights gamePhase
      let score := score + (mobility : ℚ) * weights.mobility
      let score := score + (threats : ℚ) * weights.tactics
      let score := score + control * weights.control
      let score := score + formations * weights.formations
      let score := score + (heatmapScore : ℚ) * weights.threats
      let score := score + endgameScore * weights.endgame
      let score := score +
        (if position.currentPlayer == PLAYER.WHITE then 10 else -10)
      let finalScore :=
        if position.currentPlayer == PLAYER.WHITE then score else -score
      (finalScore, { ai with evalCache := assocSet ai.evalCache cacheKey finalScore })

end Draughts

namespace Draughts

/-- JS `Math.min` on integers. -/
def jsMinI (a b : ℤ) : ℤ := if a < b then a else b

/-- The `isKing` helper shared by `ai.move-ordering.js` (also inlined in
several other modules). -/
def isKing (piece : ℕ) : Bool :=
  piece == PIECE.WHITE_KING || piece == PIECE.BLACK_KING

/-- Source `ai.move-ordering.js getMoveKey`
(the template string `"r,c-r,c"`). -/
def getMoveKey (move : Move) : String :=
  toString move.fromSq.row ++ "," ++ toString move.fromSq.col ++ "-" ++
    toString move.toSq.row ++ "," ++ toString move.toSq.col

/-- Source `ai.move-ordering.js isSameMove`; both arguments may be `null`
in the source (killer slots, cache best moves). -/
def isSameMove (move1 move2 : Option Move) : Bool :=
  match move1, move2 with
  | some m1, some m2 =>
    m1.fromSq.row == m2.fromSq.row && m1.fromSq.col == m2.fromSq.col &&
      m1.toSq.row == m2.toSq.row && m1.toSq.col == m2.toSq.col
  | _, _ => false

/-- Source `ai.move-ordering.js updateKillerMoves`. -/
def updateKillerMoves (move : Move) (ply : ℕ)
    (killerMoves : List (Option Move × Option Move)) :
    List (Option Move × Option Move) :=
  if killerMoves.length ≤ ply then killerMoves
  else if !move.captures.isEmpty then killerMoves
  else
    let slot := killerMoves.getD ply (none, none)
    if !isSameMove (some move) slot.1 then
      killerMoves.set ply (some move, slot.1)
    else killerMoves

/-- Source `ai.move-ordering.js updateHistory`: read the move's current
score, and if it exceeds 10000 halve every entry
(`Math.floor(v / 2)` is integer floor division); finally store the
pre-halving current score plus `depth²` for the move. -/
def updateHistory (move : Move) (depth : ℤ)
    (historyTable : List (String × ℤ)) : List (String × ℤ) :=
  let key := getMoveKey move
  let current := (assocGet historyTable key).getD 0
  let increment := depth * depth
  let historyTable :=
    if 10000 < current then
      historyTable.map (fun p => (p.1, Int.fdiv p.2 2))
    else historyTable
  assocSet historyTable key (current + increment)

/-- Source `ai.move-ordering.js getPromotionDistance` (`Infinity` for
kings). -/
def getPromotionDistance (piece : ℕ) (row : ℤ) : JNum :=
  if isKing piece then JNum.pos
  else
    let isWhite := piece == PIECE.WHITE
    let promotionRow : ℤ := if isWhite then 0 else 9
    JNum.fin (jsAbsI (row - promotionRow) : ℤ)

/-- The finite value of a `JNum` (used only where the caller has already
established finiteness). -/
def JNum.finD : JNum → ℚ
  | JNum.fin q => q
  | _ => 0

/-- Source `ai.move-ordering.js quickEvaluateMove`.  The `Math.random()`
jitter at levels ≤ 3 consumes the `Ai` random oracle. -/
def quickEvaluateMove (position : Position) (move : Move) (ai : Ai) :
    ℚ × Ai :=
  let piece := getP position.pieces move.fromSq.row move.fromSq.col
  let isCapture := !move.captures.isEmpty
  let nextPosition := makeMove position move
  let score : ℚ := (evaluateMaterial nextPosition : ℤ)
  let score :=
    if !isCapture && staticExchangeEvaluation position move < 0 then score - 80
    else score
  let score :=
    if isCapture then score + (countCaptureValue position move : ℚ) * (5/4)
    else score
  let prot := isProtected nextPosition move.toSq.row move.toSq.col
    nextPosition.currentPlayer
  let score := if prot then score + 15 else score
  let score := if !prot then score - 30 else score
  let distToPromotion := getPromotionDistance piece move.toSq.row
  let score :=
    if JNum.jle distToPromotion (JNum.fin 2) && !isKing piece then
      score + (3 - JNum.finD distToPromotion) * 40
    else score
  let pieceCount := countTotalPieces position
  let score :=
    if pieceCount ≤ 12 && isKing piece then
      let centerDist :=
        jsAbsQ ((move.toSq.row : ℚ) - 9/2) + jsAbsQ ((move.toSq.col : ℚ) - 9/2)
      score + (15 - centerDist) * 2
    else score
  if ai.level ≤ 3 then
    let (r, ai) := mathRandom ai
    (score + ((Rat.floor (r * 5) : ℤ) : ℚ) - 2, ai)
  else (score, ai)

/-- Source `ai.move-ordering.js orderMoves`: annotate each move with its
ordering score (hash move, MVV-LVA captures, killers, capped history,
promotion, centring, advancement, created threats), then sort
descending.  The in-place `orderScore` annotation plus the JS stable
sort are modelled by scoring into pairs and the stable sort;
the per-move transposition-table lookup refreshes table state and is
threaded. -/
def orderMoves (moves : List Move) (position : Position) (ply : ℕ) (ai : Ai) :
    List Move × Ai :=
  let (scored, ai) := moves.foldl (fun (acc : List (Move × ℚ) × Ai) move =>
    let (scoredSoFar, ai) := acc
    let (ttEntry, tt') := ttLookup ai.cache (generateKey position) 0
      JNum.neg JNum.pos
    let ai := { ai with cache := tt' }
    let score : ℚ := 0
    let score :=
      match ttEntry with
      | some res =>
        if res.entry.bestMove.isSome &&
            isSameMove (some move) res.entry.bestMove then score + 10000
        else score
      | none => score
    let score :=
      if !move.captures.isEmpty then
        let captureValue := countCaptureValue position move
        let attackerValue :=
          getPieceValue (getP position.pieces move.fromSq.row move.fromSq.col)
        score + 1000 + (captureValue : ℚ) - (attackerValue : ℚ) / 10 +
          (move.captures.length : ℚ) * 100
      else score
    let score :=
      if ply < ai.killerMoves.length then
        let slot := ai.killerMoves.getD ply (none, none)
        if isSameMove (some move) slot.1 then score + 900
        else if isSameMove (some move) slot.2 then score + 800
        else score
      else score
    let historyScore := (assocGet ai.historyTable (getMoveKey move)).getD 0
    let score := score + (jsMinI historyScore 400 : ℚ)
    let piece := getP position.pieces move.fromSq.row move.fromSq.col
    let score :=
      if shouldPromote piece move.toSq.row then
        if !move.captures.isEmpty then score + 700 + 200 else score + 700
      else score
    let fromCenter :=
      jsAbsQ ((move.fromSq.row : ℚ) - 9/2) + jsAbsQ ((move.fromSq.col : ℚ) - 9/2)
    let toCenter :=
      jsAbsQ ((move.toSq.row : ℚ) - 9/2) + jsAbsQ ((move.toSq.col : ℚ) - 9/2)
    let score :=
      if toCenter < fromCenter then score + (fromCenter - toCenter) * 5
      else score
    let score :=
      if !isKing piece then
        let isWhite := piece == PIECE.WHITE
        let advancement :=
          if isWhite then move.fromSq.row - move.toSq.row
          else move.toSq.row - move.fromSq.row
        score + (advancement : ℚ) * 10
      else score
    let score :=
      if move.captures.isEmpty then
        let afterMove := makeMove position move
        let threats := getAvailableCaptures afterMove
        if !threats.isEmpty then score + 50 + (threats.length : ℚ) * 10
        else score
      else score
    (scoredSoFar ++ [(move, score)], ai)) ([], ai)
  ((stableSort (fun a b => b.2 ≤ a.2) scored).map Prod.fst, ai)

/-- The per-move scoring step of `ai.move-ordering.js orderMovesAtRoot`:
quick evaluation ×10, heavy penalty for unsafe moves, bonuses for
created threats, for restricting the opponent, for the cached best move
and for book moves. -/
def rootScoreStep (position : Position) (acc : List (Move × ℚ) × Ai)
    (move : Move) : List (Move × ℚ) × Ai :=
    let (scoredSoFar, ai) := acc
    let (q, ai) := quickEvaluateMove position move ai
    let score : ℚ := q * 10
    let score := if !isMoveReallySafe position move then score - 1000 else score
    let afterMove := makeMove position move
    let ourNewCaptures := getAvailableCaptures afterMove
    let threats := ourNewCaptures.filter (fun m => !m.captures.isEmpty)
    let score := score + (threats.length : ℚ) * 20
    let afterMove := { afterMove with currentPlayer := position.currentPlayer }
    let opponentMoves := generateMoves afterMove
    let score :=
      if opponentMoves.length ≤ 5 then
        score + ((10 : ℚ) - (opponentMoves.length : ℚ)) * 15
      else score
    let (ttEntry, tt') := ttLookup ai.cache (generateKey position) 0
      JNum.neg JNum.pos
    let ai := { ai with cache := tt' }
    let score :=
      match ttEntry with
      | some res =>
        if res.entry.bestMove.isSome &&
            isSameMove (some move) res.entry.bestMove then score + 500
        else score
      | none => score
    let score :=
      match ai.openingBook with
      | some book => if book.isBookMove position move then score + 300 else score
      | none => score
    (scoredSoFar ++ [(move, score)], ai)

/-- Source `ai.move-ordering.js orderMovesAtRoot` (see `rootScoreStep` for
the per-move scoring of its loop). -/
def orderMovesAtRoot (moves : List Move) (position : Position) (ai : Ai) :
    List Move × Ai :=
  let (scored, ai) := moves.foldl (rootScoreStep position) ([], ai)
  ((stableSort (fun a b => b.2 ≤ a.2) scored).map Prod.fst, ai)

/-- The local `givesCheck` helper of `ai.search.js` (a position "gives
check" when captures are pending). -/
def givesCheck (position : Position) : Bool :=
  0 < (getAvailableCaptures position).length

/-- The type of the recursive-call closure handed to the negamax move
loop: position, depth, alpha, beta (the caller's closure already fixes
`recursionDepth + 1` and `ply + 1`). -/
def NegaRec : Type :=
  Position → ℤ → JNum → JNum → Ai → JNum × Ai

/-- The move loop of `ai.search.js negamax` (Principal Variation Search
over the ordered moves, Late Move Reductions, killer/history updates on
a beta cutoff).  Answers `(bestScore, bestMove, alpha, ai)`; the loop
breaks on the cutoff.  `rec` performs the child search. -/
def negamaxLoop (rec : NegaRec) (position : Position) (depth : ℤ)
    (beta : JNum) (key : String) (ply : ℕ) :
    List Move → ℕ → JNum → Option Move → JNum → Ai →
    JNum × Option Move × JNum × Ai
  | [], _, bestScore, bestMove, alpha, ai => (bestScore, bestMove, alpha, ai)
  | move :: rest, i, bestScore, bestMove, alpha, ai =>
    let newPosition :=
      { makeMove position move with history := position.history ++ [key] }
    let reduction : ℤ :=
      if 3 ≤ depth && 3 ≤ i && move.captures.isEmpty &&
          !givesCheck newPosition then
        if 6 ≤ i then 2 else 1
      else 0
    let (score, ai) :=
      if i == 0 then
        let (s, ai) := rec newPosition (depth - 1) (JNum.jneg beta)
          (JNum.jneg alpha) ai
        (JNum.jneg s, ai)
      else
        let (s1, ai) := rec newPosition (depth - 1 - reduction)
          (JNum.jsubF (JNum.jneg alpha) 1) (JNum.jneg alpha) ai
        let s1 := JNum.jneg s1
        if JNum.jlt alpha s1 && JNum.jlt s1 beta then
          let (s2, ai) := rec newPosition (depth - 1) (JNum.jneg beta)
            (JNum.jneg alpha) ai
          (JNum.jneg s2, ai)
        else (s1, ai)
    let (bestScore, bestMove) :=
      if JNum.jlt bestScore score then (score, some move) else (bestScore, bestMove)
    let alpha := JNum.jmax alpha score
    if JNum.jle beta alpha then
      let ai :=
        if move.captures.isEmpty then
          { ai with
            killerMoves := updateKillerMoves move ply ai.killerMoves
            historyTable := updateHistory move depth ai.historyTable }
        else ai
      (bestScore, bestMove, alpha, ai)
    else
      negamaxLoop rec position depth beta key ply rest (i + 1) bestScore
        bestMove alpha ai

/-- The inner loop of `ai.search.js quiescenceSearch`: captures in order,
skipping negative-SEE ones, with the beta early return. -/
def quiescenceLoop (rec : Position → JNum → JNum → ℤ → ℕ → Ai → JNum × Ai)
    (position : Position) (depth : ℤ) (beta : JNum) (recursionDepth : ℕ) :
    List Move → JNum → Ai → JNum × Ai
  | [], alpha, ai => (alpha, ai)
  | move :: rest, alpha, ai =>
    if staticExchangeEvaluation position move < 0 then
      quiescenceLoop rec position depth beta recursionDepth rest alpha ai
    else
      let newPosition := makeMove position move
      let (s, ai) := rec newPosition (JNum.jneg beta) (JNum.jneg alpha)
        (depth - 1) (recursionDepth + 1) ai
      let score := JNum.jneg s
      if JNum.jle beta score then (beta, ai)
      else
        let alpha := if JNum.jlt alpha score then score else alpha
        quiescenceLoop rec position depth beta recursionDepth rest alpha ai

/-- Source `ai.search.js quiescenceSearch`: depth/recursion caps, stand
pat, delta pruning, SEE-filtered capture exploration.  The fuel is one
more than the remaining quiescence depth, so it cannot run out before
the source's own `depth <= 0` base case (the fuel-0 branch is
unreachable). -/
def quiescenceSearch (fuel : ℕ) (ai : Ai) (position : Position)
    (alpha beta : JNum) (depth : ℤ) (startTime : ℤ) (timeLimit : ℚ)
    (recursionDepth : ℕ) : JNum × Ai :=
  match fuel with
  | 0 => (JNum.fin 0, ai)
  | fuel + 1 =>
    let ai := { ai with nodeCount := ai.nodeCount + 1 }
    if depth ≤ 0 || ai.maxRecursionDepth + 10 < recursionDepth then
      let (v, ai) := evaluatePosition ai position
      (JNum.fin v, ai)
    else
      let (standPat, ai) := evaluatePosition ai position
      if JNum.jle beta (JNum.fin standPat) then (beta, ai)
      else if JNum.jlt (JNum.fin standPat) (JNum.jsubF alpha 500) then
        (alpha, ai)
      else
        let alpha :=
          if JNum.jlt alpha (JNum.fin standPat) then JNum.fin standPat else alpha
        let captures := getAvailableCaptures position
        if captures.isEmpty then (JNum.fin standPat, ai)
        else
          let sorted := stableSort (fun a b =>
            evaluateCaptureSequence position b ≤ evaluateCaptureSequence position a)
            captures
          quiescenceLoop
            (fun pos a b d rd ai =>
              quiescenceSearch fuel ai pos a b d startTime timeLimit rd)
            position depth beta recursionDepth sorted alpha ai

/-- Source `ai.search.js negamax`.  The fuel argument is only a
termination device: the source recursion terminates because
`recursionDepth` grows by one per call and the cap
`recursionDepth > ai.maxRecursionDepth` returns; callers pass
`ai.maxRecursionDepth + 2 - recursionDepth` or more, so the fuel-0
branch is unreachable. -/
def negamax (fuel : ℕ) (ai : Ai) (position : Position) (depth : ℤ)
    (alpha beta : JNum) (startTime : ℤ) (timeLimit : ℚ)
    (recursionDepth : ℕ) (ply : ℕ) : JNum × Ai :=
  match fuel with
  | 0 => (JNum.fin 0, ai)
  | fuel + 1 =>
    let ai := { ai with nodeCount := ai.nodeCount + 1 }
    if ai.maxRecursionDepth < recursionDepth then
      let (v, ai) := evaluatePosition ai position
      (JNum.fin v, ai)
    else
      let (timedOut, ai) :=
        if ai.nodeCount % 2048 == 0 then
          let (t, ai) := dateNow ai
          if timeLimit < ((t - startTime : ℤ) : ℚ) then
            (true, { ai with searchAborted := true })
          else (false, ai)
        else (false, ai)
      if timedOut then (JNum.fin 0, ai)
      else
        let key := generateKey position
        if 2 ≤ (position.history.filter (fun k => k == key)).length then
          (JNum.fin (-50), ai)
        else if depth ≤ 0 then
          quiescenceSearch (ai.quiescenceDepth.toNat + 1) ai position alpha beta
            ai.quiescenceDepth startTime timeLimit recursionDepth
        else
          let (cached, tt') := ttLookup ai.cache key depth alpha beta
          let ai := { ai with cache := tt' }
          if (match cached with | some c => c.useful | none => false) then
            ((match cached with
              | some c => c.entry.value
              | none => JNum.fin 0), ai)
          else
            let moves := generateMoves position
            if moves.isEmpty then (JNum.fin (-10000 + (ply : ℤ)), ai)
            else
              let depth :=
                if 2 ≤ depth && moves.length ≤ 3 && recursionDepth < 10 then
                  depth + 1
                else depth
              let (nullCut, ai) :=
                if 3 ≤ depth && 0 < recursionDepth && 5 < moves.length &&
                    !hasCaptures position then
                  let nullPos : Position :=
                    { pieces := position.pieces,
                      currentPlayer := if position.currentPlayer == 1 then 2 else 1,
                      history := position.history }
                  let R : ℤ := if 6 < depth then 3 else 2
                  let (ns, ai) := negamax fuel ai nullPos (depth - 1 - R)
                    (JNum.jneg beta) (JNum.jaddF (JNum.jneg beta) 1) startTime
                    timeLimit (recursionDepth + 1) ply
                  let nullScore := JNum.jneg ns
                  if JNum.jle beta nullScore then ((some beta : Option JNum), ai)
                  else (none, ai)
                else (none, ai)
              match nullCut with
              | some b => (b, ai)
              | none =>
                let (orderedMoves, ai) := orderMoves moves position ply ai
                let (bestScore, bestMove, alpha, ai) :=
                  negamaxLoop
                    (fun pos d a b ai =>
                      negamax fuel ai pos d a b startTime timeLimit
                        (recursionDepth + 1) (ply + 1))
                    position depth beta key ply orderedMoves 0 JNum.neg none
                    alpha ai
                let type :=
                  if JNum.jle bestScore alpha then ENTRY_TYPES.UPPER_BOUND
                  else if JNum.jle beta bestScore then ENTRY_TYPES.LOWER_BOUND
                  else ENTRY_TYPES.EXACT
                let cache' := ttStore ai.cache key depth bestScore type bestMove
                let ai := { ai with cache := cache' }
                (bestScore, ai)

end Draughts

namespace Draughts

/-- The negamax fuel used at the root: the recursion-depth cap fires
strictly before this fuel can run out (see `negamax`). -/
def rootFuel (ai : Ai) : ℕ := ai.maxRecursionDepth + 2

/-- The move loop of `ai.search.js searchBestMove` (root Principal
Variation Search): per-move wall-clock/abort check (returning the
best-so-far flagged as a timeout), PVS windows, killer update and break
on a root beta cutoff.  Answers `(bestMove, bestScore, timeout, ai)`;
the `bestMove || moves[0]` fallback is applied by the wrapper.
`pvsRootScore` is the per-move PVS score of that loop. -/
def pvsRootScore (position : Position) (depth : ℤ) (alpha beta : JNum)
    (startTime : ℤ) (timeLimit : ℚ) (key : String) (move : Move) (i : ℕ)
    (ai : Ai) : JNum × Ai :=
  let newPosition :=
    { makeMove position move with history := position.history ++ [key] }
  if i == 0 then
    let (s, ai) := negamax (rootFuel ai) ai newPosition (depth - 1)
      (JNum.jneg beta) (JNum.jneg alpha) startTime timeLimit 0 1
    (JNum.jneg s, ai)
  else
    let (s1, ai) := negamax (rootFuel ai) ai newPosition (depth - 1)
      (JNum.jsubF (JNum.jneg alpha) 1) (JNum.jneg alpha) startTime
      timeLimit 0 1
    let s1 := JNum.jneg s1
    if JNum.jlt alpha s1 && JNum.jlt s1 beta then
      let (s2, ai) := negamax (rootFuel ai) ai newPosition (depth - 1)
        (JNum.jneg beta) (JNum.jneg alpha) startTime timeLimit 0 1
      (JNum.jneg s2, ai)
    else (s1, ai)

/-- The move loop itself (see the wrapper below for the fallback). -/
def searchBestMoveLoop (position : Position) (depth : ℤ) (beta : JNum)
    (startTime : ℤ) (timeLimit : ℚ) (key : String) :
    List Move → ℕ → Option Move → JNum → JNum → Ai →
    Option Move × JNum × Bool × Ai
  | [], _, bestMove, bestScore, _, ai => (bestMove, bestScore, false, ai)
  | move :: rest, i, bestMove, bestScore, alpha, ai =>
    let (t, ai) := dateNow ai
    if timeLimit < ((t - startTime : ℤ) : ℚ) || ai.searchAborted then
      (bestMove, bestScore, true, ai)
    else
      let (score, ai) :=
        pvsRootScore position depth alpha beta startTime timeLimit key move
          i ai
      let (bestScore, bestMove) :=
        if JNum.jlt bestScore score then (score, some move)
        else (bestScore, bestMove)
      let alpha := JNum.jmax alpha score
      if JNum.jle beta alpha then
        let ai := { ai with killerMoves := updateKillerMoves move 0 ai.killerMoves }
        (bestMove, bestScore, false, ai)
      else
        searchBestMoveLoop position depth beta startTime timeLimit key rest
          (i + 1) bestMove bestScore alpha ai

/-- Source `ai.search.js searchBestMove`. -/
def searchBestMove (ai : Ai) (position : Position) (depth : ℤ)
    (alpha beta : JNum) (startTime : ℤ) (timeLimit : ℚ) :
    Option Move × JNum × Bool × Ai :=
  let (moves, ai) := orderMovesAtRoot (generateMoves position) position ai
  let key := generateKey position
  let (bestMove, bestScore, timeout, ai) :=
    searchBestMoveLoop position depth beta startTime timeLimit key moves 0
      none JNum.neg alpha ai
  ((bestMove <|> moves.head?), bestScore, timeout, ai)

/-- Source `ai.search.js quickTacticalScan` (unused `ai` parameter
omitted): if captures exist and the best (by capture-sequence value) is
unique or beats the runner-up by more than 100, it is forced. -/
def quickTacticalScan (position : Position) (moves : List Move) :
    Option Move :=
  let captures := moves.filter (fun m => !m.captures.isEmpty)
  if !captures.isEmpty then
    let sorted := stableSort (fun a b =>
      evaluateCaptureSequence position b ≤ evaluateCaptureSequence position a)
      captures
    if sorted.length == 1 then sorted.head?
    else
      match sorted with
      | c0 :: c1 :: _ =>
        if evaluateCaptureSequence position c1 + 100 <
            evaluateCaptureSequence position c0 then
          some c0
        else none
      | _ => none
  else none

/-- Source `ai.search.js allocateTime`. -/
def allocateTime (level : ℕ) (position : Position) (moveNumber : ℕ)
    (baseTime : ℚ) : ℚ :=
  let time := baseTime
  let time := if moveNumber < 10 then time * (7/10) else time
  let totalPieces := countTotalPieces position
  let time := if totalPieces ≤ 10 then time * (3/2) else time
  let captures := getAvailableCaptures position
  let time :=
    if !captures.isEmpty then
      let maxCaptures := jsMaxList (captures.map (fun m => (m.captures.length : ℤ)))
      if 3 ≤ maxCaptures then time * 2
      else if 2 ≤ maxCaptures then time * (3/2)
      else time
    else time
  let multiplier := COMPLEX_POSITION_MULTIPLIER level
  min (time * multiplier) (baseTime * 3)

/-- The iterative-deepening `for` loop of `ai.search.js getBestMove`:
per-depth time check, aspiration window with full-window re-search,
break on timeout/abort or a decisive score, time extension on winning
scores.  Fuel bounds the loop count; the `maxDepth < depth` test is the
source's loop condition (`maxDepth ≤ 15`, so fuel 32 never runs out). -/
def deepeningLoop (fuel : ℕ) (ai : Ai) (position : Position) (startTime : ℤ)
    (maxDepth : ℤ) (depth : ℤ) (bestMove : Move) (bestScore lastScore : JNum)
    (timeLimit : ℚ) : Move × JNum × Ai :=
  match fuel with
  | 0 => (bestMove, bestScore, ai)
  | fuel + 1 =>
    if maxDepth < depth then (bestMove, bestScore, ai)
    else
      let (t, ai) := dateNow ai
      if timeLimit - ((t - startTime : ℤ) : ℚ) < timeLimit * (1/10) ||
          ai.searchAborted then
        (bestMove, bestScore, ai)
      else
        let (alpha, beta) :=
          if 3 < depth && JNum.jlt (JNum.jabs lastScore) (JNum.fin 1000) then
            (JNum.jsubF lastScore INITIAL_DELTA, JNum.jaddF lastScore INITIAL_DELTA)
          else (JNum.neg, JNum.pos)
        let (rmove, rscore, rtimeout, ai) :=
          searchBestMove ai position depth alpha beta startTime timeLimit
        let (rmove, rscore, ai) :=
          if JNum.jle rscore alpha || JNum.jle beta rscore then
            let (m2, s2, _t2, ai) :=
              searchBestMove ai position depth JNum.neg JNum.pos startTime
                timeLimit
            if m2.isSome then (m2, s2, ai) else (rmove, rscore, ai)
          else (rmove, rscore, ai)
        if rtimeout || ai.searchAborted then (bestMove, bestScore, ai)
        else
          match rmove with
          | some m =>
            let (_tn, ai) := dateNow ai
            if JNum.jlt (JNum.fin 5000) (JNum.jabs rscore) then
              (m, rscore, ai)
            else
              deepeningLoop fuel ai position startTime maxDepth (depth + 1)
                m rscore rscore
                (if JNum.jlt (JNum.fin 1000) rscore && depth < maxDepth - 2
                  then timeLimit * (6/5) else timeLimit)
          | none =>
            deepeningLoop fuel ai position startTime maxDepth (depth + 1)
              bestMove bestScore lastScore timeLimit

/-- The safety-gate rescoring loop of `ai.search.js getBestMove`: score
every safe move with `quickEvaluateMove`, threading the `Ai` state. -/
def safetyRescore (position : Position) (moves : List Move) (ai : Ai) :
    List (Move × ℚ) × Ai :=
  moves.foldl (fun (acc : List (Move × ℚ) × Ai) m =>
    let (q, ai) := quickEvaluateMove position m acc.2
    (acc.1 ++ [(m, q)], ai)) ([], ai)

/-- The deepening-search tail of `ai.search.js getBestMove` (everything
after the opening-book miss): run iterative deepening from the first
generated move, re-check the final choice with the safety gate, read the
end time, and return the chosen move. -/
def searchPhase (ai : Ai) (position : Position) (startTime : ℤ)
    (maxDepth : ℤ) (timeLimit : ℚ) (moves : List Move) : Option Move × Ai :=
  let (bestMove, _bestScore, ai) := deepeningLoop 32 ai position
    startTime maxDepth 1 (moves.headD dummyMove) JNum.neg (JNum.fin 0)
    timeLimit
  let (bestMove, ai) :=
    if !isMoveReallySafe position bestMove then
      let safeMoves := moves.filter (fun m => isMoveReallySafe position m)
      if !safeMoves.isEmpty then
        let (scored, ai) := safetyRescore position safeMoves ai
        let sorted := stableSort (fun a b => b.2 ≤ a.2) scored
        (((sorted.headD (bestMove, 0)).1), ai)
      else (bestMove, ai)
    else (bestMove, ai)
  let (_tEnd, ai) := dateNow ai
  (some bestMove, ai)

/-- Source `ai.search.js getBestMove`: reset the search state, generate
root moves (`null` when none, immediate when unique), try the tactical
short circuit and the opening book, run iterative deepening from the
first generated move, and re-check the final choice with the safety
gate.  The gate's comparator sort on `quickEvaluateMove` is modelled as
score-once-then-stable-sort (at levels ≤ 3 the source comparator
re-rolls `Math.random()` per comparison, where JS itself leaves the
order unspecified). -/
def getBestMove (ai : Ai) (position : Position)
    (moveHistoryNotations : List String) : Option Move × Ai :=
  let (startTime, ai) := dateNow ai
  let ai := { ai with
    nodeCount := 0
    searchAborted := false
    positionHistory := []
    killerMoves := List.replicate 100 (none, none) }
  let moves := generateMoves position
  if moves.isEmpty then (none, ai)
  else if moves.length == 1 then (moves.head?, ai)
  else
    match quickTacticalScan position moves with
    | some m => (some m, ai)
    | none =>
      let moveNumber := moveHistoryNotations.length
      let baseTime := TIME_ALLOCATION ai.level
      let timeLimit := allocateTime ai.level position moveNumber baseTime
      let maxDepth := MAX_DEPTH ai.level
      let (maxDepth, timeLimit) :=
        if moves.length ≤ 3 then (maxDepth + 1, timeLimit * (3/2))
        else (maxDepth, timeLimit)
      let bookResult : Option Move :=
        match ai.openingBook with
        | some book =>
          if moveNumber < 20 then book.getMove position moveHistoryNotations
          else none
        | none => none
      match bookResult with
      | some bookMove => (some bookMove, ai)
      | none => searchPhase ai position startTime maxDepth timeLimit moves

end Draughts

namespace Draughts

/-- A capture sequence instrumented with the full chain of squares the
capturing piece occupies (`path ++ [currentPos]` at record time); erasing
`chain` recovers the move of `findCaptureSequences` exactly
(`findCaptureSequencesChains_erase`). -/
structure GMove where
  fromSq : Coord
  toSq : Coord
  captures : List Coord
  chain : List Coord
deriving DecidableEq, Repr

/-- Forgetting the ghost chain. -/
def GMove.toMove (g : GMove) : Move :=
  { fromSq := g.fromSq, toSq := g.toSq, captures := g.captures }

/-- `findCaptureSequences` with the ghost chain recorded: identical
structure, recording `path ++ [currentPos]` alongside each sequence. -/
def findCaptureSequencesChains (fuel : ℕ) (pieces : Board) (currentPos : Coord)
    (path : List Coord) (capturedSoFar : List Coord)
    (visitedPositions : List Coord) (currentPlayer : ℕ) : List GMove :=
  match fuel with
  | 0 => []
  | fuel + 1 =>
    if visitedPositions.contains currentPos then []
    else
      let visited' := currentPos :: visitedPositions
      let piece := getP pieces currentPos.row currentPos.col
      let isKing := piece == PIECE.WHITE_KING || piece == PIECE.BLACK_KING
      let step : Bool × List GMove → Dir → Bool × List GMove := fun acc dir =>
        if isKing then
          match scanForEnemy 16 pieces (currentPos.row + dir.dy)
              (currentPos.col + dir.dx) dir currentPlayer with
          | none => acc
          | some enemyPos =>
            if capturedSoFar.contains enemyPos then acc
            else
              let lands := landingSquares 16 pieces (enemyPos.row + dir.dy)
                (enemyPos.col + dir.dx) dir
              let outs := lands.foldl (fun outs land =>
                let newPieces :=
                  setP (setP (setP pieces currentPos.row currentPos.col PIECE.NONE)
                    enemyPos.row enemyPos.col PIECE.NONE) land.row land.col piece
                outs ++ findCaptureSequencesChains fuel newPieces land
                  (path ++ [currentPos]) (capturedSoFar ++ [enemyPos])
                  visited' currentPlayer) acc.2
              (acc.1 || !lands.isEmpty, outs)
        else
          let jumpOverPos : Coord := ⟨currentPos.row + dir.dy, currentPos.col + dir.dx⟩
          let landPos : Coord := ⟨currentPos.row + 2 * dir.dy, currentPos.col + 2 * dir.dx⟩
          if isValidSquare landPos.row landPos.col &&
              getP pieces landPos.row landPos.col == PIECE.NONE &&
              isOpponentPiece (getP pieces jumpOverPos.row jumpOverPos.col)
                currentPlayer then
            if capturedSoFar.contains jumpOverPos then acc
            else
              let newPieces :=
                setP (setP (setP pieces currentPos.row currentPos.col PIECE.NONE)
                  jumpOverPos.row jumpOverPos.col PIECE.NONE) landPos.row landPos.col piece
              (true, acc.2 ++ findCaptureSequencesChains fuel newPieces landPos
                (path ++ [currentPos]) (capturedSoFar ++ [jumpOverPos])
                visited' currentPlayer)
          else acc
      let res := DIRECTIONS.KING_MOVES.foldl step (false, [])
      res.2 ++
        (if !res.1 && !capturedSoFar.isEmpty then
          [{ fromSq := path.headD currentPos, toSq := currentPos,
             captures := capturedSoFar, chain := path ++ [currentPos] }]
        else [])

/-- The ghost counterpart of `allCaptures`: every capture sequence of the
side to move, instrumented with its chain. -/
def allCapturesChains (position : Position) : List GMove :=
  (List.range BOARD_SIZE).foldl (fun acc (r : ℕ) =>
    (List.range BOARD_SIZE).foldl (fun acc (c : ℕ) =>
      if isPieceOfCurrentPlayer (getP position.pieces (r : ℤ) (c : ℤ))
          position.currentPlayer then
        acc ++ findCaptureSequencesChains 21 position.pieces
          ⟨(r : ℤ), (c : ℤ)⟩ [] [] [] position.currentPlayer
      else acc) acc) []

/-- Spec-side definition (for claim C1): the globally maximal capture
length among all enumerated capture sequences of the position. -/
def maxCaptureLen (position : Position) : ℕ :=
  ((allCaptures position).map (fun m => m.captures.length)).foldr max 0

/-- Spec-side definition (for claim C3): the bound/window condition under
which the spec declares a stored entry usable for a cutoff. -/
def specUsableBound (e : TTEntry) (alpha beta : JNum) : Prop :=
  e.type = ENTRY_TYPES.EXACT ∨
    (e.type = ENTRY_TYPES.LOWER_BOUND ∧ JNum.jle beta e.value = true) ∨
    (e.type = ENTRY_TYPES.UPPER_BOUND ∧ JNum.jle e.value alpha = true)

instance (e : TTEntry) (alpha beta : JNum) :
    Decidable (specUsableBound e alpha beta) := by
  unfold specUsableBound; infer_instance

/-- A board whose rows all exist and have the full width (every grid the
engine manipulates is a 10×10 array of rows). -/
def boardWF (b : Board) : Prop :=
  b.length = BOARD_SIZE ∧ ∀ row ∈ b, row.length = BOARD_SIZE

instance (b : Board) : Decidable (boardWF b) := by
  unfold boardWF; infer_instance

/-- The opponent's-turn view of a position used by the mobility term
(spec-side shorthand for the inline literal of
`evaluateMobilityDifferential`). -/
def mobilityOpponent (position : Position) : Position :=
  { pieces := position.pieces
    currentPlayer :=
      if position.currentPlayer == PLAYER.WHITE then PLAYER.BLACK
      else PLAYER.WHITE
    history := [] }

/-- A transposition table holding one entry at depth 5 (test fixture for
the lookup contract). -/
def ttFixture : TranspositionTable :=
  ttStore (createTranspositionTable 100) "k" 5 (JNum.fin 7) ENTRY_TYPES.EXACT
    (some dummyMove)

/-- The entry `ttFixture` holds under key `"k"`. -/
def ttEntryFix : TTEntry :=
  { depth := 5, value := JNum.fin 7, type := ENTRY_TYPES.EXACT,
    bestMove := some dummyMove, accessTime := 0, age := 0 }

/-- Spec-side (for claim C7): the wall clock the `Ai` oracle will deliver
to the first per-depth check of the deepening loop already exhausts the
allocated budget, so the loop breaks before any depth-1 search. -/
def firstDeepeningCheckTimesOut (ai : Ai) (position : Position)
    (moveHistoryNotations : List String) : Prop :=
  let startTime := ai.clock ai.clockIdx
  let t1 := ai.clock (ai.clockIdx + 1)
  let baseTime := TIME_ALLOCATION ai.level
  let timeLimit0 :=
    allocateTime ai.level position moveHistoryNotations.length baseTime
  let timeLimit :=
    if (generateMoves position).length ≤ 3 then timeLimit0 * (3/2)
    else timeLimit0
  timeLimit - ((t1 - startTime : ℤ) : ℚ) < timeLimit * (1/10)

instance (ai : Ai) (position : Position) (moveHistoryNotations : List String) :
    Decidable (firstDeepeningCheckTimesOut ai position
      moveHistoryNotations) := by
  unfold firstDeepeningCheckTimesOut; infer_instance

/-- The empty 10×10 grid (test fixture). -/
def emptyBoard : Board := List.replicate 10 (List.replicate 10 PIECE.NONE)

/-- Placing one piece (test fixture). -/
def withPiece (b : Board) (r c v : ℕ) : Board := setP b r c v

/-- A reference `Ai` state with the given clock oracle: fresh tables,
grandmaster level, the constructor's recursion cap and the level-6
quiescence depth, no opening book (test fixture). -/
def mkAi (clock : ℕ → ℤ) : Ai :=
  { cache := createTranspositionTable 2000000, evalCache := [], level := 6,
    nodeCount := 0, searchAborted := false, maxRecursionDepth := 60,
    positionHistory := [], killerMoves := List.replicate 100 (none, none),
    historyTable := [], quiescenceDepth := 8, openingBook := none,
    clock := clock, clockIdx := 0, rng := fun _ => 0, rngIdx := 0 }

/-- Fresh `Ai` with a constant clock (no search ever times out). -/
def aiZero : Ai := mkAi (fun _ => 0)

/-- Fresh `Ai` whose clock jumps far beyond any time budget right after
the start-time reading (the deepening loop times out immediately). -/
def aiLate : Ai := mkAi (fun i => if i == 0 then 0 else 1000000)

/-- White man on (9,0) fully blocked by black men on (8,1) and (7,2):
white to move has zero legal moves, both sides have pieces. -/
def blockedPos : Position :=
  { pieces := withPiece (withPiece (withPiece emptyBoard 9 0 PIECE.WHITE)
      8 1 PIECE.BLACK) 7 2 PIECE.BLACK,
    currentPlayer := PLAYER.WHITE, history := [] }

/-- A lone trapped white man against twenty black kings (rows 0–3, dark
squares): a non-terminal position with one legal white move whose
evaluation is far below the mate scores. -/
def bigPos : Position :=
  { pieces :=
      [0, 1, 2, 3].foldl (fun b r =>
        [1, 3, 5, 7, 9].foldl (fun b c =>
          withPiece b r (if r % 2 == 0 then c else c - 1) PIECE.BLACK_KING
          ) b
        ) (withPiece emptyBoard 9 0 PIECE.WHITE),
    currentPlayer := PLAYER.WHITE, history := [] }

/-- White man (5,4) can capture the hanging black man (4,3), landing on
(3,2); no recapture exists. -/
def hangPos : Position :=
  { pieces := withPiece (withPiece emptyBoard 5 4 PIECE.WHITE) 4 3 PIECE.BLACK,
    currentPlayer := PLAYER.WHITE, history := [] }

/-- The single capture of `hangPos`. -/
def hangMove : Move := ⟨⟨5, 4⟩, ⟨3, 2⟩, [⟨4, 3⟩]⟩

/-- An even man-for-man trade: white (5,4) captures black (4,3) landing on
(3,2); black (2,1) recaptures over (3,2) onto (4,3); the black man on
(1,0) blocks any capture continuation, so the white capture is a single
jump. -/
def evenTradePos : Position :=
  { pieces := withPiece (withPiece (withPiece (withPiece emptyBoard
      5 4 PIECE.WHITE) 4 3 PIECE.BLACK) 2 1 PIECE.BLACK) 1 0 PIECE.BLACK,
    currentPlayer := PLAYER.WHITE, history := [] }

/-- The white capture of `evenTradePos`. -/
def evenTradeMove : Move := ⟨⟨5, 4⟩, ⟨3, 2⟩, [⟨4, 3⟩]⟩

/-- Black's recapture after `evenTradeMove`. -/
def evenTradeRecapture : Move := ⟨⟨2, 1⟩, ⟨4, 3⟩, [⟨3, 2⟩]⟩

/-- White man (5,4) with black men (4,3) and (2,1): the mandatory capture
is the double jump to (1,0). -/
def doubleJumpPos : Position :=
  { pieces := withPiece (withPiece (withPiece emptyBoard 5 4 PIECE.WHITE)
      4 3 PIECE.BLACK) 2 1 PIECE.BLACK,
    currentPlayer := PLAYER.WHITE, history := [] }

/-- Two white men, (9,0) blocked and (8,1) free: exactly two legal moves,
no captures, no opposing pieces. -/
def twoMovePos : Position :=
  { pieces := withPiece (withPiece emptyBoard 9 0 PIECE.WHITE) 8 1 PIECE.WHITE,
    currentPlayer := PLAYER.WHITE, history := [] }

/-- A move that is on no legal-move list of `twoMovePos` (an adversarial
opening-book answer). -/
def bogusMove : Move := ⟨⟨0, 0⟩, ⟨0, 0⟩, []⟩

/-- An opening book that always answers `bogusMove`. -/
def bogusBook : Book :=
  { getMove := fun _ _ => some bogusMove, isBookMove := fun _ _ => false }

/-- A capture promotion scenario for the move-application claim: white man
on (2,3) captures black (1,2) and lands on the promotion row at (0,1). -/
def promoCapturePos : Position :=
  { pieces := withPiece (withPiece (withPiece emptyBoard 2 3 PIECE.WHITE)
      1 2 PIECE.BLACK) 5 6 PIECE.BLACK,
    currentPlayer := PLAYER.WHITE, history := [] }

/-- The promoting capture of `promoCapturePos`. -/
def promoCaptureMove : Move := ⟨⟨2, 3⟩, ⟨0, 1⟩, [⟨1, 2⟩]⟩

/-- `aiZero` with the adversarial opening book installed. -/
def aiBook : Ai := { mkAi (fun _ => 0) with openingBook := some bogusBook }

/-- The first generated move of `twoMovePos`. -/
def mvA : Move := ⟨⟨8, 1⟩, ⟨7, 0⟩, []⟩

/-- The second generated move of `twoMovePos`. -/
def mvB : Move := ⟨⟨8, 1⟩, ⟨7, 2⟩, []⟩

/-- The unique (double-jump) capture of `doubleJumpPos`. -/
def mDJ : Move := ⟨⟨5, 4⟩, ⟨1, 0⟩, [⟨4, 3⟩, ⟨2, 1⟩]⟩

end Draughts

namespace Draughts

/-! ### Basic lemmas about the grid and generic folds -/

theorem getD_set_self {α : Type} (l : List α) (i : ℕ) (a d : α)
    (h : i < l.length) : (l.set i a).getD i d = a := by
  rw [List.getD_eq_getElem?_getD, List.getElem?_set_self h]
  rfl

theorem getD_set_ne {α : Type} (l : List α) (i j : ℕ) (a d : α)
    (h : i ≠ j) : (l.set i a).getD j d = l.getD j d := by
  rw [List.getD_eq_getElem?_getD, List.getElem?_set_ne h,
    ← List.getD_eq_getElem?_getD]

/-- Reading a cell after a write: either the written value or the old
value (covers out-of-range coordinates and ragged boards). -/
theorem getP_setP_or (b : Board) (r c : ℤ) (v : ℕ) (r' c' : ℤ) :
    getP (setP b r c v) r' c' = v ∨ getP (setP b r c v) r' c' = getP b r' c' := by
  unfold getP setP
  by_cases h1 : isValidSquare r c
  · simp only [h1, if_true]
    by_cases h2 : isValidSquare r' c'
    · simp only [h2, if_true]
      by_cases hr : r.toNat = r'.toNat
      · rw [← hr]
        by_cases hlen : r.toNat < b.length
        · rw [getD_set_self _ _ _ _ hlen]
          by_cases hc : c.toNat = c'.toNat
          · rw [← hc]
            by_cases hclen : c.toNat < (b.getD r.toNat []).length
            · exact Or.inl (getD_set_self _ _ _ _ hclen)
            · rw [List.set_eq_of_length_le (le_of_not_lt hclen)]
              exact Or.inr rfl
          · rw [getD_set_ne _ _ _ _ _ hc]
            exact Or.inr rfl
        · rw [List.set_eq_of_length_le (le_of_not_lt hlen)]
          exact Or.inr rfl
      · rw [getD_set_ne _ _ _ _ _ hr]
        exact Or.inr rfl
    · simp only [h2, if_false]
      exact Or.inr rfl
  · simp only [h1, if_false]
    exact Or.inr rfl

/-- Writes elsewhere do not change a cell. -/
theorem getP_setP_ne (b : Board) (r c : ℤ) (v : ℕ) (r' c' : ℤ)
    (h : ¬(r = r' ∧ c = c')) : getP (setP b r c v) r' c' = getP b r' c' := by
  unfold getP setP
  by_cases h1 : isValidSquare r c
  · simp only [h1, if_true]
    by_cases h2 : isValidSquare r' c'
    · simp only [h2, if_true]
      have hval : 0 ≤ r ∧ 0 ≤ c ∧ 0 ≤ r' ∧ 0 ≤ c' := by
        unfold isValidSquare at h1 h2
        simp only [Bool.and_eq_true, decide_eq_true_eq] at h1 h2
        exact ⟨h1.1.1.1, h1.1.2, h2.1.1.1, h2.1.2⟩
      by_cases hr : r.toNat = r'.toNat
      · have hre : r = r' := by omega
        subst hre
        have hc : c ≠ c' := fun hce => h ⟨rfl, hce⟩
        have hcn : c.toNat ≠ c'.toNat := by omega
        by_cases hlen : r.toNat < b.length
        · rw [getD_set_self _ _ _ _ hlen, getD_set_ne _ _ _ _ _ hcn]
        · rw [List.set_eq_of_length_le (le_of_not_lt hlen)]
      · rw [getD_set_ne _ _ _ _ _ hr]
    · simp only [h2, Bool.false_eq_true, if_false]
  · simp only [h1, Bool.false_eq_true, if_false]

/-- Writing a well-formed in-range cell and reading it back. -/
theorem getP_setP_self (b : Board) (r c : ℤ) (v : ℕ) (hWF : boardWF b)
    (h : isValidSquare r c = true) : getP (setP b r c v) r c = v := by
  unfold getP setP
  simp only [h, if_true]
  have hb : 0 ≤ r ∧ r < 10 ∧ 0 ≤ c ∧ c < 10 := by
    unfold isValidSquare at h
    simp only [Bool.and_eq_true, decide_eq_true_eq] at h
    exact ⟨h.1.1.1, h.1.1.2, h.1.2, h.2⟩
  have hlen : r.toNat < b.length := by
    rw [hWF.1]; simp only [BOARD_SIZE]; omega
  rw [getD_set_self _ _ _ _ hlen]
  have hrow : (b.getD r.toNat []).length = BOARD_SIZE := by
    apply hWF.2
    have := List.getD_eq_getElem?_getD b r.toNat []
    rw [this, List.getElem?_eq_getElem hlen]
    exact List.getElem_mem hlen
  have hclen : c.toNat < (b.getD r.toNat []).length := by
    rw [hrow]; simp only [BOARD_SIZE]; omega
  exact getD_set_self _ _ _ _ hclen

/-- `setP` preserves well-formedness. -/
theorem boardWF_setP (b : Board) (r c : ℤ) (v : ℕ) (hWF : boardWF b) :
    boardWF (setP b r c v) := by
  unfold setP
  by_cases h : isValidSquare r c
  · have hb : 0 ≤ r ∧ r < 10 := by
      unfold isValidSquare at h
      simp only [Bool.and_eq_true, decide_eq_true_eq] at h
      exact ⟨h.1.1.1, h.1.1.2⟩
    have hlen : r.toNat < b.length := by
      rw [hWF.1]; simp only [BOARD_SIZE]; omega
    simp only [h, if_true]
    constructor
    · rw [List.length_set]; exact hWF.1
    · intro row hrow
      rcases List.mem_or_eq_of_mem_set hrow with hmem | heq
      · exact hWF.2 row hmem
      · subst heq
        rw [List.length_set]
        apply hWF.2
        have := List.getD_eq_getElem?_getD b r.toNat []
        rw [this, List.getElem?_eq_getElem hlen]
        exact List.getElem_mem hlen
  · simp only [h, Bool.false_eq_true, if_false]; exact hWF

/-- Pulling the accumulator out of an appending fold. -/
theorem foldl_append_init {α β : Type} (f : β → List α) (l : List β)
    (init : List α) :
    l.foldl (fun acc x => acc ++ f x) init =
      init ++ l.foldl (fun acc x => acc ++ f x) [] := by
  induction l generalizing init with
  | nil => simp
  | cons x xs ih =>
    simp only [List.foldl_cons]
    rw [ih (init ++ f x), ih (List.nil ++ f x)]
    simp

/-- Membership in an appending fold. -/
theorem mem_foldl_append {α β : Type} (f : β → List α) (l : List β)
    (init : List α) (a : α) :
    a ∈ l.foldl (fun acc x => acc ++ f x) init ↔
      a ∈ init ∨ ∃ x ∈ l, a ∈ f x := by
  induction l generalizing init with
  | nil => simp
  | cons x xs ih =>
    simp only [List.foldl_cons]
    rw [ih]
    simp [List.mem_append, or_assoc]

/-- A guarded appending fold is an appending fold of a guarded body. -/
theorem foldl_ite_append {α β : Type} (g : β → Bool) (f : β → List α)
    (l : List β) (init : List α) :
    l.foldl (fun acc x => if g x then acc ++ f x else acc) init =
      l.foldl (fun acc x => acc ++ (if g x then f x else [])) init := by
  induction l generalizing init with
  | nil => rfl
  | cons x xs ih =>
    simp only [List.foldl_cons]
    by_cases h : g x
    · simp only [h, if_true]
      exact ih _
    · have h' : g x = false := by simpa using h
      simp only [h', Bool.false_eq_true, if_false, List.append_nil]
      exact ih _

end Draughts

namespace Draughts

/-- Invariant preservation through a `(foundJump, outputs)` fold. -/
theorem foldl_acc_inv {γ X : Type} (step : (Bool × List X) → γ → (Bool × List X))
    (P : X → Prop) (l : List γ)
    (h : ∀ acc x, x ∈ l → (∀ s ∈ acc.2, P s) → ∀ s ∈ (step acc x).2, P s) :
    ∀ acc, (∀ s ∈ acc.2, P s) → ∀ s ∈ (l.foldl step acc).2, P s := by
  induction l with
  | nil => intro acc hacc; exact hacc
  | cons x xs ih =>
    intro acc hacc
    exact ih (fun acc' x' hx' => h acc' x' (List.mem_cons_of_mem _ hx')) _
      (h acc x (List.mem_cons_self _ _) hacc)

/-- Invariant for appending folds. -/
theorem foldl_append_inv {γ X : Type} (f : γ → List X) (l : List γ)
    (P : X → Prop) (init : List X) (hinit : ∀ s ∈ init, P s)
    (h : ∀ x ∈ l, ∀ s ∈ f x, P s) :
    ∀ s ∈ l.foldl (fun acc x => acc ++ f x) init, P s := by
  intro s hs
  rw [mem_foldl_append] at hs
  rcases hs with hs | ⟨x, hx, hs⟩
  · exact hinit s hs
  · exact h x hx s hs

/-- `headD` of a nonempty left part. -/
theorem headD_append_singleton {α : Type} (l : List α) (x d d' : α) :
    (l ++ [x]).headD d = l.headD x := by
  cases l <;> rfl

/-- `scanForEnemy` only answers squares that hold an enemy piece. -/
theorem scanForEnemy_opp (fuel : ℕ) (pieces : Board) (row col : ℤ) (dir : Dir)
    (pl : ℕ) (e : Coord) (h : scanForEnemy fuel pieces row col dir pl = some e) :
    isOpponentPiece (getP pieces e.row e.col) pl = true := by
  induction fuel generalizing row col with
  | zero => rw [scanForEnemy] at h; cases h
  | succ fuel ih =>
    rw [scanForEnemy] at h
    by_cases hval : isValidSquare row col
    · simp only [hval, if_true] at h
      by_cases hocc : getP pieces row col ≠ PIECE.NONE
      · rw [if_pos hocc] at h
        by_cases hopp : isOpponentPiece (getP pieces row col) pl
        · simp only [hopp, if_true] at h
          cases h
          exact hopp
        · simp only [hopp, Bool.false_eq_true, if_false] at h
          cases h
      · rw [if_neg hocc] at h
        exact ih _ _ h
    · simp only [hval, Bool.false_eq_true, if_false] at h
      cases h

/-- `landingSquares` only lists empty squares. -/
theorem landingSquares_empty (fuel : ℕ) (pieces : Board) (row col : ℤ)
    (dir : Dir) :
    ∀ l ∈ landingSquares fuel pieces row col dir,
      getP pieces l.row l.col = PIECE.NONE := by
  induction fuel generalizing row col with
  | zero => simp [landingSquares]
  | succ fuel ih =>
    intro l hl
    rw [landingSquares] at hl
    by_cases hc : isValidSquare row col && getP pieces row col == PIECE.NONE
    · simp only [hc, if_true] at hl
      rcases List.mem_cons.mp hl with heq | hmem
      · subst heq
        simpa using (Bool.and_elim_right hc)
      · exact ih _ _ l hmem
    · simp only [hc, Bool.false_eq_true, if_false] at hl
      cases hl

end Draughts

namespace Draughts

/-- Structural facts about every enumerated capture sequence: its `from`
square is the origin of the chain, its capture list extends the
accumulated one and is nonempty. -/
theorem find_structure (pl : ℕ) :
    ∀ (fuel : ℕ) (pieces : Board) (cur : Coord) (path capt vis : List Coord),
    ∀ s ∈ findCaptureSequences fuel pieces cur path capt vis pl,
      s.fromSq = path.headD cur ∧ (∃ ext, s.captures = capt ++ ext) ∧
        s.captures ≠ [] := by
  intro fuel
  induction fuel with
  | zero =>
    intro pieces cur path capt vis s hs
    rw [findCaptureSequences] at hs
    cases hs
  | succ fuel ih =>
    intro pieces cur path capt vis s hs
    rw [findCaptureSequences] at hs
    by_cases hvis : vis.contains cur
    · simp only [hvis, if_true] at hs
      cases hs
    · simp only [hvis, Bool.false_eq_true, if_false] at hs
      rcases List.mem_append.mp hs with hfold | hrec
      · refine foldl_acc_inv _ (fun x => x.fromSq = path.headD cur ∧
            (∃ ext, x.captures = capt ++ ext) ∧ x.captures ≠ []) _ ?_
          (false, []) (by intro x hx; cases hx) s hfold
        intro acc dir _ hacc s' hs'
        by_cases hk : getP pieces cur.row cur.col == PIECE.WHITE_KING ||
            getP pieces cur.row cur.col == PIECE.BLACK_KING
        · simp only [hk, if_true] at hs'
          rcases hscan : scanForEnemy 16 pieces (cur.row + dir.dy)
              (cur.col + dir.dx) dir pl with _ | enemy
          · rw [hscan] at hs'
            exact hacc s' hs'
          · rw [hscan] at hs'
            by_cases hcapt : capt.contains enemy
            · simp only [hcapt, if_true] at hs'
              exact hacc s' hs'
            · simp only [hcapt, Bool.false_eq_true, if_false] at hs'
              refine foldl_append_inv _ _ (fun x => x.fromSq = path.headD cur ∧
                  (∃ ext, x.captures = capt ++ ext) ∧ x.captures ≠ []) _ hacc
                ?_ s' hs'
              intro land _ s'' hs''
              obtain ⟨h1, ⟨ext, h2⟩, h3⟩ := ih _ _ _ _ _ s'' hs''
              refine ⟨?_, ⟨enemy :: ext, ?_⟩, h3⟩
              · rw [h1]
                exact headD_append_singleton _ _ _ cur
              · rw [h2]
                simp
        · simp only [hk, Bool.false_eq_true, if_false] at hs'
          by_cases hok : isValidSquare (cur.row + 2 * dir.dy) (cur.col + 2 * dir.dx) &&
              getP pieces (cur.row + 2 * dir.dy) (cur.col + 2 * dir.dx) == PIECE.NONE &&
              isOpponentPiece (getP pieces (cur.row + dir.dy) (cur.col + dir.dx)) pl
          · simp only [hok, if_true] at hs'
            by_cases hcapt : capt.contains (⟨cur.row + dir.dy, cur.col + dir.dx⟩ : Coord)
            · simp only [hcapt, if_true] at hs'
              exact hacc s' hs'
            · simp only [hcapt, Bool.false_eq_true, if_false] at hs'
              rcases List.mem_append.mp hs' with hold | hnew
              · exact hacc s' hold
              · obtain ⟨h1, ⟨ext, h2⟩, h3⟩ := ih _ _ _ _ _ s' hnew
                refine ⟨?_, ⟨⟨cur.row + dir.dy, cur.col + dir.dx⟩ :: ext, ?_⟩, h3⟩
                · rw [h1]
                  exact headD_append_singleton _ _ _ cur
                · rw [h2]
                  simp
          · simp only [hok, Bool.false_eq_true, if_false] at hs'
            exact hacc s' hs'
      · rw [List.mem_ite_nil_right] at hrec
        obtain ⟨hguard, hmem⟩ := hrec
        rcases List.mem_singleton.mp hmem with rfl
        refine ⟨rfl, ⟨[], by simp⟩, ?_⟩
        have := Bool.and_elim_right hguard
        simpa using this

end Draughts

namespace Draughts

/-- An empty square is nobody's opponent piece. -/
theorem isOpp_none (pl : ℕ) : isOpponentPiece PIECE.NONE pl = false := by
  unfold isOpponentPiece
  split <;> rfl

/-- One's own piece is never an opponent piece. -/
theorem isOwn_not_opp (p pl : ℕ) (h : isPieceOfCurrentPlayer p pl = true) :
    isOpponentPiece p pl = false := by
  unfold isPieceOfCurrentPlayer at h
  unfold isOpponentPiece
  by_cases hw : (pl == PLAYER.WHITE) = true
  · rw [if_pos hw] at h
    rw [if_pos hw]
    simp only [PIECE.WHITE, PIECE.WHITE_KING, PIECE.BLACK, PIECE.BLACK_KING,
      Bool.or_eq_true, beq_iff_eq] at h ⊢
    simp only [Bool.or_eq_false_iff, beq_eq_false_iff_ne]
    omega
  · rw [if_neg hw] at h
    rw [if_neg hw]
    simp only [PIECE.WHITE, PIECE.WHITE_KING, PIECE.BLACK, PIECE.BLACK_KING,
      Bool.or_eq_true, beq_iff_eq] at h ⊢
    simp only [Bool.or_eq_false_iff, beq_eq_false_iff_ne]
    omega

/-- The piece `makeMove` leaves on the landing square (moved, or freshly
promoted) still belongs to the mover. -/
theorem final_not_opp (p pl : ℕ) (r : ℤ) (h : isPieceOfCurrentPlayer p pl = true) :
    isOpponentPiece
      (if shouldPromote p r then
        (if p == PIECE.WHITE then PIECE.WHITE_KING else PIECE.BLACK_KING)
      else p) pl = false := by
  by_cases hpr : shouldPromote p r = true
  · rw [if_pos hpr]
    have hp' : p = PIECE.WHITE ∨ p = PIECE.BLACK := by
      unfold shouldPromote at hpr
      simp only [Bool.or_eq_true, Bool.and_eq_true, beq_iff_eq] at hpr
      exact hpr.imp And.left And.left
    unfold isPieceOfCurrentPlayer at h
    unfold isOpponentPiece
    by_cases hw : (pl == PLAYER.WHITE) = true
    · rw [if_pos hw] at h
      rw [if_pos hw]
      simp only [PIECE.WHITE, PIECE.WHITE_KING, PIECE.BLACK, PIECE.BLACK_KING,
        Bool.or_eq_true, beq_iff_eq] at h hp'
      have hp1 : p = 1 := by omega
      subst hp1
      rfl
    · rw [if_neg hw] at h
      rw [if_neg hw]
      simp only [PIECE.WHITE, PIECE.WHITE_KING, PIECE.BLACK, PIECE.BLACK_KING,
        Bool.or_eq_true, beq_iff_eq] at h hp'
      have hp2 : p = 2 := by omega
      subst hp2
      rfl
  · rw [if_neg hpr]
    exact isOwn_not_opp p pl h

/-- `landingSquares` only lists on-board squares. -/
theorem landingSquares_valid (fuel : ℕ) (pieces : Board) (row col : ℤ)
    (dir : Dir) :
    ∀ l ∈ landingSquares fuel pieces row col dir,
      isValidSquare l.row l.col = true := by
  induction fuel generalizing row col with
  | zero => simp [landingSquares]
  | succ fuel ih =>
    intro l hl
    rw [landingSquares] at hl
    by_cases hc : isValidSquare row col && getP pieces row col == PIECE.NONE
    · simp only [hc, if_true] at hl
      rcases List.mem_cons.mp hl with heq | hmem
      · subst heq
        exact Bool.and_elim_left hc
      · exact ih _ _ l hmem
    · simp only [hc, Bool.false_eq_true, if_false] at hl
      cases hl

/-- Membership in a fold whose step only appends (in an acc-independent
way) to the accumulator. -/
theorem mem_foldl_lift {α β : Type} (F : List α → β → List α)
    (h : ∀ acc x a, a ∈ F acc x ↔ a ∈ acc ∨ a ∈ F [] x) (l : List β) :
    ∀ (init : List α) (a : α),
      a ∈ l.foldl F init ↔ a ∈ init ∨ ∃ x ∈ l, a ∈ F [] x := by
  induction l with
  | nil => intro init a; simp
  | cons x xs ih =>
    intro init a
    simp only [List.foldl_cons]
    rw [ih (F init x) a, h init x a]
    simp only [List.mem_cons, exists_eq_or_imp]
    tauto

/-- Membership in a guarded appending fold. -/
theorem mem_foldl_guard {α β : Type} (g : β → Bool) (f : β → List α)
    (l : List β) (init : List α) (a : α) :
    a ∈ l.foldl (fun acc x => if g x then acc ++ f x else acc) init ↔
      a ∈ init ∨ ∃ x ∈ l, g x = true ∧ a ∈ f x := by
  rw [foldl_ite_append, mem_foldl_append]
  constructor
  · rintro (ha | ⟨x, hx, ha⟩)
    · exact Or.inl ha
    · rcases List.mem_ite_nil_right.mp ha with ⟨hg, ha⟩
      exact Or.inr ⟨x, hx, hg, ha⟩
  · rintro (ha | ⟨x, hx, hg, ha⟩)
    · exact Or.inl ha
    · exact Or.inr ⟨x, hx, List.mem_ite_nil_right.mpr ⟨hg, ha⟩⟩

end Draughts

namespace Draughts

/-- A capture sequence is in `allCaptures` exactly when it is enumerated
from some own-piece start square. -/
theorem mem_allCaptures (position : Position) (m : Move) :
    m ∈ allCaptures position ↔
      ∃ r ∈ List.range BOARD_SIZE, ∃ c ∈ List.range BOARD_SIZE,
        isPieceOfCurrentPlayer (getP position.pieces r c)
          position.currentPlayer = true ∧
        m ∈ findCaptureSequences 21 position.pieces ⟨(r : ℤ), (c : ℤ)⟩ [] [] []
          position.currentPlayer := by
  unfold allCaptures
  have hF : ∀ (acc : List Move) (r : ℕ) (a : Move),
      a ∈ (List.range BOARD_SIZE).foldl (fun acc (c : ℕ) =>
        if isPieceOfCurrentPlayer (getP position.pieces (r : ℤ) (c : ℤ))
            position.currentPlayer then
          acc ++ findCaptureSequences 21 position.pieces ⟨(r : ℤ), (c : ℤ)⟩
            [] [] [] position.currentPlayer
        else acc) acc ↔
      a ∈ acc ∨ a ∈ (List.range BOARD_SIZE).foldl (fun acc (c : ℕ) =>
        if isPieceOfCurrentPlayer (getP position.pieces (r : ℤ) (c : ℤ))
            position.currentPlayer then
          acc ++ findCaptureSequences 21 position.pieces ⟨(r : ℤ), (c : ℤ)⟩
            [] [] [] position.currentPlayer
        else acc) [] := by
    intro acc r a
    rw [mem_foldl_guard, mem_foldl_guard]
    simp
  rw [mem_foldl_lift _ hF (List.range BOARD_SIZE) [] m]
  simp only [List.not_mem_nil, false_or]
  constructor
  · rintro ⟨r, hr, hm⟩
    rw [mem_foldl_guard] at hm
    rcases hm with hm | ⟨c, hc, hg, hm⟩
    · cases hm
    · exact ⟨r, hr, c, hc, hg, hm⟩
  · rintro ⟨r, hr, c, hc, hg, hm⟩
    refine ⟨r, hr, ?_⟩
    rw [mem_foldl_guard]
    exact Or.inr ⟨c, hc, hg, hm⟩

/-- Ghost counterpart of `mem_allCaptures`. -/
theorem mem_allCapturesChains (position : Position) (g : GMove) :
    g ∈ allCapturesChains position ↔
      ∃ r ∈ List.range BOARD_SIZE, ∃ c ∈ List.range BOARD_SIZE,
        isPieceOfCurrentPlayer (getP position.pieces r c)
          position.currentPlayer = true ∧
        g ∈ findCaptureSequencesChains 21 position.pieces ⟨(r : ℤ), (c : ℤ)⟩
          [] [] [] position.currentPlayer := by
  unfold allCapturesChains
  have hF : ∀ (acc : List GMove) (r : ℕ) (a : GMove),
      a ∈ (List.range BOARD_SIZE).foldl (fun acc (c : ℕ) =>
        if isPieceOfCurrentPlayer (getP position.pieces (r : ℤ) (c : ℤ))
            position.currentPlayer then
          acc ++ findCaptureSequencesChains 21 position.pieces
            ⟨(r : ℤ), (c : ℤ)⟩ [] [] [] position.currentPlayer
        else acc) acc ↔
      a ∈ acc ∨ a ∈ (List.range BOARD_SIZE).foldl (fun acc (c : ℕ) =>
        if isPieceOfCurrentPlayer (getP position.pieces (r : ℤ) (c : ℤ))
            position.currentPlayer then
          acc ++ findCaptureSequencesChains 21 position.pieces
            ⟨(r : ℤ), (c : ℤ)⟩ [] [] [] position.currentPlayer
        else acc) [] := by
    intro acc r a
    rw [mem_foldl_guard, mem_foldl_guard]
    simp
  rw [mem_foldl_lift _ hF (List.range BOARD_SIZE) [] g]
  simp only [List.not_mem_nil, false_or]
  constructor
  · rintro ⟨r, hr, hm⟩
    rw [mem_foldl_guard] at hm
    rcases hm with hm | ⟨c, hc, hg, hm⟩
    · cases hm
    · exact ⟨r, hr, c, hc, hg, hm⟩
  · rintro ⟨r, hr, c, hc, hg, hm⟩
    refine ⟨r, hr, ?_⟩
    rw [mem_foldl_guard]
    exact Or.inr ⟨c, hc, hg, hm⟩

/-- `stableInsert` permutes the inserted element in. -/
theorem stableInsert_perm {α : Type} (le : α → α → Bool) (x : α) :
    ∀ l : List α, (stableInsert le x l).Perm (x :: l) := by
  intro l
  induction l with
  | nil => exact List.Perm.refl _
  | cons y ys ih =>
    rw [stableInsert]
    by_cases h : le x y = true
    · rw [if_pos h]
    · rw [if_neg h]
      exact (ih.cons y).trans (List.Perm.swap x y ys)

/-- Membership through `stableInsert`. -/
theorem mem_stableInsert {α : Type} (le : α → α → Bool) (x a : α)
    (l : List α) : a ∈ stableInsert le x l ↔ a = x ∨ a ∈ l := by
  rw [(stableInsert_perm le x l).mem_iff]
  exact List.mem_cons

/-- `stableInsert` preserves sortedness. -/
theorem stableInsert_pairwise {α : Type} (le : α → α → Bool)
    (htrans : ∀ a b c, le a b = true → le b c = true → le a c = true)
    (htotal : ∀ a b, (le a b || le b a) = true) (x : α) :
    ∀ l : List α, l.Pairwise (fun a b => le a b = true) →
      (stableInsert le x l).Pairwise (fun a b => le a b = true) := by
  intro l
  induction l with
  | nil =>
    intro _
    simp [stableInsert]
  | cons y ys ih =>
    intro hp
    rw [stableInsert]
    obtain ⟨hy, hys⟩ := List.pairwise_cons.mp hp
    by_cases h : le x y = true
    · rw [if_pos h]
      apply List.pairwise_cons.mpr
      refine ⟨?_, hp⟩
      intro b hb
      rcases List.mem_cons.mp hb with rfl | hbys
      · exact h
      · exact htrans x y b h (hy b hbys)
    · rw [if_neg h]
      apply List.pairwise_cons.mpr
      have hyx : le y x = true := by
        rcases Bool.or_eq_true_iff.mp (htotal x y) with h1 | h1
        · exact absurd h1 h
        · exact h1
      refine ⟨?_, ih hys⟩
      intro b hb
      rcases (mem_stableInsert le x b ys).mp hb with rfl | hbys
      · exact hyx
      · exact hy b hbys

/-- The stable sort is a permutation. -/
theorem stableSort_perm {α : Type} (le : α → α → Bool) :
    ∀ l : List α, (stableSort le l).Perm l := by
  intro l
  induction l with
  | nil => exact List.Perm.refl _
  | cons x xs ih =>
    rw [stableSort]
    exact (stableInsert_perm le x (stableSort le xs)).trans (ih.cons x)

/-- The stable sort sorts (for a transitive total comparator). -/
theorem stableSort_pairwise {α : Type} (le : α → α → Bool)
    (htrans : ∀ a b c, le a b = true → le b c = true → le a c = true)
    (htotal : ∀ a b, (le a b || le b a) = true) :
    ∀ l : List α, (stableSort le l).Pairwise (fun a b => le a b = true) := by
  intro l
  induction l with
  | nil => simp [stableSort]
  | cons x xs ih =>
    rw [stableSort]
    exact stableInsert_pairwise le htrans htotal x _ ih

/-- The maximal-length filter of `getAvailableCaptures` only keeps
enumerated sequences. -/
theorem mem_gAC_sub (position : Position) (m : Move)
    (h : m ∈ getAvailableCaptures position) : m ∈ allCaptures position := by
  unfold getAvailableCaptures at h
  by_cases hlen : 0 < (allCaptures position).length
  · rw [if_pos hlen] at h
    have hmem := (List.mem_filter.mp h).1
    exact (stableSort_perm longerCaptures (allCaptures position)).mem_iff.mp
      hmem
  · rw [if_neg hlen] at h
    cases h

/-- Every member bounds the running maximum. -/
theorem le_foldr_max (l : List ℕ) (x : ℕ) (hx : x ∈ l) :
    x ≤ l.foldr max 0 := by
  induction l with
  | nil => cases hx
  | cons y ys ih =>
    rcases List.mem_cons.mp hx with rfl | h
    · exact le_max_left _ _
    · exact le_trans (ih h) (le_max_right _ _)

/-- The running maximum is below any common bound. -/
theorem foldr_max_le (l : List ℕ) (k : ℕ) (h : ∀ x ∈ l, x ≤ k) :
    l.foldr max 0 ≤ k := by
  induction l with
  | nil => exact Nat.zero_le k
  | cons y ys ih =>
    simp only [List.foldr_cons]
    exact max_le (h y (List.mem_cons_self _ _))
      (ih fun x hx => h x (List.mem_cons_of_mem _ hx))

/-- An adding fold is the sum of the mapped list. -/
theorem foldl_add_sum {β : Type} (f : β → ℤ) (l : List β) :
    ∀ init : ℤ, l.foldl (fun g c => g + f c) init = init + (l.map f).sum := by
  induction l with
  | nil => intro init; simp
  | cons x xs ih =>
    intro init
    simp only [List.foldl_cons, List.map_cons, List.sum_cons]
    rw [ih]
    ring

end Draughts

namespace Draughts

/-- A square that never holds an opponent piece is never captured: the
board evolves during a capture chain only by emptying squares and by
moving the capturing piece, none of which can create an opponent piece
on the watched square `t`. -/
theorem find_notOpp (pl : ℕ) (t : Coord) :
    ∀ (fuel : ℕ) (pieces : Board) (cur : Coord) (path capt vis : List Coord),
    boardWF pieces →
    isOpponentPiece (getP pieces t.row t.col) pl = false →
    isOpponentPiece (getP pieces cur.row cur.col) pl = false →
    ∀ s ∈ findCaptureSequences fuel pieces cur path capt vis pl,
    ∀ c ∈ s.captures, c ∈ capt ∨ c ≠ t := by
  intro fuel
  induction fuel with
  | zero =>
    intro pieces cur path capt vis _ _ _ s hs
    rw [findCaptureSequences] at hs
    cases hs
  | succ fuel ih =>
    intro pieces cur path capt vis hWF ht hcur s hs
    rw [findCaptureSequences] at hs
    by_cases hvis : vis.contains cur
    · simp only [hvis, if_true] at hs
      cases hs
    · simp only [hvis, Bool.false_eq_true, if_false] at hs
      rcases List.mem_append.mp hs with hfold | hrec
      · refine foldl_acc_inv _ (fun x => ∀ c ∈ x.captures, c ∈ capt ∨ c ≠ t) _
          ?_ (false, []) (by intro x hx; cases hx) s hfold
        intro acc dir _ hacc s' hs'
        by_cases hk : getP pieces cur.row cur.col == PIECE.WHITE_KING ||
            getP pieces cur.row cur.col == PIECE.BLACK_KING
        · simp only [hk, if_true] at hs'
          rcases hscan : scanForEnemy 16 pieces (cur.row + dir.dy)
              (cur.col + dir.dx) dir pl with _ | enemy
          · rw [hscan] at hs'
            exact hacc s' hs'
          · rw [hscan] at hs'
            by_cases hcapt : capt.contains enemy
            · simp only [hcapt, if_true] at hs'
              exact hacc s' hs'
            · simp only [hcapt, Bool.false_eq_true, if_false] at hs'
              have henemy : enemy ≠ t := by
                intro he
                have hopp := scanForEnemy_opp 16 pieces _ _ dir pl enemy hscan
                rw [he, ht] at hopp
                cases hopp
              refine foldl_append_inv _ _
                (fun x => ∀ c ∈ x.captures, c ∈ capt ∨ c ≠ t) _ hacc ?_ s' hs'
              intro land hland s'' hs''
              have hWF2 : boardWF (setP (setP pieces cur.row cur.col PIECE.NONE)
                  enemy.row enemy.col PIECE.NONE) :=
                boardWF_setP _ _ _ _ (boardWF_setP _ _ _ _ hWF)
              have hlv : isValidSquare land.row land.col = true :=
                landingSquares_valid 16 pieces _ _ dir land hland
              have ht' : isOpponentPiece (getP (setP (setP (setP pieces cur.row
                  cur.col PIECE.NONE) enemy.row enemy.col PIECE.NONE) land.row
                  land.col (getP pieces cur.row cur.col)) t.row t.col) pl =
                  false := by
                rcases getP_setP_or (setP (setP pieces cur.row cur.col PIECE.NONE)
                    enemy.row enemy.col PIECE.NONE) land.row land.col
                    (getP pieces cur.row cur.col) t.row t.col with h1 | h1
                · rw [h1]; exact hcur
                · rw [h1]
                  rcases getP_setP_or (setP pieces cur.row cur.col PIECE.NONE)
                      enemy.row enemy.col PIECE.NONE t.row t.col with h2 | h2
                  · rw [h2]; exact isOpp_none pl
                  · rw [h2]
                    rcases getP_setP_or pieces cur.row cur.col PIECE.NONE
                        t.row t.col with h3 | h3
                    · rw [h3]; exact isOpp_none pl
                    · rw [h3]; exact ht
              have hcur' : isOpponentPiece (getP (setP (setP (setP pieces cur.row
                  cur.col PIECE.NONE) enemy.row enemy.col PIECE.NONE) land.row
                  land.col (getP pieces cur.row cur.col)) land.row land.col)
                  pl = false := by
                rw [getP_setP_self _ _ _ _ hWF2 hlv]
                exact hcur
              intro c hc
              rcases ih _ land (path ++ [cur]) (capt ++ [enemy]) (cur :: vis)
                  (boardWF_setP _ _ _ _ hWF2) ht' hcur' s'' hs'' c hc with
                hin | hne
              · rcases List.mem_append.mp hin with h | h
                · exact Or.inl h
                · rcases List.mem_singleton.mp h with rfl
                  exact Or.inr henemy
              · exact Or.inr hne
        · simp only [hk, Bool.false_eq_true, if_false] at hs'
          by_cases hok : isValidSquare (cur.row + 2 * dir.dy)
              (cur.col + 2 * dir.dx) &&
              getP pieces (cur.row + 2 * dir.dy) (cur.col + 2 * dir.dx) ==
                PIECE.NONE &&
              isOpponentPiece (getP pieces (cur.row + dir.dy)
                (cur.col + dir.dx)) pl
          · simp only [hok, if_true] at hs'
            by_cases hcapt : capt.contains
                (⟨cur.row + dir.dy, cur.col + dir.dx⟩ : Coord)
            · simp only [hcapt, if_true] at hs'
              exact hacc s' hs'
            · simp only [hcapt, Bool.false_eq_true, if_false] at hs'
              rcases List.mem_append.mp hs' with hold | hnew
              · exact hacc s' hold
              · have hjne : (⟨cur.row + dir.dy, cur.col + dir.dx⟩ : Coord) ≠
                    t := by
                  intro he
                  have hoppj := Bool.and_elim_right hok
                  have h1 : cur.row + dir.dy = t.row := congrArg Coord.row he
                  have h2 : cur.col + dir.dx = t.col := congrArg Coord.col he
                  rw [h1, h2, ht] at hoppj
                  cases hoppj
                have hWF2 : boardWF (setP (setP pieces cur.row cur.col
                    PIECE.NONE) (cur.row + dir.dy) (cur.col + dir.dx)
                    PIECE.NONE) :=
                  boardWF_setP _ _ _ _ (boardWF_setP _ _ _ _ hWF)
                have hlv : isValidSquare (cur.row + 2 * dir.dy)
                    (cur.col + 2 * dir.dx) = true :=
                  Bool.and_elim_left (Bool.and_elim_left hok)
                have ht' : isOpponentPiece (getP (setP (setP (setP pieces
                    cur.row cur.col PIECE.NONE) (cur.row + dir.dy)
                    (cur.col + dir.dx) PIECE.NONE) (cur.row + 2 * dir.dy)
                    (cur.col + 2 * dir.dx) (getP pieces cur.row cur.col))
                    t.row t.col) pl = false := by
                  rcases getP_setP_or (setP (setP pieces cur.row cur.col
                      PIECE.NONE) (cur.row + dir.dy) (cur.col + dir.dx)
                      PIECE.NONE) (cur.row + 2 * dir.dy) (cur.col + 2 * dir.dx)
                      (getP pieces cur.row cur.col) t.row t.col with h1 | h1
                  · rw [h1]; exact hcur
                  · rw [h1]
                    rcases getP_setP_or (setP pieces cur.row cur.col PIECE.NONE)
                        (cur.row + dir.dy) (cur.col + dir.dx) PIECE.NONE
                        t.row t.col with h2 | h2
                    · rw [h2]; exact isOpp_none pl
                    · rw [h2]
                      rcases getP_setP_or pieces cur.row cur.col PIECE.NONE
                          t.row t.col with h3 | h3
                      · rw [h3]; exact isOpp_none pl
                      · rw [h3]; exact ht
                have hcur' : isOpponentPiece (getP (setP (setP (setP pieces
                    cur.row cur.col PIECE.NONE) (cur.row + dir.dy)
                    (cur.col + dir.dx) PIECE.NONE) (cur.row + 2 * dir.dy)
                    (cur.col + 2 * dir.dx) (getP pieces cur.row cur.col))
                    (cur.row + 2 * dir.dy) (cur.col + 2 * dir.dx)) pl =
                    false := by
                  rw [getP_setP_self _ _ _ _ hWF2 hlv]
                  exact hcur
                intro c hc
                rcases ih _ ⟨cur.row + 2 * dir.dy, cur.col + 2 * dir.dx⟩
                    (path ++ [cur])
                    (capt ++ [⟨cur.row + dir.dy, cur.col + dir.dx⟩])
                    (cur :: vis) (boardWF_setP _ _ _ _ hWF2) ht' hcur' s' hnew
                    c hc with hin | hne
                · rcases List.mem_append.mp hin with h | h
                  · exact Or.inl h
                  · rcases List.mem_singleton.mp h with rfl
                    exact Or.inr hjne
                · exact Or.inr hne
          · simp only [hok, Bool.false_eq_true, if_false] at hs'
            exact hacc s' hs'
      · rw [List.mem_ite_nil_right] at hrec
        obtain ⟨hguard, hmem⟩ := hrec
        rcases List.mem_singleton.mp hmem with rfl
        intro c hc
        exact Or.inl hc

end Draughts

namespace Draughts

/-- Well-formedness through the capture-removal fold of `makeMove`. -/
theorem boardWF_foldl_setP (caps : List Coord) :
    ∀ b : Board, boardWF b →
      boardWF (caps.foldl (fun b cap => setP b cap.row cap.col PIECE.NONE) b) := by
  induction caps with
  | nil => intro b h; exact h
  | cons x xs ih =>
    intro b h
    simp only [List.foldl_cons]
    exact ih _ (boardWF_setP _ _ _ _ h)

/-- The capture-removal fold leaves untouched squares unchanged. -/
theorem getP_foldl_setP_ne (x : Coord) :
    ∀ caps : List Coord, (∀ c ∈ caps, ¬(c.row = x.row ∧ c.col = x.col)) →
    ∀ b : Board,
      getP (caps.foldl (fun b cap => setP b cap.row cap.col PIECE.NONE) b)
        x.row x.col = getP b x.row x.col := by
  intro caps
  induction caps with
  | nil => intro _ b; rfl
  | cons y ys ih =>
    intro hx b
    simp only [List.foldl_cons]
    rw [ih (fun c hc => hx c (List.mem_cons_of_mem _ hc)) _]
    exact getP_setP_ne _ _ _ _ _ _ (hx y (List.mem_cons_self _ _))

/-- After the capture-removal fold a square is empty or as before. -/
theorem getP_foldl_setP_or (x : Coord) :
    ∀ (caps : List Coord) (b : Board),
      getP (caps.foldl (fun b cap => setP b cap.row cap.col PIECE.NONE) b)
          x.row x.col = PIECE.NONE ∨
      getP (caps.foldl (fun b cap => setP b cap.row cap.col PIECE.NONE) b)
          x.row x.col = getP b x.row x.col := by
  intro caps
  induction caps with
  | nil => intro b; exact Or.inr rfl
  | cons y ys ih =>
    intro b
    simp only [List.foldl_cons]
    rcases ih (setP b y.row y.col PIECE.NONE) with h | h
    · exact Or.inl h
    · rw [h]
      rcases getP_setP_or b y.row y.col PIECE.NONE x.row x.col with h2 | h2
      · exact Or.inl h2
      · exact Or.inr h2

/-- Every listed square is empty after the capture-removal fold. -/
theorem getP_foldl_setP_mem (x : Coord) :
    ∀ (caps : List Coord) (b : Board), boardWF b → x ∈ caps →
      getP (caps.foldl (fun b cap => setP b cap.row cap.col PIECE.NONE) b)
        x.row x.col = PIECE.NONE := by
  intro caps
  induction caps with
  | nil => intro b _ hx; cases hx
  | cons y ys ih =>
    intro b hWF hx
    simp only [List.foldl_cons]
    rcases List.mem_cons.mp hx with rfl | hmem
    · rcases getP_foldl_setP_or x ys (setP b x.row x.col PIECE.NONE) with h | h
      · exact h
      · rw [h]
        by_cases hv : isValidSquare x.row x.col = true
        · exact getP_setP_self _ _ _ _ hWF hv
        · unfold getP
          rw [if_neg hv]
    · exact ih (setP b y.row y.col PIECE.NONE) (boardWF_setP _ _ _ _ hWF) hmem

/-- Well-formedness through `makeMove`. -/
theorem boardWF_makeMove (position : Position) (move : Move)
    (h : boardWF position.pieces) : boardWF (makeMove position move).pieces := by
  simp only [makeMove]
  by_cases hp : shouldPromote
      (getP position.pieces move.fromSq.row move.fromSq.col) move.toSq.row = true
  · rw [if_pos hp]
    exact boardWF_setP _ _ _ _ (boardWF_foldl_setP _ _
      (boardWF_setP _ _ _ _ (boardWF_setP _ _ _ _ h)))
  · rw [if_neg hp]
    exact boardWF_foldl_setP _ _
      (boardWF_setP _ _ _ _ (boardWF_setP _ _ _ _ h))

/-- The full effect of `makeMove` on the grid and the side to move, for a
move whose three kinds of squares (origin, destination, captures) do not
overlap. -/
theorem makeMove_effects (position : Position) (move : Move)
    (hWF : boardWF position.pieces)
    (hfv : isValidSquare move.fromSq.row move.fromSq.col = true)
    (htv : isValidSquare move.toSq.row move.toSq.col = true)
    (hft : ¬(move.fromSq.row = move.toSq.row ∧ move.fromSq.col = move.toSq.col))
    (hcf : ∀ c ∈ move.captures,
      ¬(c.row = move.fromSq.row ∧ c.col = move.fromSq.col))
    (hct : ∀ c ∈ move.captures,
      ¬(c.row = move.toSq.row ∧ c.col = move.toSq.col)) :
    getP (makeMove position move).pieces move.fromSq.row move.fromSq.col =
      PIECE.NONE ∧
    getP (makeMove position move).pieces move.toSq.row move.toSq.col =
      (if shouldPromote (getP position.pieces move.fromSq.row move.fromSq.col)
          move.toSq.row then
        (if getP position.pieces move.fromSq.row move.fromSq.col == PIECE.WHITE
          then PIECE.WHITE_KING else PIECE.BLACK_KING)
      else getP position.pieces move.fromSq.row move.fromSq.col) ∧
    (∀ c ∈ move.captures,
      getP (makeMove position move).pieces c.row c.col = PIECE.NONE) ∧
    (makeMove position move).currentPlayer =
      (if position.currentPlayer == PLAYER.WHITE then PLAYER.BLACK
        else PLAYER.WHITE) := by
  have hft' : ¬(move.toSq.row = move.fromSq.row ∧
      move.toSq.col = move.fromSq.col) :=
    fun h => hft ⟨h.1.symm, h.2.symm⟩
  have hWF1 : boardWF (setP position.pieces move.fromSq.row move.fromSq.col
      PIECE.NONE) := boardWF_setP _ _ _ _ hWF
  have hWF2 : boardWF (setP (setP position.pieces move.fromSq.row
      move.fromSq.col PIECE.NONE) move.toSq.row move.toSq.col
      (getP position.pieces move.fromSq.row move.fromSq.col)) :=
    boardWF_setP _ _ _ _ hWF1
  have hWF3 : boardWF (move.captures.foldl
      (fun b cap => setP b cap.row cap.col PIECE.NONE)
      (setP (setP position.pieces move.fromSq.row move.fromSq.col PIECE.NONE)
        move.toSq.row move.toSq.col
        (getP position.pieces move.fromSq.row move.fromSq.col))) :=
    boardWF_foldl_setP _ _ hWF2
  simp only [makeMove]
  refine ⟨?_, ?_, ?_, trivial⟩
  · by_cases hp : shouldPromote
        (getP position.pieces move.fromSq.row move.fromSq.col)
        move.toSq.row = true
    · rw [if_pos hp]
      rw [getP_setP_ne _ _ _ _ _ _ hft']
      rw [getP_foldl_setP_ne move.fromSq move.captures hcf _]
      rw [getP_setP_ne _ _ _ _ _ _ hft']
      exact getP_setP_self _ _ _ _ hWF hfv
    · rw [if_neg hp]
      rw [getP_foldl_setP_ne move.fromSq move.captures hcf _]
      rw [getP_setP_ne _ _ _ _ _ _ hft']
      exact getP_setP_self _ _ _ _ hWF hfv
  · by_cases hp : shouldPromote
        (getP position.pieces move.fromSq.row move.fromSq.col)
        move.toSq.row = true
    · rw [if_pos hp, if_pos hp]
      exact getP_setP_self _ _ _ _ hWF3 htv
    · rw [if_neg hp, if_neg hp]
      have hct' : ∀ c ∈ move.captures,
          ¬(c.row = move.toSq.row ∧ c.col = move.toSq.col) := hct
      rw [getP_foldl_setP_ne move.toSq move.captures hct' _]
      exact getP_setP_self _ _ _ _ hWF1 htv
  · intro c hc
    by_cases hp : shouldPromote
        (getP position.pieces move.fromSq.row move.fromSq.col)
        move.toSq.row = true
    · rw [if_pos hp]
      have htc : ¬(move.toSq.row = c.row ∧ move.toSq.col = c.col) :=
        fun h => hct c hc ⟨h.1.symm, h.2.symm⟩
      rw [getP_setP_ne _ _ _ _ _ _ htc]
      exact getP_foldl_setP_mem c move.captures _ hWF2 hc
    · rw [if_neg hp]
      exact getP_foldl_setP_mem c move.captures _ hWF2 hc

end Draughts

namespace Draughts

/-- `shouldPromote` in spec terms: a white man on row 0 or a black man on
the last row. -/
theorem shouldPromote_iff (p : ℕ) (r : ℤ) :
    shouldPromote p r = true ↔
      (p = PIECE.WHITE ∧ r = 0) ∨
      (p = PIECE.BLACK ∧ r = (BOARD_SIZE : ℤ) - 1) := by
  unfold shouldPromote
  simp [Bool.or_eq_true, Bool.and_eq_true, beq_iff_eq]

/-- C2: move application is deterministic (it is a pure function of the
position and the move) and correct: the origin square is emptied, the
moved piece appears on the destination — promoted to the matching king
exactly when a man lands on its farthest row (row 0 for White, row 9 for
Black) — every square listed in `captures` is emptied, and the side to
move is toggled.  The hypotheses state that the move's origin,
destination and captured squares are on-board and pairwise distinct. -/
theorem C2_makeMove_application (position : Position) (move : Move)
    (hWF : boardWF position.pieces)
    (hfv : isValidSquare move.fromSq.row move.fromSq.col = true)
    (htv : isValidSquare move.toSq.row move.toSq.col = true)
    (hft : ¬(move.fromSq.row = move.toSq.row ∧ move.fromSq.col = move.toSq.col))
    (hcf : ∀ c ∈ move.captures,
      ¬(c.row = move.fromSq.row ∧ c.col = move.fromSq.col))
    (hct : ∀ c ∈ move.captures,
      ¬(c.row = move.toSq.row ∧ c.col = move.toSq.col)) :
    getP (makeMove position move).pieces move.fromSq.row move.fromSq.col =
      PIECE.NONE ∧
    (getP position.pieces move.fromSq.row move.fromSq.col = PIECE.WHITE ∧
        move.toSq.row = 0 →
      getP (makeMove position move).pieces move.toSq.row move.toSq.col =
        PIECE.WHITE_KING) ∧
    (getP position.pieces move.fromSq.row move.fromSq.col = PIECE.BLACK ∧
        move.toSq.row = 9 →
      getP (makeMove position move).pieces move.toSq.row move.toSq.col =
        PIECE.BLACK_KING) ∧
    (¬((getP position.pieces move.fromSq.row move.fromSq.col = PIECE.WHITE ∧
          move.toSq.row = 0) ∨
        (getP position.pieces move.fromSq.row move.fromSq.col = PIECE.BLACK ∧
          move.toSq.row = 9)) →
      getP (makeMove position move).pieces move.toSq.row move.toSq.col =
        getP position.pieces move.fromSq.row move.fromSq.col) ∧
    (∀ c ∈ move.captures,
      getP (makeMove position move).pieces c.row c.col = PIECE.NONE) ∧
    (position.currentPlayer = PLAYER.WHITE →
      (makeMove position move).currentPlayer = PLAYER.BLACK) ∧
    (position.currentPlayer ≠ PLAYER.WHITE →
      (makeMove position move).currentPlayer = PLAYER.WHITE) := by
  obtain ⟨h1, h2, h3, h4⟩ :=
    makeMove_effects position move hWF hfv htv hft hcf hct
  have hb : (BOARD_SIZE : ℤ) - 1 = 9 := by decide
  refine ⟨h1, ?_, ?_, ?_, h3, ?_, ?_⟩
  · rintro ⟨hw, hr⟩
    have hsp : shouldPromote
        (getP position.pieces move.fromSq.row move.fromSq.col)
        move.toSq.row = true :=
      (shouldPromote_iff _ _).mpr (Or.inl ⟨hw, hr⟩)
    rw [h2, if_pos hsp, hw]
    rfl
  · rintro ⟨hw, hr⟩
    have hsp : shouldPromote
        (getP position.pieces move.fromSq.row move.fromSq.col)
        move.toSq.row = true :=
      (shouldPromote_iff _ _).mpr (Or.inr ⟨hw, by rw [hr, hb]⟩)
    rw [h2, if_pos hsp, hw]
    rfl
  · intro hn
    have hsp : ¬shouldPromote
        (getP position.pieces move.fromSq.row move.fromSq.col)
        move.toSq.row = true := by
      intro hs
      rcases (shouldPromote_iff _ _).mp hs with ⟨hw, hr⟩ | ⟨hw, hr⟩
      · exact hn (Or.inl ⟨hw, hr⟩)
      · exact hn (Or.inr ⟨hw, by rw [hr, hb]⟩)
    rw [h2, if_neg hsp]
  · intro hw
    rw [h4, hw]
    rfl
  · intro hne
    rw [h4, if_neg (by simpa using hne)]

/-- Witness for C2: the promoting capture of `promoCapturePos` leaves a
white king on the promotion square. -/
theorem C2_makeMove_application_witness :
    boardWF promoCapturePos.pieces ∧
    getP (makeMove promoCapturePos promoCaptureMove).pieces 0 1 =
      PIECE.WHITE_KING := by
  constructor
  · decide
  · exact (C2_makeMove_application promoCapturePos promoCaptureMove (by decide)
      (by decide) (by decide) (by decide) (by decide) (by decide)).2.1
      ⟨by decide, by decide⟩

/-- C9: the mobility component of the evaluation equals the move-count
difference times five, plus 30 more when the opponent has at most three
moves, plus 70 more at one or zero, plus 200 more at zero. -/
theorem C9_mobility (position : Position) :
    evaluateMobilityDifferential position =
      (((generateMoves position).length : ℤ) -
        ((generateMoves (mobilityOpponent position)).length : ℤ)) * 5 +
      (if (generateMoves (mobilityOpponent position)).length ≤ 3
        then 30 else 0) +
      (if (generateMoves (mobilityOpponent position)).length ≤ 1
        then 70 else 0) +
      (if (generateMoves (mobilityOpponent position)).length = 0
        then 200 else 0) := by
  simp only [evaluateMobilityDifferential, mobilityOpponent, beq_iff_eq]
  split_ifs <;> omega

/-- C6: refuted as stated (code bug) — `detectPinsAndSkewers` builds a
shallow copy whose grid aliases the caller's grid, blanks each friendly
piece during its scan and never restores it, so the analysed position is
mutated: after scanning `blockedPos` the caller's white man at (9,0) is
gone, contradicting the spec's frame condition that analysis operations
leave the position unchanged. -/
theorem C6_detectPins_mutates :
    getP (detectPinsAndSkewers blockedPos).2 9 0 = PIECE.NONE ∧
    getP blockedPos.pieces 9 0 = PIECE.WHITE ∧
    (detectPinsAndSkewers blockedPos).2 ≠ blockedPos.pieces := by
  decide

end Draughts

namespace Draughts

/-- C1: whenever at least one capture sequence exists, `generateMoves`
answers exactly the capture sequences of globally maximal length: it
equals `getAvailableCaptures`, every returned move is an enumerated
capture of maximal length (in particular a capturing move), and every
enumerated capture of maximal length is returned. -/
theorem C1_maximal_captures (position : Position)
    (h : allCaptures position ≠ []) :
    generateMoves position = getAvailableCaptures position ∧
    (∀ m ∈ generateMoves position, m ∈ allCaptures position ∧
      m.captures ≠ [] ∧ m.captures.length = maxCaptureLen position) ∧
    (∀ m ∈ allCaptures position,
      m.captures.length = maxCaptureLen position →
      m ∈ generateMoves position) := by
  have hlen : 0 < (allCaptures position).length := List.length_pos.mpr h
  set L := stableSort longerCaptures (allCaptures position) with hL
  have hperm : L.Perm (allCaptures position) := stableSort_perm _ _
  have hLne : L ≠ [] := by
    intro h0
    rw [h0] at hperm
    exact h (List.Perm.eq_nil hperm.symm)
  obtain ⟨hd, tl, hcons⟩ := List.exists_cons_of_ne_nil hLne
  have hsorted : L.Pairwise (fun a b => longerCaptures a b = true) :=
    stableSort_pairwise longerCaptures
      (by
        intro a b c hab hbc
        simp only [longerCaptures, decide_eq_true_eq] at hab hbc ⊢
        omega)
      (by
        intro a b
        simp only [longerCaptures, Bool.or_eq_true, decide_eq_true_eq]
        omega)
      (allCaptures position)
  have hhd_mem : hd ∈ allCaptures position :=
    hperm.mem_iff.mp (hcons ▸ List.mem_cons_self hd tl)
  have htl_le : ∀ x ∈ L, x.captures.length ≤ hd.captures.length := by
    intro x hx
    rw [hcons] at hx hsorted
    rcases List.mem_cons.mp hx with rfl | hmem
    · exact le_refl _
    · have := (List.pairwise_cons.mp hsorted).1 x hmem
      simpa only [longerCaptures, decide_eq_true_eq] using this
  have hmax : hd.captures.length = maxCaptureLen position := by
    unfold maxCaptureLen
    apply le_antisymm
    · exact le_foldr_max _ _ (List.mem_map_of_mem _ hhd_mem)
    · apply foldr_max_le
      intro x hx
      rcases List.mem_map.mp hx with ⟨m, hm, rfl⟩
      exact htl_le m (hperm.mem_iff.mpr hm)
  have hgac : getAvailableCaptures position =
      L.filter (fun move => move.captures.length == hd.captures.length) := by
    unfold getAvailableCaptures
    rw [if_pos hlen, ← hL, hcons]
    rfl
  have hgne : getAvailableCaptures position ≠ [] := by
    rw [hgac]
    intro h0
    have hmemf : hd ∈ L.filter
        (fun move => move.captures.length == hd.captures.length) :=
      List.mem_filter.mpr ⟨hcons ▸ List.mem_cons_self hd tl, by simp⟩
    rw [h0] at hmemf
    cases hmemf
  have hg1 : generateMoves position = getAvailableCaptures position := by
    unfold generateMoves
    rw [if_pos (List.length_pos.mpr hgne)]
  refine ⟨hg1, ?_, ?_⟩
  · intro m hm
    rw [hg1, hgac] at hm
    obtain ⟨hmL, hmlen⟩ := List.mem_filter.mp hm
    have hmall : m ∈ allCaptures position := hperm.mem_iff.mp hmL
    have hne : m.captures ≠ [] := by
      rcases (mem_allCaptures position m).mp hmall with ⟨r, _, c, _, _, hfind⟩
      exact (find_structure position.currentPlayer 21 position.pieces
        ⟨(r : ℤ), (c : ℤ)⟩ [] [] [] m hfind).2.2
    refine ⟨hmall, hne, ?_⟩
    rw [← hmax]
    exact beq_iff_eq.mp hmlen
  · intro m hmall hmlen
    rw [hg1, hgac]
    apply List.mem_filter.mpr
    refine ⟨hperm.mem_iff.mpr hmall, ?_⟩
    rw [hmlen, ← hmax]
    simp

/-- Witness for C1 at the concrete position `evenTradePos`. -/
theorem C1_maximal_captures_witness :
    allCaptures evenTradePos ≠ [] ∧
    (generateMoves evenTradePos = getAvailableCaptures evenTradePos ∧
    (∀ m ∈ generateMoves evenTradePos, m ∈ allCaptures evenTradePos ∧
      m.captures ≠ [] ∧ m.captures.length = maxCaptureLen evenTradePos) ∧
    (∀ m ∈ allCaptures evenTradePos,
      m.captures.length = maxCaptureLen evenTradePos →
      m ∈ generateMoves evenTradePos)) :=
  ⟨by decide, C1_maximal_captures evenTradePos (by decide)⟩

end Draughts

namespace Draughts

/-- C3 (amended): lookup answers `null` when there is no entry or the
stored depth is below the requested minimum; with sufficient depth it
answers the refreshed entry, flagged usable exactly under the spec's
bound condition and not-useful otherwise. -/
theorem C3_lookup_amended (tt : TranspositionTable) (key : String)
    (minDepth : ℤ) (alpha beta : JNum) :
    (assocGet tt.table key = none →
      (ttLookup tt key minDepth alpha beta).1 = none) ∧
    (∀ e, assocGet tt.table key = some e →
      (e.depth < minDepth → (ttLookup tt key minDepth alpha beta).1 = none) ∧
      (minDepth ≤ e.depth →
        ∃ r, (ttLookup tt key minDepth alpha beta).1 = some r ∧
          r.entry.value = e.value ∧ r.entry.bestMove = e.bestMove ∧
          r.entry.depth = e.depth ∧
          (r.useful = true ↔ specUsableBound e alpha beta))) := by
  constructor
  · intro hnone
    unfold ttLookup
    rw [hnone]
  · intro e he
    constructor
    · intro hd
      unfold ttLookup
      rw [he]
      simp only
      rw [if_pos hd]
    · intro hd
      unfold ttLookup
      rw [he]
      simp only
      rw [if_neg (not_lt.mpr hd)]
      by_cases h1 : (e.type == ENTRY_TYPES.EXACT) = true
      · rw [if_pos h1]
        refine ⟨_, rfl, rfl, rfl, rfl, ?_⟩
        exact ⟨fun _ => Or.inl (beq_iff_eq.mp h1), fun _ => rfl⟩
      · rw [if_neg h1]
        by_cases h2 : (e.type == ENTRY_TYPES.LOWER_BOUND &&
            JNum.jle beta e.value) = true
        · rw [if_pos h2]
          refine ⟨_, rfl, rfl, rfl, rfl, ?_⟩
          refine ⟨fun _ => ?_, fun _ => rfl⟩
          have h2' := Bool.and_eq_true_iff.mp h2
          exact Or.inr (Or.inl ⟨beq_iff_eq.mp h2'.1, h2'.2⟩)
        · rw [if_neg h2]
          by_cases h3 : (e.type == ENTRY_TYPES.UPPER_BOUND &&
              JNum.jle e.value alpha) = true
          · rw [if_pos h3]
            refine ⟨_, rfl, rfl, rfl, rfl, ?_⟩
            refine ⟨fun _ => ?_, fun _ => rfl⟩
            have h3' := Bool.and_eq_true_iff.mp h3
            exact Or.inr (Or.inr ⟨beq_iff_eq.mp h3'.1, h3'.2⟩)
          · rw [if_neg h3]
            refine ⟨_, rfl, rfl, rfl, rfl, ?_⟩
            constructor
            · intro hx
              cases hx
            · intro hs
              exfalso
              rcases hs with ht | ⟨ht, hv⟩ | ⟨ht, hv⟩
              · exact h1 (beq_iff_eq.mpr ht)
              · exact h2 (Bool.and_eq_true_iff.mpr ⟨beq_iff_eq.mpr ht, hv⟩)
              · exact h3 (Bool.and_eq_true_iff.mpr ⟨beq_iff_eq.mpr ht, hv⟩)

/-- C3 counterexample: after `store("k", depth 5, EXACT)`, a lookup with
minimum depth 6 answers `null` even though the entry is present — the
claim instead demands a not-useful entry carrying the best move. -/
theorem C3_counterexample :
    (ttLookup ttFixture "k" 6 JNum.neg JNum.pos).1 = none ∧
    (assocGet ttFixture.table "k").isSome = true := by
  decide

/-- Witness for C3 (amended) on the concrete one-entry table. -/
theorem C3_lookup_amended_witness :
    (ttLookup ttFixture "k" 6 JNum.neg JNum.pos).1 = none ∧
    ∃ r, (ttLookup ttFixture "k" 5 JNum.neg JNum.pos).1 = some r ∧
      r.entry.value = JNum.fin 7 ∧ r.entry.bestMove = some dummyMove ∧
      r.useful = true := by
  constructor
  · exact ((C3_lookup_amended ttFixture "k" 6 JNum.neg JNum.pos).2 ttEntryFix
      (by decide)).1 (by decide)
  · obtain ⟨r, hr, hv, hb, hdep, hu⟩ :=
      ((C3_lookup_amended ttFixture "k" 5 JNum.neg JNum.pos).2 ttEntryFix
        (by decide)).2 (by decide)
    exact ⟨r, hr, hv, hb, hu.mpr (Or.inl rfl)⟩

end Draughts

namespace Draughts

/-- The recapture filter of `staticExchangeEvaluation` is always empty:
the evaluated "response" position keeps the **mover** to move (the player
switch of `makeMove` is overwritten), so the enumerated captures belong
to the mover, and the landing square — which holds the mover's own piece
— can never be among their captured squares. -/
theorem recaptures_onto_landing_nil (position : Position) (move : Move)
    (hWF : boardWF position.pieces)
    (hfv : isValidSquare move.fromSq.row move.fromSq.col = true)
    (htv : isValidSquare move.toSq.row move.toSq.col = true)
    (hft : ¬(move.fromSq.row = move.toSq.row ∧ move.fromSq.col = move.toSq.col))
    (hcf : ∀ c ∈ move.captures,
      ¬(c.row = move.fromSq.row ∧ c.col = move.fromSq.col))
    (hct : ∀ c ∈ move.captures,
      ¬(c.row = move.toSq.row ∧ c.col = move.toSq.col))
    (hown : isPieceOfCurrentPlayer
      (getP position.pieces move.fromSq.row move.fromSq.col)
      position.currentPlayer = true) :
    (getAvailableCaptures
      { pieces := (makeMove position move).pieces
        currentPlayer := position.currentPlayer
        history := (makeMove position move).history }).filter (fun recap =>
        recap.captures.any (fun cap =>
          cap.row == move.toSq.row && cap.col == move.toSq.col)) = [] := by
  apply List.filter_eq_nil_iff.mpr
  intro recap hrecap
  have hall := mem_gAC_sub _ recap hrecap
  rcases (mem_allCaptures _ recap).mp hall with ⟨r, hr, c, hc, hpiece, hfind⟩
  have htnot : isOpponentPiece
      (getP (makeMove position move).pieces move.toSq.row move.toSq.col)
      position.currentPlayer = false := by
    have h2 := (makeMove_effects position move hWF hfv htv hft hcf hct).2.1
    rw [h2]
    exact final_not_opp _ _ _ hown
  have hnotcap := find_notOpp position.currentPlayer move.toSq 21
    (makeMove position move).pieces ⟨(r : ℤ), (c : ℤ)⟩ [] [] []
    (boardWF_makeMove position move hWF) htnot
    (isOwn_not_opp _ _ hpiece) recap hfind
  intro hany
  obtain ⟨cap, hcapmem, hcap⟩ := List.any_eq_true.mp hany
  obtain ⟨hr1, hc1⟩ := Bool.and_eq_true_iff.mp hcap
  have hceq : cap = move.toSq := by
    rcases cap with ⟨cr, cc⟩
    simp only [beq_iff_eq] at hr1 hc1
    rw [hr1, hc1]
  rcases hnotcap cap hcapmem with hin | hne
  · cases hin
  · exact hne hceq

/-- One unfolding of the SEE recursion: with the recapture list empty, the
value is just the summed value of the captured pieces. -/
theorem seeFuel_succ (position : Position) (move : Move) (fuel : ℕ)
    (hWF : boardWF position.pieces)
    (hfv : isValidSquare move.fromSq.row move.fromSq.col = true)
    (htv : isValidSquare move.toSq.row move.toSq.col = true)
    (hft : ¬(move.fromSq.row = move.toSq.row ∧ move.fromSq.col = move.toSq.col))
    (hcf : ∀ c ∈ move.captures,
      ¬(c.row = move.fromSq.row ∧ c.col = move.fromSq.col))
    (hct : ∀ c ∈ move.captures,
      ¬(c.row = move.toSq.row ∧ c.col = move.toSq.col))
    (hown : isPieceOfCurrentPlayer
      (getP position.pieces move.fromSq.row move.fromSq.col)
      position.currentPlayer = true)
    (hne : move.captures ≠ []) :
    seeFuel (fuel + 1) position move =
      (move.captures.map (fun cap =>
        getPieceValue (getP position.pieces cap.row cap.col))).sum := by
  rw [seeFuel]
  rw [if_neg (fun h => hne (List.isEmpty_iff.mp h))]
  simp only
  rw [recaptures_onto_landing_nil position move hWF hfv htv hft hcf hct hown]
  simp only [List.isEmpty_nil, if_true]
  rw [foldl_add_sum]
  exact zero_add _

end Draughts

namespace Draughts

/-- C4 (amended): `staticExchangeEvaluation` returns exactly the summed
value of the captured pieces — for a hanging capture as the claim says,
but also for trades: the recapture branch never runs, because the
evaluated response position keeps the mover to move, so no subtraction
of the mover's own value or of a continuation ever happens. -/
theorem C4_see_amended (position : Position) (move : Move)
    (hWF : boardWF position.pieces)
    (hfv : isValidSquare move.fromSq.row move.fromSq.col = true)
    (htv : isValidSquare move.toSq.row move.toSq.col = true)
    (hft : ¬(move.fromSq.row = move.toSq.row ∧ move.fromSq.col = move.toSq.col))
    (hcf : ∀ c ∈ move.captures,
      ¬(c.row = move.fromSq.row ∧ c.col = move.fromSq.col))
    (hct : ∀ c ∈ move.captures,
      ¬(c.row = move.toSq.row ∧ c.col = move.toSq.col))
    (hown : isPieceOfCurrentPlayer
      (getP position.pieces move.fromSq.row move.fromSq.col)
      position.currentPlayer = true)
    (hne : move.captures ≠ []) :
    staticExchangeEvaluation position move =
      (move.captures.map (fun cap =>
        getPieceValue (getP position.pieces cap.row cap.col))).sum :=
  seeFuel_succ position move 100 hWF hfv htv hft hcf hct hown hne

/-- Witness for C4 (amended) on the hanging capture of `hangPos`. -/
theorem C4_see_amended_witness :
    boardWF hangPos.pieces ∧
    staticExchangeEvaluation hangPos hangMove =
      (hangMove.captures.map (fun cap =>
        getPieceValue (getP hangPos.pieces cap.row cap.col))).sum :=
  ⟨by decide, C4_see_amended hangPos hangMove (by decide) (by decide)
    (by decide) (by decide) (by decide) (by decide) (by decide) (by decide)⟩

/-- C4 counterexample: in the even man-for-man trade of `evenTradePos`
(black really can recapture on the landing square), the SEE is 100,
the full captured value — not the claimed captured-minus-own value 0. -/
theorem C4_counterexample :
    generateMoves (makeMove evenTradePos evenTradeMove) =
      [evenTradeRecapture] ∧
    staticExchangeEvaluation evenTradePos evenTradeMove = 100 ∧
    staticExchangeEvaluation evenTradePos evenTradeMove ≠
      getPieceValue (getP evenTradePos.pieces 4 3) -
        getPieceValue (getP evenTradePos.pieces 5 4) := by
  decide

end Draughts


namespace Draughts

/-- `Map.set` on an existing key: reading that key back. -/
theorem assocGet_map_set {α : Type} (k : String) (v : α) :
    ∀ l : List (String × α), (l.find? (fun p => p.1 == k)).isSome = true →
      assocGet (l.map (fun p => if p.1 == k then (k, v) else p)) k = some v := by
  intro l
  induction l with
  | nil => intro h; cases h
  | cons p ps ih =>
    intro h
    unfold assocGet
    simp only [List.map_cons]
    by_cases hp : (p.1 == k) = true
    · rw [if_pos hp]
      rw [@List.find?_cons_of_pos (String × α) (fun q => q.1 == k) _ _ (by simp)]
      rfl
    · rw [if_neg hp]
      rw [@List.find?_cons_of_neg (String × α) (fun q => q.1 == k) _ _ hp]
      rw [@List.find?_cons_of_neg (String × α) (fun q => q.1 == k) _ _ hp] at h
      have := ih h
      unfold assocGet at this
      exact this

/-- `Map.set` on a fresh key: reading that key back. -/
theorem assocGet_append_single {α : Type} (k : String) (v : α)
    (l : List (String × α)) (h : l.find? (fun p => p.1 == k) = none) :
    assocGet (l ++ [(k, v)]) k = some v := by
  unfold assocGet
  rw [List.find?_append, h,
    @List.find?_cons_of_pos (String × α) (fun q => q.1 == k) _ _ (by simp)]
  rfl

/-- `Map.set` never changes the value stored under another key
(replacement branch, `find?` level). -/
theorem find?_map_set_ne {α : Type} (k k' : String) (v : α) (hne : k' ≠ k) :
    ∀ l : List (String × α),
      (l.map (fun p => if p.1 == k then (k, v) else p)).find?
        (fun p => p.1 == k') = l.find? (fun p => p.1 == k') := by
  intro l
  induction l with
  | nil => rfl
  | cons p ps ih =>
    simp only [List.map_cons]
    by_cases hp : (p.1 == k) = true
    · rw [if_pos hp]
      rw [@List.find?_cons_of_neg (String × α) (fun q => q.1 == k') _ _ (by
        simp only [beq_iff_eq]
        exact fun hh => hne hh.symm)]
      rw [@List.find?_cons_of_neg (String × α) (fun q => q.1 == k') _ _ (by
        simp only [beq_iff_eq]
        exact fun hh => hne (hh.symm.trans (beq_iff_eq.mp hp)))]
      exact ih
    · rw [if_neg hp]
      by_cases hp' : (p.1 == k') = true
      · rw [@List.find?_cons_of_pos (String × α) (fun q => q.1 == k') _ _ hp',
          @List.find?_cons_of_pos (String × α) (fun q => q.1 == k') _ _ hp']
      · rw [@List.find?_cons_of_neg (String × α) (fun q => q.1 == k') _ _ hp',
          @List.find?_cons_of_neg (String × α) (fun q => q.1 == k') _ _ hp']
        exact ih

/-- `Map.set` never changes the value stored under another key. -/
theorem assocGet_assocSet_ne {α : Type} (k k' : String) (v : α)
    (hne : k' ≠ k) (l : List (String × α)) :
    assocGet (assocSet l k v) k' = assocGet l k' := by
  unfold assocSet
  by_cases h : (l.find? (fun p => p.1 == k)).isSome = true
  · rw [if_pos h]
    unfold assocGet
    rw [find?_map_set_ne k k' v hne l]
  · rw [if_neg h]
    unfold assocGet
    rw [List.find?_append]
    rw [@List.find?_cons_of_neg (String × α) (fun q => q.1 == k') _ _ (by
      simp only [beq_iff_eq]
      exact fun hh => hne hh.symm)]
    cases hfind : l.find? (fun p => p.1 == k') <;> rfl

/-- `Map.set` on the queried key answers the new value. -/
theorem assocGet_assocSet_self {α : Type} (k : String) (v : α)
    (l : List (String × α)) : assocGet (assocSet l k v) k = some v := by
  unfold assocSet
  by_cases h : (l.find? (fun p => p.1 == k)).isSome = true
  · rw [if_pos h]
    exact assocGet_map_set k v l h
  · rw [if_neg h]
    exact assocGet_append_single k v l
      (Option.not_isSome_iff_eq_none.mp h)

/-- Reading through a value-mapping of the table. -/
theorem assocGet_map_val {α β : Type} (f : α → β) (k : String) :
    ∀ l : List (String × α),
      assocGet (l.map (fun p => (p.1, f p.2))) k = (assocGet l k).map f := by
  intro l
  induction l with
  | nil => rfl
  | cons p ps ih =>
    unfold assocGet at ih ⊢
    simp only [List.map_cons]
    by_cases hp : (p.1 == k) = true
    · rw [@List.find?_cons_of_pos (String × β) (fun q => q.1 == k)
          (p.1, f p.2) _ hp,
        @List.find?_cons_of_pos (String × α) (fun q => q.1 == k) p _ hp]
      rfl
    · rw [@List.find?_cons_of_neg (String × β) (fun q => q.1 == k)
          (p.1, f p.2) _ hp,
        @List.find?_cons_of_neg (String × α) (fun q => q.1 == k) p _ hp]
      exact ih

end Draughts

namespace Draughts

/-- C8 (amended): `updateHistory` stores the move's un-halved prior score
plus `depth²`, and halves every **other** entry (integer floor) exactly
when the move's own prior score exceeds 10000 — not when an arbitrary
entry does, and not before computing the stored sum. -/
theorem C8_history_amended (move : Move) (depth : ℤ)
    (historyTable : List (String × ℤ)) :
    assocGet (updateHistory move depth historyTable) (getMoveKey move) =
      some ((assocGet historyTable (getMoveKey move)).getD 0 +
        depth * depth) ∧
    ∀ k', k' ≠ getMoveKey move →
      assocGet (updateHistory move depth historyTable) k' =
        (if 10000 < (assocGet historyTable (getMoveKey move)).getD 0 then
          (assocGet historyTable k').map (fun v => Int.fdiv v 2)
        else assocGet historyTable k') := by
  unfold updateHistory
  simp only
  constructor
  · by_cases h : 10000 < (assocGet historyTable (getMoveKey move)).getD 0
    · rw [if_pos h]
      exact assocGet_assocSet_self _ _ _
    · rw [if_neg h]
      exact assocGet_assocSet_self _ _ _
  · intro k' hk'
    by_cases h : 10000 < (assocGet historyTable (getMoveKey move)).getD 0
    · rw [if_pos h, if_pos h]
      rw [assocGet_assocSet_ne _ _ _ hk' _]
      exact assocGet_map_val (fun v => Int.fdiv v 2) k' historyTable
    · rw [if_neg h, if_neg h]
      exact assocGet_assocSet_ne _ _ _ hk' _

/-- C8 counterexample: with another entry far above 10000 nothing is
halved, and when the move's own entry exceeds 10000 the move's stored
score is its un-halved prior plus `depth²` (10002 + 4), not the claimed
halved prior plus increment (5001 + 4). -/
theorem C8_counterexample :
    assocGet (updateHistory dummyMove 2 [("a", 20000)]) "a" = some 20000 ∧
    assocGet (updateHistory dummyMove 2 [(getMoveKey dummyMove, 10002)])
      (getMoveKey dummyMove) = some 10006 ∧
    (10006 : ℤ) ≠ Int.fdiv 10002 2 + 2 * 2 := by
  decide

/-- Witness for C8 (amended) on a two-entry table whose updated move sits
above the aging threshold. -/
theorem C8_history_amended_witness :
    "a" ≠ getMoveKey dummyMove ∧
    assocGet (updateHistory dummyMove 2 [(getMoveKey dummyMove, 10002),
      ("a", 8)]) (getMoveKey dummyMove) = some 10006 ∧
    assocGet (updateHistory dummyMove 2 [(getMoveKey dummyMove, 10002),
      ("a", 8)]) "a" = some 4 := by
  refine ⟨by decide, ?_, ?_⟩
  · rw [(C8_history_amended dummyMove 2 [(getMoveKey dummyMove, 10002),
      ("a", 8)]).1]
    decide
  · rw [(C8_history_amended dummyMove 2 [(getMoveKey dummyMove, 10002),
      ("a", 8)]).2 "a" (by decide)]
    decide

end Draughts

namespace Draughts

set_option maxHeartbeats 16000000 in
/-- C5 (amended): at **positive** remaining depth (and without recursion
cap, node-counter time check, repetition hit or cache hit), a position
with zero legal moves scores `-10000 + ply` — the mate score offset by
the ply, so later mates score higher.  At `depth ≤ 0` such a position
goes to quiescence instead, and the mate score is *not* below every
non-terminal evaluation (see the counterexample). -/
theorem C5_mate_amended (ai : Ai) (position : Position) (depth : ℤ)
    (alpha beta : JNum) (startTime : ℤ) (timeLimit : ℚ)
    (recursionDepth ply fuel : ℕ)
    (hrd : recursionDepth ≤ ai.maxRecursionDepth)
    (hnode : ((ai.nodeCount + 1) % 2048 == 0) = false)
    (hhist : position.history = [])
    (hdepth : 0 < depth)
    (htt : assocGet ai.cache.table (generateKey position) = none)
    (hmoves : generateMoves position = []) :
    (negamax (fuel + 1) ai position depth alpha beta startTime timeLimit
      recursionDepth ply).1 = JNum.fin (-10000 + (ply : ℤ)) := by
  have httl : ttLookup ai.cache (generateKey position) depth alpha beta =
      (none, ai.cache) := by
    unfold ttLookup
    rw [htt]
  have hhlen : ¬(2 ≤ (position.history.filter
      (fun k => k == generateKey position)).length) := by
    rw [hhist]
    simp
  rw [negamax]
  rw [if_neg (not_lt.mpr hrd)]
  rw [if_neg (show ¬(((ai.nodeCount + 1) % 2048 == 0) = true) from by
    rw [hnode]; exact Bool.false_ne_true)]
  simp only [Bool.false_eq_true, if_false]
  rw [if_neg hhlen]
  rw [if_neg (not_le.mpr hdepth)]
  rw [httl]
  simp only [Bool.false_eq_true, if_false]
  rw [hmoves]
  simp only [List.isEmpty_nil, if_true]

set_option maxRecDepth 100000 in
set_option maxHeartbeats 4000000 in
/-- C5 counterexample: the mate score of the stalemated `blockedPos` at
ply 0 is −10000, yet the non-terminal `bigPos` (it has a legal move)
evaluates below −10000 — the mate score is *not* strictly worse than
every non-terminal evaluation. -/
theorem C5_counterexample :
    (negamax (rootFuel aiZero) aiZero blockedPos 1 JNum.neg JNum.pos 0 1000
      0 0).1 = JNum.fin (-10000) ∧
    generateMoves blockedPos = [] ∧
    generateMoves bigPos ≠ [] ∧
    (evaluatePosition aiZero bigPos).1 < -10000 := by
  refine ⟨by decide, by decide, by decide, by decide⟩

set_option maxRecDepth 100000 in
set_option maxHeartbeats 4000000 in
/-- Witness for C5 (amended) on the stalemated `blockedPos` at depth 3,
ply 5. -/
theorem C5_mate_amended_witness :
    generateMoves blockedPos = [] ∧
    (negamax (61 + 1) aiZero blockedPos 3 JNum.neg JNum.pos 0 1000 0 5).1 =
      JNum.fin (-10000 + ((5 : ℕ) : ℤ)) :=
  ⟨by decide, C5_mate_amended aiZero blockedPos 3 JNum.neg JNum.pos 0 1000
    0 5 61 (by decide) (by decide) rfl (by decide) rfl (by decide)⟩

end Draughts

namespace Draughts

/-- A fold whose step appends exactly one scored copy of its input keeps
lengths and produces only pairs over the folded list. -/
theorem foldl_push_props {σ : Type} (step : List (Move × ℚ) × σ → Move →
      List (Move × ℚ) × σ)
    (hstep : ∀ acc m, ∃ q s', step acc m = (acc.1 ++ [(m, q)], s'))
    (l : List Move) : ∀ acc : List (Move × ℚ) × σ,
      ((l.foldl step acc).1.length = acc.1.length + l.length) ∧
      (∀ p ∈ (l.foldl step acc).1, p ∈ acc.1 ∨ p.1 ∈ l) := by
  induction l with
  | nil => intro acc; exact ⟨by simp, fun p hp => Or.inl hp⟩
  | cons m ms ih =>
    intro acc
    simp only [List.foldl_cons, List.length_cons]
    obtain ⟨q, s', hs⟩ := hstep acc m
    rw [hs]
    obtain ⟨hlen, hmem⟩ := ih (acc.1 ++ [(m, q)], s')
    constructor
    · rw [hlen]
      simp only [List.length_append, List.length_singleton]
      omega
    · intro p hp
      rcases hmem p hp with hin | hin
      · rcases List.mem_append.mp hin with h | h
        · exact Or.inl h
        · rcases List.mem_singleton.mp h with rfl
          exact Or.inr (List.mem_cons_self _ _)
      · exact Or.inr (List.mem_cons_of_mem _ hin)

/-- `rootScoreStep` appends exactly one scored pair. -/
theorem rootScoreStep_shape (position : Position) :
    ∀ (acc : List (Move × ℚ) × Ai) (m : Move), ∃ q s',
      rootScoreStep position acc m = (acc.1 ++ [(m, q)], s') := by
  intro acc m
  rcases acc with ⟨l, a⟩
  unfold rootScoreStep
  rcases hq : quickEvaluateMove position m a with ⟨q, s1⟩
  rcases ht : ttLookup s1.cache (generateKey position) 0 JNum.neg JNum.pos
    with ⟨te, tt'⟩
  exact ⟨_, _, by simp only [hq, ht]; rfl⟩

/-- The root ordering only permutes the generated moves. -/
theorem orderMovesAtRoot_mem (moves : List Move) (position : Position)
    (ai : Ai) : ∀ x ∈ (orderMovesAtRoot moves position ai).1, x ∈ moves := by
  intro x hx
  unfold orderMovesAtRoot at hx
  rcases hfold : moves.foldl (rootScoreStep position) ([], ai)
    with ⟨scored, ai'⟩
  rw [hfold] at hx
  simp only at hx
  rcases List.mem_map.mp hx with ⟨p, hp, rfl⟩
  have hp2 := (stableSort_perm _ scored).mem_iff.mp hp
  have hmem := (foldl_push_props (rootScoreStep position)
    (rootScoreStep_shape position) moves ([], ai)).2 p
    (by rw [hfold]; exact hp2)
  rcases hmem with h | h
  · cases h
  · exact h

/-- The root ordering keeps the move count. -/
theorem orderMovesAtRoot_length (moves : List Move) (position : Position)
    (ai : Ai) : (orderMovesAtRoot moves position ai).1.length = moves.length := by
  unfold orderMovesAtRoot
  rcases hfold : moves.foldl (rootScoreStep position) ([], ai)
    with ⟨scored, ai'⟩
  simp only
  rw [List.length_map, (stableSort_perm _ scored).length_eq]
  have := (foldl_push_props (rootScoreStep position)
    (rootScoreStep_shape position) moves ([], ai)).1
  rw [hfold] at this
  simpa using this

/-- `safetyRescore` scores each safe move once, in order. -/
theorem safetyRescore_props (position : Position) (moves : List Move)
    (ai : Ai) :
    (safetyRescore position moves ai).1.length = moves.length ∧
    ∀ p ∈ (safetyRescore position moves ai).1, p.1 ∈ moves := by
  unfold safetyRescore
  have h := foldl_push_props
    (fun (acc : List (Move × ℚ) × Ai) m =>
      let (q, ai) := quickEvaluateMove position m acc.2
      (acc.1 ++ [(m, q)], ai))
    (by
      intro acc m
      rcases hq : quickEvaluateMove position m acc.2 with ⟨q, s⟩
      exact ⟨q, s, by simp only [hq]⟩)
    moves ([], ai)
  refine ⟨by rw [h.1]; simp, ?_⟩
  intro p hp
  rcases h.2 p hp with hin | hin
  · cases hin
  · exact hin

end Draughts

namespace Draughts

/-- Any move the root PVS loop reports comes from its move list (or from
the incoming best-so-far). -/
theorem searchBestMoveLoop_mem (position : Position) (depth : ℤ)
    (beta : JNum) (startTime : ℤ) (timeLimit : ℚ) (key : String)
    (S : Move → Prop) :
    ∀ (moves : List Move) (i : ℕ) (bm : Option Move) (bs alpha : JNum)
      (ai : Ai), (∀ m, bm = some m → S m) → (∀ m ∈ moves, S m) →
      ∀ m, (searchBestMoveLoop position depth beta startTime timeLimit key
        moves i bm bs alpha ai).1 = some m → S m := by
  intro moves
  induction moves with
  | nil =>
    intro i bm bs alpha ai hbm _ m hm
    rw [searchBestMoveLoop] at hm
    exact hbm m hm
  | cons mv rest ih =>
    intro i bm bs alpha ai hbm hall m hm
    rw [searchBestMoveLoop] at hm
    rcases hdn : dateNow ai with ⟨t, ai1⟩
    rw [hdn] at hm
    simp only at hm
    split at hm
    · exact hbm m hm
    · rcases hps : pvsRootScore position depth alpha beta startTime timeLimit
        key mv i ai1 with ⟨score, ai2⟩
      rw [hps] at hm
      simp only at hm
      split at hm
      · -- beta cutoff: the answer is the updated best move
        split at hm
        · have hmm := Option.some.inj hm
          subst hmm
          exact hall mv (List.mem_cons_self _ _)
        · exact hbm m hm
      · -- no cutoff: recurse with the updated best move
        split at hm
        · exact ih (i + 1) (some mv) score (JNum.jmax alpha score) ai2
            (fun x hx => by
              have hxx := Option.some.inj hx
              subst hxx
              exact hall mv (List.mem_cons_self _ _))
            (fun x hx => hall x (List.mem_cons_of_mem _ hx)) m hm
        · exact ih (i + 1) bm bs (JNum.jmax alpha score) ai2 hbm
            (fun x hx => hall x (List.mem_cons_of_mem _ hx)) m hm

/-- `searchBestMove` only answers generated moves. -/
theorem searchBestMove_mem (ai : Ai) (position : Position) (depth : ℤ)
    (alpha beta : JNum) (startTime : ℤ) (timeLimit : ℚ) (m : Move)
    (hm : (searchBestMove ai position depth alpha beta startTime
      timeLimit).1 = some m) : m ∈ generateMoves position := by
  unfold searchBestMove at hm
  rcases hord : orderMovesAtRoot (generateMoves position) position ai
    with ⟨moves, ai1⟩
  rw [hord] at hm
  simp only at hm
  rcases hloop : searchBestMoveLoop position depth beta startTime timeLimit
      (generateKey position) moves 0 none JNum.neg alpha ai1
    with ⟨bm, bs, timeout, ai2⟩
  rw [hloop] at hm
  simp only at hm
  have hall : ∀ y ∈ moves, y ∈ generateMoves position := fun y hy =>
    orderMovesAtRoot_mem _ _ _ y (by rw [hord]; exact hy)
  rcases bm with _ | x
  · have hm' : moves.head? = some m := hm
    exact hall m (List.mem_of_mem_head? hm')
  · have hm' : some x = some m := hm
    have hxm := Option.some.inj hm'
    subst hxm
    exact searchBestMoveLoop_mem position depth beta startTime timeLimit
      (generateKey position) (fun y => y ∈ generateMoves position) moves 0
      none JNum.neg alpha ai1 (fun _ h => by cases h) hall x
      (by rw [hloop])

/-- The tactical short circuit only forces one of the given moves. -/
theorem quickTacticalScan_mem (position : Position) (moves : List Move)
    (m : Move) (h : quickTacticalScan position moves = some m) :
    m ∈ moves := by
  unfold quickTacticalScan at h
  have hsub : ∀ x ∈ stableSort (fun a b =>
      evaluateCaptureSequence position b ≤ evaluateCaptureSequence position a)
      (moves.filter (fun mm => !mm.captures.isEmpty)), x ∈ moves := by
    intro x hx
    have := (stableSort_perm _ _).mem_iff.mp hx
    exact List.mem_of_mem_filter this
  simp only at h
  split at h
  · split at h
    · exact hsub m (List.mem_of_mem_head? h)
    · split at h
      · rename_i c0 c1 cs hsorted
        split at h
        · have hcm := Option.some.inj h
          subst hcm
          exact hsub c0 (by rw [hsorted]; exact List.mem_cons_self _ _)
        · cases h
      · cases h
  · cases h


/-! ### Ghost-chain correspondence and distinctness (claim C10) -/

theorem nodup_snoc {α : Type} (l : List α) (a : α) (h : l.Nodup)
    (ha : a ∉ l) : (l ++ [a]).Nodup := by
  rw [List.nodup_append]
  refine ⟨h, List.nodup_singleton a, fun x hx hxa => ?_⟩
  rw [List.mem_singleton] at hxa
  subst hxa
  exact ha hx

theorem headD_snoc {α : Type} (l : List α) (a d : α) :
    (l ++ [a]).headD d = l.headD a := by
  cases l <;> rfl

theorem getLastD_snoc {α : Type} (l : List α) (a : α) :
    ∀ d, (l ++ [a]).getLastD d = a := by
  induction l with
  | nil => intro d; rfl
  | cons x xs ih =>
    intro d
    rw [List.cons_append, List.getLastD_cons]
    exact ih x

theorem map_foldl_append {X Y β : Type} (h : X → Y) (f : β → List X) :
    ∀ (l : List β) (init : List X),
      (l.foldl (fun a x => a ++ f x) init).map h =
        l.foldl (fun a x => a ++ (f x).map h) (init.map h) := by
  intro l
  induction l with
  | nil => intro init; rfl
  | cons x xs ih =>
    intro init
    simp only [List.foldl_cons]
    rw [ih, List.map_append]

theorem foldl_rel {α β γ : Type} (R : α → β → Prop) (f : α → γ → α)
    (g : β → γ → β) (hstep : ∀ a b c, R a b → R (f a c) (g b c)) :
    ∀ (l : List γ) (a : α) (b : β), R a b → R (l.foldl f a) (l.foldl g b) := by
  intro l
  induction l with
  | nil => intro a b hab; exact hab
  | cons x xs ih => intro a b hab; exact ih _ _ (hstep a b x hab)

theorem rel_ite {α β : Type} (R : α → β → Prop) (c : Prop) [Decidable c]
    (a1 a2 : α) (b1 b2 : β) (h1 : c → R a1 b1) (h2 : ¬c → R a2 b2) :
    R (if c then a1 else a2) (if c then b1 else b2) := by
  by_cases hc : c
  · rw [if_pos hc, if_pos hc]; exact h1 hc
  · rw [if_neg hc, if_neg hc]; exact h2 hc

theorem findChains_erase (pl : ℕ) : ∀ (fuel : ℕ) (pieces : Board)
    (pos : Coord) (path cap vis : List Coord),
    (findCaptureSequencesChains fuel pieces pos path cap vis pl).map
      GMove.toMove = findCaptureSequences fuel pieces pos path cap vis pl := by
  intro fuel
  induction fuel with
  | zero =>
    intro pieces pos path cap vis
    rw [findCaptureSequencesChains, findCaptureSequences]
    rfl
  | succ fuel ih =>
    intro pieces pos path cap vis
    rw [findCaptureSequencesChains, findCaptureSequences]
    by_cases hv : vis.contains pos = true
    · rw [if_pos hv, if_pos hv]; rfl
    · rw [if_neg hv, if_neg hv]
      simp only
      have hrel := foldl_rel
        (fun (x : Bool × List GMove) (y : Bool × List Move) =>
          x.1 = y.1 ∧ x.2.map GMove.toMove = y.2)
        (fun (acc : Bool × List GMove) (dir : Dir) =>
          if (getP pieces pos.row pos.col == PIECE.WHITE_KING ||
              getP pieces pos.row pos.col == PIECE.BLACK_KING) = true then
            match scanForEnemy 16 pieces (pos.row + dir.dy)
                (pos.col + dir.dx) dir pl with
            | none => acc
            | some enemyPos =>
              if cap.contains enemyPos = true then acc
              else
                (acc.1 || !(landingSquares 16 pieces (enemyPos.row + dir.dy)
                    (enemyPos.col + dir.dx) dir).isEmpty,
                  List.foldl (fun outs land =>
                    outs ++ findCaptureSequencesChains fuel
                      (setP (setP (setP pieces pos.row pos.col PIECE.NONE)
                        enemyPos.row enemyPos.col PIECE.NONE)
                        land.row land.col (getP pieces pos.row pos.col))
                      land (path ++ [pos]) (cap ++ [enemyPos]) (pos :: vis)
                      pl)
                    acc.2
                    (landingSquares 16 pieces (enemyPos.row + dir.dy)
                      (enemyPos.col + dir.dx) dir))
          else
            if (isValidSquare (pos.row + 2 * dir.dy) (pos.col + 2 * dir.dx) &&
                getP pieces (pos.row + 2 * dir.dy) (pos.col + 2 * dir.dx) ==
                  PIECE.NONE &&
                isOpponentPiece (getP pieces (pos.row + dir.dy)
                  (pos.col + dir.dx)) pl) = true then
              if cap.contains (⟨pos.row + dir.dy, pos.col + dir.dx⟩ :
                  Coord) = true then acc
              else
                (true, acc.2 ++ findCaptureSequencesChains fuel
                  (setP (setP (setP pieces pos.row pos.col PIECE.NONE)
                    (pos.row + dir.dy) (pos.col + dir.dx) PIECE.NONE)
                    (pos.row + 2 * dir.dy) (pos.col + 2 * dir.dx)
                    (getP pieces pos.row pos.col))
                  (⟨pos.row + 2 * dir.dy, pos.col + 2 * dir.dx⟩ : Coord)
                  (path ++ [pos])
                  (cap ++ [(⟨pos.row + dir.dy, pos.col + dir.dx⟩ : Coord)])
                  (pos :: vis) pl)
            else acc)
        (fun (acc : Bool × List Move) (dir : Dir) =>
          if (getP pieces pos.row pos.col == PIECE.WHITE_KING ||
              getP pieces pos.row pos.col == PIECE.BLACK_KING) = true then
            match scanForEnemy 16 pieces (pos.row + dir.dy)
                (pos.col + dir.dx) dir pl with
            | none => acc
            | some enemyPos =>
              if cap.contains enemyPos = true then acc
              else
                (acc.1 || !(landingSquares 16 pieces (enemyPos.row + dir.dy)
                    (enemyPos.col + dir.dx) dir).isEmpty,
                  List.foldl (fun outs land =>
                    outs ++ findCaptureSequences fuel
                      (setP (setP (setP pieces pos.row pos.col PIECE.NONE)
                        enemyPos.row enemyPos.col PIECE.NONE)
                        land.row land.col (getP pieces pos.row pos.col))
                      land (path ++ [pos]) (cap ++ [enemyPos]) (pos :: vis)
                      pl)
                    acc.2
                    (landingSquares 16 pieces (enemyPos.row + dir.dy)
                      (enemyPos.col + dir.dx) dir))
          else
            if (isValidSquare (pos.row + 2 * dir.dy) (pos.col + 2 * dir.dx) &&
                getP pieces (pos.row + 2 * dir.dy) (pos.col + 2 * dir.dx) ==
                  PIECE.NONE &&
                isOpponentPiece (getP pieces (pos.row + dir.dy)
                  (pos.col + dir.dx)) pl) = true then
              if cap.contains (⟨pos.row + dir.dy, pos.col + dir.dx⟩ :
                  Coord) = true then acc
              else
                (true, acc.2 ++ findCaptureSequences fuel
                  (setP (setP (setP pieces pos.row pos.col PIECE.NONE)
                    (pos.row + dir.dy) (pos.col + dir.dx) PIECE.NONE)
                    (pos.row + 2 * dir.dy) (pos.col + 2 * dir.dx)
                    (getP pieces pos.row pos.col))
                  (⟨pos.row + 2 * dir.dy, pos.col + 2 * dir.dx⟩ : Coord)
                  (path ++ [pos])
                  (cap ++ [(⟨pos.row + dir.dy, pos.col + dir.dx⟩ : Coord)])
                  (pos :: vis) pl)
            else acc)
        (by
          intro a b dir hab
          obtain ⟨h1, h2⟩ := hab
          dsimp only
          refine rel_ite (fun (x : Bool × List GMove)
              (y : Bool × List Move) =>
            x.1 = y.1 ∧ x.2.map GMove.toMove = y.2) _ _ _ _ _ ?_ ?_
          · intro _
            rcases hscan : scanForEnemy 16 pieces (pos.row + dir.dy)
                (pos.col + dir.dx) dir pl with _ | e
            · exact ⟨h1, h2⟩
            · refine rel_ite (fun (x : Bool × List GMove)
                  (y : Bool × List Move) =>
                x.1 = y.1 ∧ x.2.map GMove.toMove = y.2) _ _ _ _ _ ?_ ?_
              · intro _
                exact ⟨h1, h2⟩
              · intro _
                constructor
                · dsimp only
                  rw [h1]
                · dsimp only
                  rw [map_foldl_append GMove.toMove]
                  rw [h2]
                  exact List.foldl_ext _ _ _ (fun o land _ => by rw [ih])
          · intro _
            refine rel_ite (fun (x : Bool × List GMove)
                (y : Bool × List Move) =>
              x.1 = y.1 ∧ x.2.map GMove.toMove = y.2) _ _ _ _ _ ?_ ?_
            · intro _
              refine rel_ite (fun (x : Bool × List GMove)
                  (y : Bool × List Move) =>
                x.1 = y.1 ∧ x.2.map GMove.toMove = y.2) _ _ _ _ _ ?_ ?_
              · intro _
                exact ⟨h1, h2⟩
              · intro _
                constructor
                · rfl
                · dsimp only
                  rw [List.map_append, h2, ih]
            · intro _
              exact ⟨h1, h2⟩)
        DIRECTIONS.KING_MOVES (false, []) (false, []) ⟨rfl, rfl⟩
      rw [List.map_append, hrel.2, hrel.1, apply_ite (List.map GMove.toMove)]
      rfl

theorem findChains_inv (pl : ℕ) : ∀ (fuel : ℕ) (pieces : Board)
    (pos : Coord) (path cap vis : List Coord),
    path.Nodup → cap.Nodup → (∀ x ∈ path, x ∈ vis) →
    ∀ g ∈ findCaptureSequencesChains fuel pieces pos path cap vis pl,
      g.chain.Nodup ∧ g.captures.Nodup ∧ g.chain ≠ [] ∧
      g.fromSq = g.chain.headD ⟨0, 0⟩ ∧ g.toSq = g.chain.getLastD ⟨0, 0⟩ := by
  intro fuel
  induction fuel with
  | zero =>
    intro pieces pos path cap vis _ _ _ g hg
    rw [findCaptureSequencesChains] at hg
    cases hg
  | succ fuel ih =>
    intro pieces pos path cap vis hpath hcap hsub g hg
    rw [findCaptureSequencesChains] at hg
    by_cases hv : vis.contains pos = true
    · rw [if_pos hv] at hg
      cases hg
    · rw [if_neg hv] at hg
      simp only at hg
      have hvm : pos ∉ vis := fun hmem => hv (List.elem_iff.mpr hmem)
      have hposnotin : pos ∉ path := fun hmem => hvm (hsub pos hmem)
      rcases List.mem_append.mp hg with hg | hg
      · refine foldl_acc_inv _
          (fun g => g.chain.Nodup ∧ g.captures.Nodup ∧ g.chain ≠ [] ∧
            g.fromSq = g.chain.headD ⟨0, 0⟩ ∧
            g.toSq = g.chain.getLastD ⟨0, 0⟩)
          DIRECTIONS.KING_MOVES ?_ (false, []) (by intro s hs; cases hs)
          g hg
        intro acc dir _ hacc s hs
        have hrec : ∀ (pieces' : Board) (land : Coord) (enemy : Coord),
            enemy ∉ cap →
            ∀ s ∈ findCaptureSequencesChains fuel pieces' land
              (path ++ [pos]) (cap ++ [enemy]) (pos :: vis) pl,
            s.chain.Nodup ∧ s.captures.Nodup ∧ s.chain ≠ [] ∧
            s.fromSq = s.chain.headD ⟨0, 0⟩ ∧
            s.toSq = s.chain.getLastD ⟨0, 0⟩ := by
          intro pieces' land enemy henemy s hs
          refine ih pieces' land (path ++ [pos]) (cap ++ [enemy])
            (pos :: vis) (nodup_snoc path pos hpath hposnotin)
            (nodup_snoc cap enemy hcap henemy) ?_ s hs
          intro x hx
          rcases List.mem_append.mp hx with hx | hx
          · exact List.mem_cons_of_mem _ (hsub x hx)
          · rw [List.mem_singleton] at hx
            subst hx
            exact List.mem_cons_self _ _
        split at hs
        · split at hs
          · exact hacc s hs
          · rename_i enemyPos hscan
            split at hs
            · exact hacc s hs
            · rename_i hce
              simp only at hs
              rw [mem_foldl_append] at hs
              rcases hs with hs | ⟨land, hland, hs⟩
              · exact hacc s hs
              · exact hrec _ land enemyPos
                  (fun hmem => hce (List.elem_iff.mpr hmem)) s hs
        · split at hs
          · split at hs
            · exact hacc s hs
            · rename_i hcj
              simp only at hs
              rcases List.mem_append.mp hs with hs | hs
              · exact hacc s hs
              · exact hrec _ _ _
                  (fun hmem => hcj (List.elem_iff.mpr hmem)) s hs
          · exact hacc s hs
      · rcases List.mem_ite_nil_right.mp hg with ⟨_, hg⟩
        rw [List.mem_singleton] at hg
        subst hg
        refine ⟨nodup_snoc path pos hpath hposnotin, hcap, by simp, ?_, ?_⟩
        · exact (headD_snoc path pos ⟨0, 0⟩).symm
        · exact (getLastD_snoc path pos ⟨0, 0⟩).symm

/-- **C10**: every capture move returned by `getAvailableCaptures` has
pairwise-distinct captured squares, and some enumerated ghost chain — the
exact square sequence the capturing piece occupies, starting at the
move's `fromSq` and ending at its `toSq` — erases to the move and visits
pairwise-distinct squares, so no enumerated jump chain revisits a square
the piece already occupied. -/
theorem C10_distinct_squares (position : Position) (m : Move)
    (hm : m ∈ getAvailableCaptures position) :
    m.captures.Nodup ∧
    ∃ g ∈ allCapturesChains position, GMove.toMove g = m ∧
      g.chain.Nodup ∧ g.chain ≠ [] ∧
      g.chain.headD ⟨0, 0⟩ = m.fromSq ∧ g.chain.getLastD ⟨0, 0⟩ = m.toSq := by
  have hac := mem_gAC_sub position m hm
  rw [mem_allCaptures] at hac
  obtain ⟨r, hr, c, hc, hguard, hmem⟩ := hac
  rw [← findChains_erase position.currentPlayer 21 position.pieces
      ⟨(r : ℤ), (c : ℤ)⟩ [] [] []] at hmem
  rw [List.mem_map] at hmem
  obtain ⟨g, hg, hgm⟩ := hmem
  have hinv := findChains_inv position.currentPlayer 21 position.pieces
    ⟨(r : ℤ), (c : ℤ)⟩ [] [] [] List.nodup_nil List.nodup_nil
    (by intro x hx; cases hx) g hg
  obtain ⟨hchain, hcapn, hnil, hfrom, hto⟩ := hinv
  have hgac : g ∈ allCapturesChains position := by
    rw [mem_allCapturesChains]
    exact ⟨r, hr, c, hc, hguard, hg⟩
  subst hgm
  exact ⟨hcapn, g, hgac, rfl, hchain, hnil, hfrom.symm, hto.symm⟩

/-- Witness: the double-jump capture of `doubleJumpPos` has distinct
captures and a distinct-square chain. -/
theorem C10_distinct_squares_witness :
    mDJ.captures.Nodup ∧
    ∃ g ∈ allCapturesChains doubleJumpPos, GMove.toMove g = mDJ ∧
      g.chain.Nodup ∧ g.chain ≠ [] ∧
      g.chain.headD ⟨0, 0⟩ = mDJ.fromSq ∧
      g.chain.getLastD ⟨0, 0⟩ = mDJ.toSq :=
  C10_distinct_squares doubleJumpPos mDJ (by decide)

/-! ### The deepening loop and `getBestMove` (claim C7) -/

section DeepeningProofs

attribute [local irreducible] generateMoves searchBestMove quickTacticalScan
  isMoveReallySafe safetyRescore allocateTime quickEvaluateMove

theorem deepeningLoop_timeout (ai : Ai) (position : Position)
    (startTime : ℤ) (maxDepth depth : ℤ) (bm : Move) (bs ls : JNum)
    (tl : ℚ) (fuel : ℕ) (hf : fuel ≠ 0)
    (ht : tl - ((ai.clock ai.clockIdx - startTime : ℤ) : ℚ) < tl * (1/10)) :
    (deepeningLoop fuel ai position startTime maxDepth depth bm bs ls
      tl).1 = bm := by
  cases fuel with
  | zero => exact absurd rfl hf
  | succ fuel =>
    rw [deepeningLoop]
    split
    · rfl
    · split
      rename_i t ai1 hdn
      have hdn' : (ai.clock ai.clockIdx,
          { ai with clockIdx := ai.clockIdx + 1 }) = (t, ai1) := hdn
      injection hdn' with h1 h2
      subst h1
      rw [if_pos (Bool.or_eq_true_iff.mpr (Or.inl (decide_eq_true ht)))]

set_option maxHeartbeats 1600000 in
theorem deepeningLoop_mem (position : Position) (startTime : ℤ)
    (maxDepth : ℤ) :
    ∀ (fuel : ℕ) (ai : Ai) (depth : ℤ) (bm : Move) (bs ls : JNum) (tl : ℚ),
      bm ∈ generateMoves position →
      (deepeningLoop fuel ai position startTime maxDepth depth bm bs ls
        tl).1 ∈ generateMoves position := by
  intro fuel
  induction fuel with
  | zero =>
    intro ai depth bm bs ls tl hbm
    rw [deepeningLoop]
    exact hbm
  | succ fuel ih =>
    intro ai depth bm bs ls tl hbm
    suffices hgen : ∀ r, deepeningLoop (fuel + 1) ai position startTime
        maxDepth depth bm bs ls tl = r → r.1 ∈ generateMoves position by
      exact hgen _ rfl
    intro r hr
    rw [deepeningLoop] at hr
    split at hr
    · subst hr
      exact hbm
    · split at hr
      rename_i t ai1 hdn
      split at hr
      · subst hr
        exact hbm
      · split at hr
        rename_i alpha beta hab
        split at hr
        rename_i rm rs rt ai2 hsb1
        split at hr
        rename_i rmv rsc ai5 heq2
        have hkey : ∀ m, rmv = some m → m ∈ generateMoves position := by
          intro m hm
          subst hm
          by_cases hC : (JNum.jle rs alpha || JNum.jle beta rs) = true
          · rw [if_pos hC] at heq2
            rcases hsb2 : searchBestMove ai2 position depth JNum.neg
                JNum.pos startTime tl with ⟨m2, s2, t2, ai3⟩
            rw [hsb2] at heq2
            simp only at heq2
            by_cases hS : m2.isSome = true
            · rw [if_pos hS] at heq2
              injection heq2 with e1 e2
              subst e1
              exact searchBestMove_mem _ _ _ _ _ _ _ m (by rw [hsb2])
            · rw [if_neg hS] at heq2
              injection heq2 with e1 e2
              subst e1
              exact searchBestMove_mem _ _ _ _ _ _ _ m (by rw [hsb1])
          · rw [if_neg hC] at heq2
            injection heq2 with e1 e2
            subst e1
            exact searchBestMove_mem _ _ _ _ _ _ _ m (by rw [hsb1])
        split at hr
        · subst hr
          exact hbm
        · rcases rmv with _ | m
          · simp only at hr
            rw [← hr]
            exact ih _ _ _ _ _ _ hbm
          · simp only at hr
            have hmem := hkey m rfl
            split at hr
            · subst hr
              exact hmem
            · rw [← hr]
              exact ih _ _ _ _ _ _ hmem

theorem searchPhase_ne_none (ai : Ai) (position : Position) (startTime : ℤ)
    (maxDepth : ℤ) (timeLimit : ℚ) (moves : List Move)
    (h : (searchPhase ai position startTime maxDepth timeLimit moves).1 =
      none) : False := by
  unfold searchPhase at h
  split at h
  split at h
  split at h
  exact Option.noConfusion h

theorem searchPhase_mem (ai : Ai) (position : Position) (startTime : ℤ)
    (maxDepth : ℤ) (timeLimit : ℚ)
    (hne : generateMoves position ≠ []) (m : Move)
    (hm : (searchPhase ai position startTime maxDepth timeLimit
      (generateMoves position)).1 = some m) :
    m ∈ generateMoves position := by
  have hhead : (generateMoves position).headD dummyMove ∈
      generateMoves position := by
    rcases hgm : generateMoves position with _ | ⟨m0, rest⟩
    · exact absurd hgm hne
    · exact List.mem_cons_self _ _
  unfold searchPhase at hm
  split at hm
  rename_i bm2 bs2 ai7 hdl
  have hbm2 : bm2 ∈ generateMoves position := by
    have h := deepeningLoop_mem position startTime maxDepth 32 ai 1
      ((generateMoves position).headD dummyMove) JNum.neg (JNum.fin 0)
      timeLimit hhead
    rw [hdl] at h
    exact h
  split at hm
  rename_i bmF aiF heqG
  have hbF : bmF ∈ generateMoves position := by
    by_cases hg : (!isMoveReallySafe position bm2) = true
    · rw [if_pos hg] at heqG
      by_cases hs : (!((generateMoves position).filter
          (fun m => isMoveReallySafe position m)).isEmpty) = true
      · rw [if_pos hs] at heqG
        rcases hsr : safetyRescore position ((generateMoves position).filter
            (fun m => isMoveReallySafe position m)) ai7 with ⟨scored, ai8⟩
        rw [hsr] at heqG
        simp only at heqG
        injection heqG with e1 e2
        subst e1
        rcases hsc : stableSort (fun a b => b.2 ≤ a.2) scored with _ | ⟨p, ps⟩
        · rw [hsc]
          exact hbm2
        · rw [hsc]
          have hp2 : p ∈ scored := (stableSort_perm (fun a b => b.2 ≤ a.2)
              scored).mem_iff.mp (by rw [hsc]; exact List.mem_cons_self _ _)
          have h3 := (safetyRescore_props position
            ((generateMoves position).filter
              (fun m => isMoveReallySafe position m)) ai7).2
          rw [hsr] at h3
          have h4 := h3 p hp2
          exact List.mem_of_mem_filter h4
      · rw [if_neg hs] at heqG
        injection heqG with e1 e2
        subst e1
        exact hbm2
    · rw [if_neg hg] at heqG
      injection heqG with e1 e2
      subst e1
      exact hbm2
  split at hm
  rename_i tE aiE hdnE
  simp only at hm
  have he := Option.some.inj hm
  subst he
  exact hbF

theorem searchPhase_timeout (ai : Ai) (position : Position) (startTime : ℤ)
    (maxDepth : ℤ) (timeLimit : ℚ) (m0 : Move) (ms : List Move)
    (ht : timeLimit - ((ai.clock ai.clockIdx - startTime : ℤ) : ℚ) <
      timeLimit * (1/10))
    (hsafe : isMoveReallySafe position m0 = true) :
    (searchPhase ai position startTime maxDepth timeLimit (m0 :: ms)).1 =
      some m0 := by
  have hT := deepeningLoop_timeout ai position startTime maxDepth 1 m0
    JNum.neg (JNum.fin 0) timeLimit 32 (by decide) ht
  unfold searchPhase
  simp only [List.headD_cons]
  rw [hT]
  rw [if_neg (show ¬((!isMoveReallySafe position m0) = true) by
    rw [hsafe]; decide)]

attribute [local irreducible] searchPhase

set_option maxHeartbeats 1600000 in
/-- **C7** (amended): `getBestMove` returns `null` exactly when the
position has zero legal moves, and a unique legal move is returned
immediately without searching; when no opening book is installed, every
returned move is a generated legal move, and if the allocated budget is
already exhausted at the deepening loop's first per-depth check (and the
tactical scan does not fire and the first generated move passes the
final safety gate), the first generated move is returned.  (With an
opening book installed the returned move need not be on the generated
list: see `C7_counterexample`.) -/
theorem C7_getBestMove_amended (ai : Ai) (position : Position)
    (hist : List String) :
    ((getBestMove ai position hist).1 = none ↔ generateMoves position = []) ∧
    (∀ m, generateMoves position = [m] →
      (getBestMove ai position hist).1 = some m) ∧
    (ai.openingBook = none →
      (∀ m, (getBestMove ai position hist).1 = some m →
        m ∈ generateMoves position) ∧
      (∀ m0 m1 ms, generateMoves position = m0 :: m1 :: ms →
        quickTacticalScan position (m0 :: m1 :: ms) = none →
        isMoveReallySafe position m0 = true →
        firstDeepeningCheckTimesOut ai position hist →
        (getBestMove ai position hist).1 = some m0)) := by
  have master : ∀ r, getBestMove ai position hist = r →
      (r.1 = none → generateMoves position = []) ∧
      (generateMoves position = [] → r.1 = none) ∧
      (∀ m, generateMoves position = [m] → r.1 = some m) ∧
      (ai.openingBook = none → ∀ m, r.1 = some m →
        m ∈ generateMoves position) ∧
      (ai.openingBook = none → ∀ m0 m1 ms,
        generateMoves position = m0 :: m1 :: ms →
        quickTacticalScan position (m0 :: m1 :: ms) = none →
        isMoveReallySafe position m0 = true →
        firstDeepeningCheckTimesOut ai position hist →
        r.1 = some m0) := by
    intro r hr
    unfold getBestMove at hr
    rcases hdn : dateNow ai with ⟨t0, ai1⟩
    have hdn' : (ai.clock ai.clockIdx,
        { ai with clockIdx := ai.clockIdx + 1 }) = (t0, ai1) := hdn
    injection hdn' with h1 h2
    subst h1
    subst h2
    rw [hdn] at hr
    simp only at hr
    by_cases hemp : (generateMoves position).isEmpty = true
    · rw [if_pos hemp] at hr
      subst hr
      have hnil := List.isEmpty_iff.mp hemp
      refine ⟨fun _ => hnil, fun _ => rfl, ?_, ?_, ?_⟩
      · intro m hm1
        rw [hnil] at hm1
        exact List.noConfusion hm1
      · intro _ m hm
        exact Option.noConfusion hm
      · intro _ m0 m1 ms hmv _ _ _
        rw [hnil] at hmv
        exact List.noConfusion hmv
    · rw [if_neg hemp] at hr
      have hne : generateMoves position ≠ [] := by
        intro h0
        rw [h0] at hemp
        exact hemp rfl
      by_cases hone : ((generateMoves position).length == 1) = true
      · rw [if_pos hone] at hr
        subst hr
        refine ⟨?_, ?_, ?_, ?_, ?_⟩
        · intro h0
          simp only at h0
          exact List.head?_eq_none_iff.mp h0
        · intro h0
          exact absurd h0 hne
        · intro m hm1
          simp only
          rw [hm1]
          rfl
        · intro _ m hm
          simp only at hm
          exact List.mem_of_mem_head? hm
        · intro _ m0 m1 ms hmv _ _ _
          rw [hmv] at hone
          have hlen1 := beq_iff_eq.mp hone
          simp only [List.length_cons] at hlen1
          omega
      · rw [if_neg hone] at hr
        split at hr
        · rename_i mm hsc
          subst hr
          refine ⟨?_, fun h0 => absurd h0 hne, ?_, ?_, ?_⟩
          · intro h0
            exact Option.noConfusion h0
          · intro m hm1
            rw [hm1] at hone
            exact absurd rfl hone
          · intro _ m hm
            have he := Option.some.inj hm
            subst he
            exact quickTacticalScan_mem position (generateMoves position)
              mm hsc
          · intro _ m0 m1 ms hmv hscan _ _
            rw [hmv] at hsc
            rw [hscan] at hsc
            exact Option.noConfusion hsc
        · rename_i hsc
          have hdeep : ∀ (ob : Option Book) (md : ℤ) (tl : ℚ)
              (r' : Option Move × Ai),
              (if (generateMoves position).length ≤ 3 then
                  (MAX_DEPTH ai.level + 1,
                    allocateTime ai.level position hist.length
                      (TIME_ALLOCATION ai.level) * (3 / 2))
                else (MAX_DEPTH ai.level,
                  allocateTime ai.level position hist.length
                    (TIME_ALLOCATION ai.level))) = (md, tl) →
              searchPhase
                { cache := ai.cache, evalCache := ai.evalCache,
                  level := ai.level, nodeCount := 0, searchAborted := false,
                  maxRecursionDepth := ai.maxRecursionDepth,
                  positionHistory := [],
                  killerMoves := List.replicate 100 (none, none),
                  historyTable := ai.historyTable,
                  quiescenceDepth := ai.quiescenceDepth, openingBook := ob,
                  clock := ai.clock, clockIdx := ai.clockIdx + 1,
                  rng := ai.rng, rngIdx := ai.rngIdx } position
                (ai.clock ai.clockIdx) md tl (generateMoves position) =
                r' →
              (r'.1 = none → generateMoves position = []) ∧
              (generateMoves position = [] → r'.1 = none) ∧
              (∀ m, generateMoves position = [m] → r'.1 = some m) ∧
              (∀ m, r'.1 = some m → m ∈ generateMoves position) ∧
              (∀ m0 m1 ms,
                generateMoves position = m0 :: m1 :: ms →
                quickTacticalScan position (m0 :: m1 :: ms) = none →
                isMoveReallySafe position m0 = true →
                firstDeepeningCheckTimesOut ai position hist →
                r'.1 = some m0) := by
            intro ob md tl r' hMT hr'
            refine ⟨?_, fun h0 => absurd h0 hne, ?_, ?_, ?_⟩
            · intro h0
              rw [← hr'] at h0
              exact (searchPhase_ne_none _ _ _ _ _ _ h0).elim
            · intro m hm1
              rw [hm1] at hone
              exact absurd rfl hone
            · intro m hm
              rw [← hr'] at hm
              exact searchPhase_mem _ _ _ _ _ hne m hm
            · intro m0 m1 ms hmv hscan hsafe htO
              rw [← hr']
              unfold firstDeepeningCheckTimesOut at htO
              simp only at htO
              rw [hmv] at htO
              rw [hmv]
              by_cases hlen : (generateMoves position).length ≤ 3
              · rw [if_pos hlen] at hMT
                have hlen' : (m0 :: m1 :: ms).length ≤ 3 := by
                  rw [← hmv]
                  exact hlen
                rw [if_pos hlen'] at htO
                injection hMT with hmd htl
                subst htl
                exact searchPhase_timeout _ _ _ _ _ _ _ htO hsafe
              · rw [if_neg hlen] at hMT
                have hlen' : ¬(m0 :: m1 :: ms).length ≤ 3 := by
                  rw [← hmv]
                  exact hlen
                rw [if_neg hlen'] at htO
                injection hMT with hmd htl
                subst htl
                exact searchPhase_timeout _ _ _ _ _ _ _ htO hsafe
          rcases hob : ai.openingBook with _ | book
          · simp only [hob] at hr
            obtain ⟨d1, d2, d3, d4, d5⟩ :=
              hdeep none _ _ r Prod.mk.eta.symm hr
            exact ⟨d1, d2, d3, fun _ => d4, fun _ => d5⟩
          · simp only [hob] at hr
            by_cases h20 : hist.length < 20
            · rw [if_pos h20] at hr
              rcases hbg : book.getMove position hist with _ | bmv
              · rw [hbg] at hr
                simp only at hr
                obtain ⟨d1, d2, d3, d4, d5⟩ :=
                  hdeep (some book) _ _ r Prod.mk.eta.symm hr
                exact ⟨d1, d2, d3, fun hb => Option.noConfusion hb,
                  fun hb => Option.noConfusion hb⟩
              · rw [hbg] at hr
                simp only at hr
                subst hr
                refine ⟨?_, fun h0 => absurd h0 hne, ?_, ?_, ?_⟩
                · intro h0
                  exact Option.noConfusion h0
                · intro m hm1
                  rw [hm1] at hone
                  exact absurd rfl hone
                · intro hbook
                  exact Option.noConfusion hbook
                · intro hbook
                  exact Option.noConfusion hbook
            · rw [if_neg h20] at hr
              simp only at hr
              obtain ⟨d1, d2, d3, d4, d5⟩ :=
                hdeep (some book) _ _ r Prod.mk.eta.symm hr
              exact ⟨d1, d2, d3, fun hb => Option.noConfusion hb,
                fun hb => Option.noConfusion hb⟩
  obtain ⟨h1, h2, h3, h4, h5⟩ := master _ rfl
  exact ⟨⟨h1, h2⟩, h3, fun hbook => ⟨h4 hbook, h5 hbook⟩⟩

end DeepeningProofs

/-- Witness for C7: with an immediately exhausted clock and no book,
`twoMovePos` yields its first generated move. -/
theorem C7_getBestMove_amended_witness :
    (getBestMove aiLate twoMovePos []).1 = some mvA :=
  ((C7_getBestMove_amended aiLate twoMovePos []).2.2 rfl).2 mvA mvB []
    (by decide) (by decide) (by decide) (by decide)

/-- Counterexample to the unamended claim: with an opening book installed,
`getBestMove` returns the book's answer even when it is not on the
generated legal-move list. -/
theorem C7_counterexample :
    (getBestMove aiBook twoMovePos []).1 = some bogusMove ∧
    bogusMove ∉ generateMoves twoMovePos := by
  constructor
  · decide
  · decide

end Draughts
